import Mathlib

/-!
# Wire framing of `tonybillings/comm`

A shallow embedding of `internal/node/message.go`: the packet codec
(`Message.ToBytes`, `MessageFromBytes`, `getChecksum`), the byte-by-byte
frame parser (`MessageBuilder`) and the loop of `MessageStream.process`;
of `internal/transport/type.go` (`GetTypeFromAddress`,
`GetHostAndPortFromTcpAddress`); and of the connection state of
`internal/comobj`, `internal/socket`, `internal/server`, `internal/client` and
`internal/node/connection.go` (`IsIdle`, `Close`, `Read`, `Write`); of the
connection limits of `internal/server/tcp.go` and `internal/node/tcp.go`
(`verifyConnectionLimit`, `Send`, `Stop`, the push of a received message to
the receive channel); and of `pkg/stream/string.go` (`StringStream`).

Conventions of the embedding.

* A Go `byte` is a `Nat`; every place where the source computes in `byte`,
  `uint16` or `uint32` arithmetic carries an explicit `% 256`, `% 65536` or
  `% 4294967296` (that is, modulo 2^32).
* A Go function that may stop with a run-time panic (index or slice bounds out
  of range) returns an `Option`; `none` is the panic.
* A Go pair `(value, error)` is a Lean pair of two `Option`s.
* The standard-library functions the source calls (`fmt.Sprintf("%013d")`,
  `strconv.ParseInt`, `base64.StdEncoding`, `encoding/binary`) are modelled
  after their Go implementation; `encoding/json` is a parameter (`Codec`).
* A Go string is the list of its characters. `strings.Split` and
  `strconv.ParseUint` are modelled; `strings.TrimSpace`, `netip.ParseAddr`,
  `netip.ParseAddrPort` and `net.ParseMAC` are parameters (`AddressLib`).
* The clock is a parameter: a function that reads `time.Now()` takes the time
  it reads as an argument. Calls on one connection are taken one after another.
* A Go channel is its buffer, its capacity and whether it is closed (`Chan`);
  an operation on it is taken on its own, with no other goroutine acting, and
  says whether it completes, blocks or panics (`Outcome`).
-/

namespace Comm

/-! ## Constants and errors -/

/-- Go `MessageSent MessageStatus = 100`. -/
def MessageSent : Nat := 100

/-- Go `MessageReceived = 200`. -/
def MessageReceived : Nat := 200

/-- Go `PayloadNotReceived = 201`. -/
def PayloadNotReceived : Nat := 201

def messageHeaderSize : Nat := 31

def messageSyncByte : Nat := 22

def messageSyncByteCount : Nat := 6

def defaultChanBufferSize : Nat := 1024

/-- The error values that the codec and the stream can hand back.
`ErrInvalidMessageFormat` and `ErrInvalidMessagePayload` are the two values of
`pkg/comerr`; `NumError` is the `*strconv.NumError` of `strconv.ParseInt`,
`MarshalError` an error of `json.Marshal`, `ReadError` the error of the
stream's `io.Reader` (`io.EOF` included). -/
inductive Error where
  | ErrInvalidMessageFormat
  | ErrInvalidMessagePayload
  | NumError
  | MarshalError
  | ReadError
deriving DecidableEq, Repr

/-! ## Byte helpers -/

/-- The Go slice expression `s[lo:hi]` on a list (callers check the bounds). -/
def slice (s : List Nat) (lo hi : Nat) : List Nat :=
  (s.drop lo).take (hi - lo)

/-- Go `getChecksum`: the bytes are added in `byte` arithmetic, then the sum is
xor-ed with 255. -/
def getChecksum (byteSlice : List Nat) : Nat :=
  (byteSlice.foldl (fun checksum b => (checksum + b) % 256) 0) ^^^ 255

/-- Go `binary.BigEndian.PutUint16`. -/
def PutUint16 (v : Nat) : List Nat :=
  [v / 256 % 256, v % 256]

/-- Go `binary.BigEndian.PutUint32`. -/
def PutUint32 (v : Nat) : List Nat :=
  [v / 16777216 % 256, v / 65536 % 256, v / 256 % 256, v % 256]

/-- Go `binary.BigEndian.Uint16`; the operands of the source's `|` occupy
disjoint bits, so the sum is the same number. -/
def Uint16 (b : List Nat) : Nat :=
  b.getD 0 0 * 256 + b.getD 1 0

/-- Go `binary.BigEndian.Uint32`. -/
def Uint32 (b : List Nat) : Nat :=
  b.getD 0 0 * 16777216 + b.getD 1 0 * 65536 + b.getD 2 0 * 256 + b.getD 3 0

/-! ## Time -/

/-- A `time.Time`, abstracted to the instant it denotes: nanoseconds since the
Unix epoch (location and monotonic reading are not modelled). -/
structure Time where
  unixNano : Int
deriving DecidableEq, Repr

/-- The zero `time.Time`: January 1, year 1, 00:00:00 UTC. -/
def Time.zero : Time := ⟨-62135596800000000000⟩

/-- Conversion of an integer to `int64` (two's complement wrap-around). -/
def toInt64 (x : Int) : Int :=
  (x + 9223372036854775808) % 18446744073709551616 - 9223372036854775808

/-- Go `Time.UnixMilli`: milliseconds since the epoch, rounded down, as `int64`. -/
def Time.UnixMilli (t : Time) : Int :=
  toInt64 (t.unixNano / 1000000)

/-- Go `time.UnixMilli`. -/
def UnixMilli (msec : Int) : Time :=
  ⟨msec * 1000000⟩

/-! ## `fmt.Sprintf("%013d", x)` and `strconv.ParseInt(s, 10, 64)` -/

/-- The digit loop of `fmt.fmtInteger`, base 10: decimal digits of `u`, least
significant first, at least one digit. `fuel` bounds the iterations; an
`int64` has at most 19 digits. -/
def decDigitsRev : Nat → Nat → List Nat
  | 0, _ => []
  | fuel + 1, u => if u < 10 then [48 + u] else (48 + u % 10) :: decDigitsRev fuel (u / 10)

/-- Go `fmt.Sprintf("%013d", x)` for an `int64` `x`: the digits are padded with
zeros to 13 places, or to 12 places after a minus sign. -/
def sprintf013d (x : Int) : List Nat :=
  let negative := decide (x < 0)
  let digits := decDigitsRev 20 x.natAbs
  let prec := if negative then 12 else 13
  let padded := digits ++ List.replicate (prec - digits.length) 48
  (if negative then padded ++ [45] else padded).reverse

/-- The digit loop of `strconv.ParseUint`, base 10: the value of the digits, or
`none` at the first byte that is not a digit. -/
def parseDigits : List Nat → Nat → Option Nat
  | [], acc => some acc
  | c :: cs, acc => if 48 ≤ c ∧ c ≤ 57 then parseDigits cs (acc * 10 + (c - 48)) else none

/-- Go `strconv.ParseInt(s, 10, 64)`: an optional sign, then one or more decimal
digits; `none` stands for the returned `*NumError` (syntax or range). -/
def ParseInt (s : List Nat) : Option Int :=
  match s with
  | [] => none
  | c :: cs =>
    let neg := decide (c = 45)
    let body := if c = 43 ∨ c = 45 then cs else s
    if body = [] then none
    else
      match parseDigits body 0 with
      | none => none
      | some un =>
        if neg then (if un ≤ 9223372036854775808 then some (-(un : Int)) else none)
        else (if un ≤ 9223372036854775807 then some (un : Int) else none)

/-! ## `base64.StdEncoding` -/

/-- The standard base64 alphabet, `encodeStd[v]` for `v < 64`. -/
def b64Char (v : Nat) : Nat :=
  if v < 26 then 65 + v
  else if v < 52 then 97 + (v - 26)
  else if v < 62 then 48 + (v - 52)
  else if v = 62 then 43
  else 47

/-- The decode map of the standard alphabet (`none` is the entry `0xff`). -/
def b64Value (c : Nat) : Option Nat :=
  if 65 ≤ c ∧ c ≤ 90 then some (c - 65)
  else if 97 ≤ c ∧ c ≤ 122 then some (c - 97 + 26)
  else if 48 ≤ c ∧ c ≤ 57 then some (c - 48 + 52)
  else if c = 43 then some 62
  else if c = 47 then some 63
  else none

/-- Go `base64.StdEncoding.Encode`: three bytes become four characters; a last
group of one or two bytes is padded with `=` (61). -/
def base64Encode : List Nat → List Nat
  | [] => []
  | [a] =>
    let val := a * 65536
    [b64Char (val / 262144 % 64), b64Char (val / 4096 % 64), 61, 61]
  | [a, b] =>
    let val := a * 65536 + b * 256
    [b64Char (val / 262144 % 64), b64Char (val / 4096 % 64), b64Char (val / 64 % 64), 61]
  | a :: b :: c :: rest =>
    let val := a * 65536 + b * 256 + c
    b64Char (val / 262144 % 64) :: b64Char (val / 4096 % 64) :: b64Char (val / 64 % 64)
      :: b64Char (val % 64) :: base64Encode rest

/-- The bytes that `decodeQuantum` writes for `dlen` collected 6-bit values
`dbuf` (missing values count as 0): `dlen - 1` bytes of the 24-bit group. -/
def quantumBytes (dbuf : List Nat) : List Nat :=
  let val := dbuf.getD 0 0 * 262144 + dbuf.getD 1 0 * 4096 + dbuf.getD 2 0 * 64 + dbuf.getD 3 0
  [val / 65536 % 256, val / 256 % 256, val % 256].take (dbuf.length - 1)

/-- Is the byte `\n` or `\r`, which the decoder skips. -/
def isNewline (c : Nat) : Bool :=
  c = 10 || c = 13

/-- Go `base64.StdEncoding.Decode`, as the repetition of `decodeQuantum`: `dbuf`
holds the 6-bit values of the group being read and `out` the bytes decoded so
far; `none` is a `CorruptInputError`. -/
def base64DecodeAux : List Nat → List Nat → List Nat → Option (List Nat)
  | [], dbuf, out => if dbuf = [] then some out else none
  | c :: rest, dbuf, out =>
    match b64Value c with
    | some v =>
      if dbuf.length = 3 then base64DecodeAux rest [] (out ++ quantumBytes (dbuf ++ [v]))
      else base64DecodeAux rest (dbuf ++ [v]) out
    | none =>
      if isNewline c then base64DecodeAux rest dbuf out
      else if c ≠ 61 then none
      else if dbuf.length < 2 then none
      else if dbuf.length = 2 then
        match rest.dropWhile isNewline with
        | [] => none
        | d :: rest2 =>
          if d ≠ 61 then none
          else if rest2.dropWhile isNewline ≠ [] then none
          else some (out ++ quantumBytes dbuf)
      else if rest.dropWhile isNewline ≠ [] then none
      else some (out ++ quantumBytes dbuf)

def base64Decode (src : List Nat) : Option (List Nat) :=
  base64DecodeAux src [] []

/-! ## Messages -/

/-- The two directions of the payload conversion for the type parameter `T` of
`Message[T]`. For `T = []byte` the source takes the bytes as they are
(`Codec.raw`); for every other `T` it calls `json.Marshal` and
`json.Unmarshal`, which are parameters here (`none` is a returned error). -/
structure Codec (T : Type) where
  marshal : T → Option (List Nat)
  unmarshal : List Nat → Option T

/-- The conversion for `T = []byte`: the type assertions `any(m.Data).(*[]byte)`
and `any(dataBytes).(T)` succeed and nothing is converted. -/
def Codec.raw : Codec (List Nat) :=
  ⟨some, some⟩

/-- The struct `Message[T]`. `status` is the content of the `atomic.Uint32`;
`Data` is `none` for a nil pointer. -/
structure Message (T : Type) where
  id : Nat
  status : Nat
  replyPort : Nat
  fromNode : String
  toNode : String
  sentOn : Time
  receivedOn : Time
  Data : Option T

/-- Bytes 13..25 as `ToBytes` leaves them: the first 13 bytes of the formatted
`sentOn` for status 100, of `receivedOn` for status 200 or 201, and the zero
bytes of the fresh buffer for every other status (the `switch` has no default
case). The status is switched on as a `MessageStatus`, a `byte`. -/
def timestampField {T : Type} (m : Message T) : List Nat :=
  if m.status % 256 = MessageSent then (sprintf013d m.sentOn.UnixMilli).take 13
  else if m.status % 256 = MessageReceived ∨ m.status % 256 = PayloadNotReceived then
    (sprintf013d m.receivedOn.UnixMilli).take 13
  else List.replicate 13 0

/-- Bytes 6..29 of the header as `ToBytes` writes them. -/
def headerFields {T : Type} (m : Message T) (payloadSize : Nat) : List Nat :=
  PutUint16 m.replyPort ++ [m.status % 256] ++ PutUint32 m.id ++ timestampField m
    ++ PutUint32 payloadSize

/-- The 31 header bytes as `ToBytes` writes them into a buffer that is long
enough: preamble, fields, header checksum. -/
def headerBytes {T : Type} (m : Message T) (payloadSize : Nat) : List Nat :=
  List.replicate messageSyncByteCount messageSyncByte ++ headerFields m payloadSize
    ++ [getChecksum (headerFields m payloadSize)]

/-- The payload loop of `ToBytes`,
`for i := messageHeaderSize; i < checksumIndex; i++ { bytes[i] = payloadBytesBase64[i-messageHeaderSize] }`,
with `n` iterations left; `none` when an index is out of range. -/
def copyPayload : Nat → Nat → List Nat → List Nat → Option (List Nat)
  | 0, _, bytes, _ => some bytes
  | n + 1, i, bytes, payloadBytesBase64 =>
    match payloadBytesBase64[i - messageHeaderSize]? with
    | none => none
    | some v =>
      if i < bytes.length then copyPayload n (i + 1) (bytes.set i v) payloadBytesBase64
      else none

/-- Go `Message.ToBytes`. The pair is the Go result `([]byte, error)`; the outer
`none` is a run-time panic. `payloadSize` and the size of the allocation are
`uint32` values. -/
def Message.ToBytes {T : Type} (codec : Codec T) (m : Message T) :
    Option (Option (List Nat) × Option Error) :=
  -- calculate payload size and convert to bytes
  let payload : Option (Nat × Nat × List Nat) :=
    match m.Data with
    | none => some (0, 0, [])
    | some data =>
      match codec.marshal data with
      | none => none
      | some payloadBytes =>
        let payloadBytesBase64 := base64Encode payloadBytes
        some (payloadBytesBase64.length % 4294967296, 1, payloadBytesBase64)
  match payload with
  | none => some (none, some Error.MarshalError)
  | some (payloadSize, payloadChecksumSize, payloadBytesBase64) =>
    -- allocate memory for the entire message
    let size := (messageHeaderSize + payloadSize + payloadChecksumSize) % 4294967296
    -- the header writes reach index 30
    if size < messageHeaderSize then none
    else
      let bytes := headerBytes m payloadSize ++ List.replicate (size - messageHeaderSize) 0
      if payloadSize > 0 then
        let checksumIndex := (messageHeaderSize + payloadSize) % 4294967296
        match copyPayload (checksumIndex - messageHeaderSize) messageHeaderSize bytes
            payloadBytesBase64 with
        | none => none
        | some bytes =>
          if checksumIndex < bytes.length then
            some (some (bytes.set checksumIndex (getChecksum payloadBytesBase64)), none)
          else none
      else some (some bytes, none)

/-- Go `MessageFromBytes`. The pair is the Go result `(*Message[T], error)`; the
outer `none` is a run-time panic. -/
def MessageFromBytes {T : Type} (codec : Codec T) (bytes : List Nat) :
    Option (Option (Message T) × Option Error) :=
  let bytesSize := bytes.length
  -- messages must be at least as big as the (fixed-size) header
  if bytesSize < messageHeaderSize then some (none, some Error.ErrInvalidMessageFormat)
  -- validate the preamble
  else if (bytes.take messageSyncByteCount).any (fun b => b ≠ messageSyncByte) then
    some (none, some Error.ErrInvalidMessageFormat)
  -- validate the header checksum
  else if bytes.getD 30 0 ≠ getChecksum (slice bytes 6 30) then
    some (none, some Error.ErrInvalidMessageFormat)
  else
    let replyPort := Uint16 (slice bytes 6 8)
    let status := bytes.getD 8 0
    let id := Uint32 (slice bytes 9 13)
    match ParseInt (slice bytes 13 26) with
    | none => some (none, some Error.NumError)
    | some timestamp =>
      -- `case MessageReceived | PayloadNotReceived` is the one value 200 | 201
      let msg : Message T :=
        { id := id, status := status, replyPort := replyPort, fromNode := "", toNode := "",
          sentOn := if status % 256 = MessageSent then UnixMilli timestamp else Time.zero,
          receivedOn :=
            if status % 256 = MessageReceived ||| PayloadNotReceived then UnixMilli timestamp
            else Time.zero,
          Data := none }
      let payloadSize := Uint32 (slice bytes 26 30)
      if payloadSize > 0 then
        if bytesSize % 4294967296 ≠ (messageHeaderSize + payloadSize + 1) % 4294967296 then
          some (some msg, some Error.ErrInvalidMessagePayload)
        -- `bytes[messageHeaderSize : bytesSize-1]`
        else if bytesSize - 1 < messageHeaderSize then none
        else
          let dataBytesBase64 := slice bytes messageHeaderSize (bytesSize - 1)
          match bytes[(messageHeaderSize + payloadSize) % 4294967296]? with
          | none => none
          | some payloadChecksum =>
            if payloadChecksum ≠ getChecksum dataBytesBase64 then
              some (some msg, some Error.ErrInvalidMessagePayload)
            else
              match base64Decode dataBytesBase64 with
              | none => some (some msg, some Error.ErrInvalidMessagePayload)
              | some dataBytes =>
                match codec.unmarshal dataBytes with
                | none => some (some msg, some Error.ErrInvalidMessagePayload)
                | some data => some (some { msg with Data := some data }, none)
      else some (some msg, none)

/-! ## The frame parser -/

/-- The struct `MessageBuilder[T]`. -/
structure MessageBuilder where
  preamble : List Nat
  preambleEndIndex : Nat
  payloadStartIndex : Nat
  payloadEndIndex : Nat
  pointer : Nat
  inPreamble : Bool
  inHeader : Bool
  inPayload : Bool
  Data : List Nat
  DataSize : Nat
deriving DecidableEq, Repr

/-- Go `NewMessageBuilder`. -/
def NewMessageBuilder : MessageBuilder :=
  { preamble := [22, 22, 22, 22, 22, 22], preambleEndIndex := 5, payloadStartIndex := 31,
    payloadEndIndex := 0, pointer := 0, inPreamble := false, inHeader := false,
    inPayload := false, Data := List.replicate 31 0, DataSize := 0 }

/-- Go `MessageBuilder.Reset`. -/
def MessageBuilder.Reset (m : MessageBuilder) : MessageBuilder :=
  { m with pointer := 0, inPreamble := false, inHeader := false, inPayload := false }

/-- The assignment `m.Data[m.pointer] = b`; `none` when the index is out of
range. -/
def MessageBuilder.store (m : MessageBuilder) (b : Nat) : Option MessageBuilder :=
  if m.pointer < m.Data.length then some { m with Data := m.Data.set m.pointer b } else none

/-- Go `MessageBuilder.WriteByte`: the builder after the call and the returned
boolean; `none` is a run-time panic. The size of `payloadBuffer` is the
`uint32` value `payloadSize+1`. -/
def MessageBuilder.WriteByte (m : MessageBuilder) (b : Nat) : Option (MessageBuilder × Bool) :=
  if m.inPayload then
    if m.pointer = m.payloadEndIndex then
      match m.store b with
      | none => none
      | some m => some (({ m with DataSize := m.pointer + 1 }).Reset, true)
    else
      match m.store b with
      | none => none
      | some m => some ({ m with pointer := m.pointer + 1 }, false)
  else if m.inHeader then
    match m.store b with
    | none => none
    | some m =>
      let m := { m with pointer := m.pointer + 1 }
      if m.pointer = m.payloadStartIndex then
        -- the loop over `m.Data[6..29]` and the read of `m.Data[30]`
        if m.Data.length < 31 then none
        else
          let cs := getChecksum (slice m.Data 6 30)
          if cs ≠ m.Data.getD 30 0 then some (m.Reset, false)
          else
            let payloadSize := Uint32 (slice m.Data 26 30)
            if payloadSize > 0 then
              let payloadBuffer := List.replicate ((payloadSize + 1) % 4294967296) 0
              some ({ m with payloadEndIndex := 31 + payloadSize, Data := m.Data ++ payloadBuffer,
                             inPayload := true, inHeader := false }, false)
            else some (({ m with DataSize := m.pointer }).Reset, true)
      else some (m, false)
  else if m.inPreamble then
    match m.preamble[m.pointer]? with
    | none => none
    | some p =>
      if p = b then
        match m.store b with
        | none => none
        | some m =>
          let m := { m with pointer := m.pointer + 1 }
          if m.pointer > m.preambleEndIndex then
            some ({ m with inHeader := true, inPreamble := false }, false)
          else some (m, false)
      else some (m.Reset, false)
  else
    match m.preamble[m.pointer]? with
    | none => none
    | some p =>
      if p = b then
        match m.store b with
        | none => none
        | some m => some ({ m with pointer := m.pointer + 1, inPreamble := true }, false)
      else some (m, false)

/-- Go `MessageBuilder.Message`: `MessageFromBytes(m.Data[:m.DataSize])`. -/
def MessageBuilder.Message {T : Type} (codec : Codec T) (m : MessageBuilder) :
    Option (Option (Comm.Message T) × Option Error) :=
  if m.DataSize ≤ m.Data.length then MessageFromBytes codec (m.Data.take m.DataSize) else none

/-- The bytes are given to `WriteByte` one at a time, and `Message` is called
each time `WriteByte` returns true, as the loop of `MessageStream.process`
does. The list has one entry per byte: `none` where `WriteByte` returned false,
the result of `Message` where it returned true. The outer `none` is a panic. -/
def MessageBuilder.feed {T : Type} (codec : Codec T) :
    MessageBuilder → List Nat →
      Option (MessageBuilder × List (Option (Option (Comm.Message T) × Option Error)))
  | m, [] => some (m, [])
  | m, b :: bs =>
    match m.WriteByte b with
    | none => none
    | some (m1, ready) =>
      if ready then
        match m1.Message codec with
        | none => none
        | some r =>
          match MessageBuilder.feed codec m1 bs with
          | none => none
          | some (m2, t) => some (m2, some r :: t)
      else
        match MessageBuilder.feed codec m1 bs with
        | none => none
        | some (m2, t) => some (m2, none :: t)

/-! ## The message stream -/

/-- The state of a `MessageStream[T]` and of its `process` goroutine.
`streamChan` is the content of the buffered channel, oldest message first,
under the schedule in which the consumer does not receive while `process`
runs: a send that finds `bufferSize` messages in the channel takes the
`default` branch of the `select` and the message is dropped. `returned` says
that `process` has closed the channel and returned. -/
structure MessageStream (T : Type) where
  mb : MessageBuilder
  streamChan : List (Message T)
  err : Option Error
  returned : Bool

/-- One iteration of the inner loop of `process` (`for i := 0; i < count; i++`)
for the byte `b`; `none` is a run-time panic. -/
def MessageStream.processByte {T : Type} (codec : Codec T) (bufferSize : Nat)
    (s : MessageStream T) (b : Nat) : Option (MessageStream T) :=
  if s.returned then some s
  else
    match s.mb.WriteByte b with
    | none => none
    | some (mb, ready) =>
      if ready then
        match mb.Message codec with
        | none => none
        | some (msg, none) =>
          match msg with
          | none => none
          | some msg =>
            let msg := { msg with status := MessageReceived }
            if s.streamChan.length < bufferSize then
              some { s with mb := mb, streamChan := s.streamChan ++ [msg] }
            else some { s with mb := mb }
        | some (_, some e) =>
          -- the status 201 is stored in a message that is not sent
          some { s with mb := mb, err := some e, returned := true }
      else some { s with mb := mb }

/-- The inner loop of `process` over the bytes of one `Read`. -/
def MessageStream.processBuffer {T : Type} (codec : Codec T) (bufferSize : Nat) :
    MessageStream T → List Nat → Option (MessageStream T)
  | s, [] => some s
  | s, b :: bs =>
    match s.processByte codec bufferSize b with
    | none => none
    | some s1 => MessageStream.processBuffer codec bufferSize s1 bs

/-- The outer loop of `process` for a reader whose successive `Read` calls
return the chunks `reads` and then an error (`io.EOF` for a `DataReader`). -/
def MessageStream.processReads {T : Type} (codec : Codec T) (bufferSize : Nat) :
    MessageStream T → List (List Nat) → Option (MessageStream T)
  | s, [] => some (if s.returned then s else { s with err := some Error.ReadError, returned := true })
  | s, chunk :: rest =>
    match s.processBuffer codec bufferSize chunk with
    | none => none
    | some s1 => MessageStream.processReads codec bufferSize s1 rest

/-- Go `MessageStream.process` started by `Stream(reader, bufferSize)` on a fresh
stream. -/
def MessageStream.process {T : Type} (codec : Codec T) (bufferSize : Nat)
    (reads : List (List Nat)) : Option (MessageStream T) :=
  MessageStream.processReads codec bufferSize
    { mb := NewMessageBuilder, streamChan := [], err := none, returned := false } reads

/-! ## Auxiliary definitions for the statements -/

/-- An ASCII decimal digit. -/
def IsDigit (c : Nat) : Prop := 48 ≤ c ∧ c ≤ 57

/-- The value of a list of decimal digit characters, least significant first. -/
def valRev : List Nat → Nat
  | [] => 0
  | c :: cs => (c - 48) + 10 * valRev cs

/-- The length of the base64 text that `ToBytes` computes for the message: 0
when there is no payload or the payload cannot be marshalled. -/
def encodedLen {T : Type} (codec : Codec T) (m : Message T) : Nat :=
  match m.Data with
  | none => 0
  | some d =>
    match codec.marshal d with
    | none => 0
    | some p => (base64Encode p).length

/-- The message that `MessageFromBytes` builds from the header that `ToBytes`
writes for `m`, before any payload is looked at. -/
def headerMessage {T : Type} (m : Message T) : Message T :=
  let timestamp := (ParseInt (timestampField m)).getD 0
  { id := m.id % 4294967296, status := m.status % 256, replyPort := m.replyPort % 65536,
    fromNode := "", toNode := "",
    sentOn := if m.status % 256 = MessageSent then UnixMilli timestamp else Time.zero,
    receivedOn :=
      if m.status % 256 = MessageReceived ||| PayloadNotReceived then UnixMilli timestamp
      else Time.zero,
    Data := none }

/-- The frames of the wire format among the values of `Message[T]`: the fields
are in the ranges of their Go types, the status is one of the three statuses
of the wire format, and the payload, when there is one, is marshalled to a
non-empty list of bytes whose base64 text, with the header and the checksum
byte, stays below 2^32 bytes (the size is a `uint32`). -/
def IsFrame {T : Type} (codec : Codec T) (m : Message T) : Prop :=
  m.id < 4294967296 ∧ m.replyPort < 65536 ∧
  (m.status = MessageSent ∨ m.status = MessageReceived ∨ m.status = PayloadNotReceived) ∧
  match m.Data with
  | none => True
  | some d =>
    ∃ p, codec.marshal d = some p ∧ p ≠ [] ∧ (∀ x ∈ p, x < 256) ∧
      (base64Encode p).length + 32 < 4294967296

/-- The buffer that `ToBytes` returns; the empty list when it returns an error
or panics. -/
def wireBytes {T : Type} (codec : Codec T) (m : Message T) : List Nat :=
  match m.ToBytes codec with
  | some (some b, _) => b
  | _ => []

/-- The byte at index `i` of the buffer with bit `k` inverted. -/
def flipBit (b : List Nat) (i k : Nat) : List Nat :=
  b.set i (b.getD i 0 ^^^ 2 ^ k)

/-- A message without payload, as `NewMessage[any](8001, ":8002", nil)` builds
it (id 7, sent at 1700000000123 ms). -/
def exampleMessage : Message (List Nat) :=
  { id := 7, status := MessageSent, replyPort := 8001, fromNode := "", toNode := ":8002",
    sentOn := UnixMilli 1700000000123, receivedOn := Time.zero, Data := none }

/-- The message of `TestMessageSerializationByteArrayPayload`: payload
`[]byte{1, 2, 3, 4}`. -/
def examplePayloadMessage : Message (List Nat) :=
  { exampleMessage with Data := some [1, 2, 3, 4] }

/-- The 40 bytes that `ToBytes` returns for `examplePayloadMessage`. -/
def examplePayloadWire : List Nat :=
  [22, 22, 22, 22, 22, 22, 31, 65, 100, 0, 0, 0, 7, 49, 55, 48, 48, 48, 48, 48, 48, 48, 48, 49,
    50, 51, 0, 0, 0, 8, 174, 65, 81, 73, 68, 66, 65, 61, 61, 227]

/-- A message whose `Data` points to an empty byte slice. -/
def emptyPayloadMessage : Message (List Nat) :=
  { exampleMessage with Data := some [] }

/-- A builder that is looking for the preamble and has seen `r` sync bytes in
a row (`r = 0`: the state after `Reset`). -/
def searching (r : Nat) (data : List Nat) (payloadEnd dataSize : Nat) : MessageBuilder :=
  { preamble := [22, 22, 22, 22, 22, 22], preambleEndIndex := 5, payloadStartIndex := 31,
    payloadEndIndex := payloadEnd, pointer := r, inPreamble := decide (0 < r),
    inHeader := false, inPayload := false, Data := data, DataSize := dataSize }

/-- A builder that is reading header bytes and will write the next one at
index `p`. -/
def readingHeader (p : Nat) (data : List Nat) (payloadEnd dataSize : Nat) : MessageBuilder :=
  { preamble := [22, 22, 22, 22, 22, 22], preambleEndIndex := 5, payloadStartIndex := 31,
    payloadEndIndex := payloadEnd, pointer := p, inPreamble := false,
    inHeader := true, inPayload := false, Data := data, DataSize := dataSize }

/-- A builder that is reading payload bytes and will write the next one at
index `p`; the payload checksum goes to index `payloadEnd`. -/
def readingPayload (p : Nat) (data : List Nat) (payloadEnd dataSize : Nat) : MessageBuilder :=
  { preamble := [22, 22, 22, 22, 22, 22], preambleEndIndex := 5, payloadStartIndex := 31,
    payloadEndIndex := payloadEnd, pointer := p, inPreamble := false,
    inHeader := false, inPayload := true, Data := data, DataSize := dataSize }

/-- A buffer with the layout of one frame: preamble, valid header checksum, and
either 31 bytes with payload size 0 or `31 + N + 1` bytes with payload size
`N > 0`, where `N + 1` does not overflow a `uint32`. -/
def WellFramed (w : List Nat) : Prop :=
  31 ≤ w.length ∧ w.take 6 = List.replicate 6 22 ∧
  w.getD 30 0 = getChecksum (slice w 6 30) ∧
  ((Uint32 (slice w 26 30) = 0 ∧ w.length = 31) ∨
    (0 < Uint32 (slice w 26 30) ∧ Uint32 (slice w 26 30) + 1 < 4294967296 ∧
      w.length = 31 + Uint32 (slice w 26 30) + 1))

/-- A codec that can unmarshal every list of bytes it has marshalled (the raw
conversion for `[]byte` does nothing and is one). -/
def Codec.Reversible {T : Type} (codec : Codec T) : Prop :=
  ∀ d p, codec.marshal d = some p → (codec.unmarshal p).isSome = true

/-- The messages among the results recorded by `MessageBuilder.feed`. -/
def traceMessages {T : Type} (trace : List (Option (Option (Message T) × Option Error))) :
    List (Message T) :=
  trace.filterMap (fun x => x.bind (fun r => r.1))

/-- The status that `process` stores in a message before sending it. -/
def asReceived {T : Type} (msg : Message T) : Message T :=
  { msg with status := MessageReceived }

/-- What `process` does when the reader reports its error. -/
def MessageStream.finish {T : Type} (s : MessageStream T) : MessageStream T :=
  if s.returned then s else { s with err := some Error.ReadError, returned := true }

/-- The number of sync bytes in a row at the end of `bytes`, counted on from
`r` sync bytes seen before. -/
def runAfter (r : Nat) : List Nat → Nat
  | [] => r
  | b :: bs => if b = 22 then runAfter (r + 1) bs else runAfter 0 bs

/-- From `r` sync bytes in a row, the bytes never complete a run of six. -/
def quiet (r : Nat) : List Nat → Bool
  | [] => true
  | b :: bs => if b = 22 then decide (r + 1 < 6) && quiet (r + 1) bs else quiet 0 bs

/-- What the reader loop records for the bytes `w` of one frame whose decoding
gives `r`: false on every byte but the last, and `r` at the last byte. -/
def frameTrace {T : Type} (w : List Nat) (r : Option (Message T) × Option Error) :
    List (Option (Option (Message T) × Option Error)) :=
  List.replicate (w.length - 1) none ++ [some r]

/-- The values of `transport.Type`. -/
inductive TransportType
  | NotSet
  | TCP
  | UDP
  | RFCOMM
deriving DecidableEq, Repr

/-- The two errors of package `comerr` that package `transport` returns. -/
inductive AddressError
  | ErrAddressEmpty
  | ErrAddressFormatUnknown
deriving DecidableEq, Repr

/-- The functions of the Go standard library that `GetTypeFromAddress` calls on
the address, a string given as its list of characters: `strings.TrimSpace`, and
whether `netip.ParseAddr`, `netip.ParseAddrPort` and `net.ParseMAC` return no
error. They are parameters of the model. -/
structure AddressLib where
  TrimSpace : List Char → List Char
  ParseAddr : List Char → Bool
  ParseAddrPort : List Char → Bool
  ParseMAC : List Char → Bool

/-- Go `strings.HasPrefix`. -/
def HasPrefix (s p : List Char) : Bool :=
  p.isPrefixOf s

/-- Go `GetTypeFromAddress`: the type and the error (`none` is `nil`). -/
def GetTypeFromAddress (lib : AddressLib) (address : List Char) :
    TransportType × Option AddressError :=
  let address := lib.TrimSpace address
  if address = [] then (TransportType.NotSet, some AddressError.ErrAddressEmpty)
  else if address = "localhost".toList || HasPrefix address "localhost:".toList then
    (TransportType.TCP, none)
  else if lib.ParseAddr address then (TransportType.TCP, none)
  else
    let address := if HasPrefix address ":".toList then "0.0.0.0".toList ++ address else address
    if lib.ParseAddrPort address then (TransportType.TCP, none)
    else if lib.ParseMAC address then (TransportType.RFCOMM, none)
    else (TransportType.NotSet, some AddressError.ErrAddressFormatUnknown)

/-- Go `strings.Split(s, sep)` for a separator `sep` of one character: the
pieces of `s` between the occurrences of `sep`; one piece more than there are
occurrences. -/
def Split (s : List Char) (sep : Char) : List (List Char) :=
  match s with
  | [] => [[]]
  | c :: cs =>
    if c = sep then [] :: Split cs sep
    else
      match Split cs sep with
      | [] => [[c]]
      | p :: ps => (c :: p) :: ps

/-- The digit loop of `strconv.ParseUint`, base 10, on characters. -/
def parseUintDigits : List Char → Nat → Option Nat
  | [], acc => some acc
  | c :: cs, acc =>
    if 48 ≤ c.toNat ∧ c.toNat ≤ 57 then parseUintDigits cs (acc * 10 + (c.toNat - 48)) else none

/-- Go `strconv.ParseUint(s, 10, bitSize)`: one or more decimal digits, without
sign or underscore, whose value is below `2 ^ bitSize`; `none` is a returned
error (syntax or range). -/
def ParseUint (s : List Char) (bitSize : Nat) : Option Nat :=
  if s = [] then none
  else
    match parseUintDigits s 0 with
    | none => none
    | some v => if v < 2 ^ bitSize then some v else none

/-- Go `GetHostAndPortFromTcpAddress`: host, port and error. The port is the
`uint16` conversion of the parsed number. -/
def GetHostAndPortFromTcpAddress (lib : AddressLib) (address : List Char) :
    List Char × Nat × Option AddressError :=
  let (addrType, e) := GetTypeFromAddress lib address
  if e ≠ none ∨ addrType ≠ TransportType.TCP then
    ([], 0, some AddressError.ErrAddressFormatUnknown)
  else
    let addrParts := Split address ':'
    if addrParts.length ≠ 2 then ([], 0, some AddressError.ErrAddressFormatUnknown)
    else
      match ParseUint (addrParts.getD 1 []) 16 with
      | none => ([], 0, some AddressError.ErrAddressFormatUnknown)
      | some p =>
        let port := p % 65536
        let host := addrParts.getD 0 []
        let host := if host = [] then "0.0.0.0".toList else host
        (host, port, none)

/-- The first rule of an ordered list of rules whose condition holds gives the
result; `dflt` when no condition holds. -/
def firstRule {α : Type} : List (Bool × α) → α → α
  | [], dflt => dflt
  | (c, r) :: rest, dflt => if c then r else firstRule rest dflt

/-- The rule cascade of the specification of address classification, on the
whitespace-trimmed input `t`; the rules after the bare IP address apply to `t`
with `0.0.0.0` put in front when `t` starts with a colon. -/
def addressRuleCascade (lib : AddressLib) (input : List Char) :
    TransportType × Option AddressError :=
  let t := lib.TrimSpace input
  let u := if HasPrefix t [':'] then "0.0.0.0".toList ++ t else t
  firstRule
    [ (decide (t = []), (TransportType.NotSet, some AddressError.ErrAddressEmpty)),
      (decide (t = "localhost".toList) || HasPrefix t "localhost:".toList,
        (TransportType.TCP, none)),
      (lib.ParseAddr t, (TransportType.TCP, none)),
      (lib.ParseAddrPort u, (TransportType.TCP, none)),
      (lib.ParseMAC u, (TransportType.RFCOMM, none)) ]
    (TransportType.NotSet, some AddressError.ErrAddressFormatUnknown)

/-- The decimal value of a string of digits. -/
def decimalValue (s : List Char) : Nat :=
  s.foldl (fun acc c => acc * 10 + (c.toNat - 48)) 0

/-- A stand-in for the library in examples: it trims nothing, takes
`127.0.0.1` for the only IP address, `0.0.0.0:` or `127.0.0.1:` followed by a
16-bit decimal number for the IP:port strings, and no string for a MAC
address. -/
def exampleLib : AddressLib :=
  { TrimSpace := fun s => s,
    ParseAddr := fun s => decide (s = "127.0.0.1".toList),
    ParseAddrPort := fun s =>
      (HasPrefix s "0.0.0.0:".toList && (ParseUint (s.drop 8) 16).isSome) ||
      (HasPrefix s "127.0.0.1:".toList && (ParseUint (s.drop 10) 16).isSome),
    ParseMAC := fun _ => false }

/-- The struct `comobj.DefaultIdleable`: two `int64` values, in Unix
milliseconds. -/
structure DefaultIdleable where
  lastNotIdle : Int
  idleTimeoutMs : Int
deriving DecidableEq, Repr

/-- Go `DefaultIdleable.NotIdle`; `now` is the value of `time.Now()`. -/
def DefaultIdleable.NotIdle (i : DefaultIdleable) (now : Time) : DefaultIdleable :=
  { i with lastNotIdle := now.UnixMilli }

/-- Go `DefaultIdleable.SetIdleTimeout`. -/
def DefaultIdleable.SetIdleTimeout (i : DefaultIdleable) (milliseconds : Int) (now : Time) :
    DefaultIdleable :=
  DefaultIdleable.NotIdle { i with idleTimeoutMs := milliseconds } now

/-- Go `DefaultIdleable.IsIdle`; the difference is an `int64` subtraction. -/
def DefaultIdleable.IsIdle (i : DefaultIdleable) (now : Time) : Bool :=
  let idleTimeoutMs := i.idleTimeoutMs
  if idleTimeoutMs < 1 then false
  else decide (toInt64 (now.UnixMilli - i.lastNotIdle) > idleTimeoutMs)

/-- The struct `comobj.DefaultConnectable`; `none` is a nil pointer. -/
structure DefaultConnectable where
  isConnected : Bool
  connectTime : Option Time
  disconnectTime : Option Time
deriving DecidableEq, Repr

/-- Go `DefaultConnectable.IsConnected`. -/
def DefaultConnectable.IsConnected (c : DefaultConnectable) : Bool :=
  c.isConnected

/-- Go `DefaultConnectable.DisconnectTime`. -/
def DefaultConnectable.DisconnectTime (c : DefaultConnectable) : Option Time :=
  c.disconnectTime

/-- The struct `socket.DefaultConnection`, which embeds `DefaultConnectable`
and `DefaultIdleable`. The close handler returns an error of type `E` or nil;
`none` is a nil handler. -/
structure DefaultConnection (E : Type) extends DefaultConnectable, DefaultIdleable where
  id : Nat
  remoteAddress : String
  closeHandler : Option (Nat → Option E)

/-- Go `DefaultConnectable.SetIsConnected` on a `DefaultConnection`. -/
def DefaultConnection.SetIsConnected {E : Type} (c : DefaultConnection E) (isConnected : Bool) :
    DefaultConnection E :=
  { c with isConnected := isConnected }

/-- Go `DefaultConnectable.SetConnectTime` on a `DefaultConnection`. -/
def DefaultConnection.SetConnectTime {E : Type} (c : DefaultConnection E) (connectTime : Time) :
    DefaultConnection E :=
  { c with connectTime := some connectTime }

/-- Go `DefaultConnectable.SetDisconnectTime` on a `DefaultConnection`. -/
def DefaultConnection.SetDisconnectTime {E : Type} (c : DefaultConnection E)
    (disconnectTime : Time) : DefaultConnection E :=
  { c with disconnectTime := some disconnectTime }

/-- Go `DefaultConnection.Configure`. `now` and `now2` are the two readings of
the clock (for the connect time and inside `SetIdleTimeout`), `newId` the value
of `NewConnectionID()`. -/
def DefaultConnection.Configure {E : Type} (c : DefaultConnection E) (remoteAddress : String)
    (idleTimeoutMs : Int) (closeHandler : Option (Nat → Option E)) (now now2 : Time)
    (newId : Nat) : DefaultConnection E :=
  let c := c.SetConnectTime now
  let c := { c with id := newId }
  let c := { c with remoteAddress := remoteAddress }
  let c := { c with toDefaultIdleable := c.toDefaultIdleable.SetIdleTimeout idleTimeoutMs now2 }
  let c := { c with closeHandler := closeHandler }
  c.SetIsConnected true

/-- Go `DefaultConnection.Close` on a non-nil receiver: the connection after
the call, the returned error, and the ids with which the close handler was
invoked during the call. `now` is the value of `time.Now().UTC()`, the argument
of the deferred `SetDisconnectTime`, which runs when the function returns. -/
def DefaultConnection.Close {E : Type} (c : DefaultConnection E) (now : Time) :
    DefaultConnection E × Option E × List Nat :=
  if !c.IsConnected then (c, none, [])
  else
    let c := c.SetIsConnected false
    match c.closeHandler with
    | some handler => (c.SetDisconnectTime now, handler c.id, [c.id])
    | none => (c.SetDisconnectTime now, none, [])

/-- A sequence of calls of `Close`, at the given times: the connection after
them, the returned errors, and the ids of all handler invocations. -/
def DefaultConnection.CloseAll {E : Type} (c : DefaultConnection E) :
    List Time → DefaultConnection E × List (Option E) × List Nat
  | [] => (c, [], [])
  | t :: ts =>
    let r := c.Close t
    let rest := DefaultConnection.CloseAll r.1 ts
    (rest.1, r.2.1 :: rest.2.1, r.2.2 ++ rest.2.2)

/-- The errors that a read or a write on a socket may give, as far as
`SinkReadWriteError` tells them apart; `Timeout` is an error for which
`os.IsTimeout` holds. -/
inductive SocketError
  | EINTR
  | EAGAIN
  | EINPROGRESS
  | Timeout
  | Other
deriving DecidableEq, Repr

/-- Go `socket.SinkReadWriteError`; `none` is nil. -/
def SinkReadWriteError (err : Option SocketError) : Option SocketError :=
  match err with
  | none => none
  | some SocketError.EINTR => none
  | some SocketError.EAGAIN => none
  | some SocketError.EINPROGRESS => none
  | some SocketError.Timeout => none
  | some SocketError.Other => some SocketError.Other

/-- The errors that `Read` and `Write` return. -/
inductive RWError
  | ErrClosed
  | ErrSetReadTimeout
  | Socket (e : SocketError)
deriving DecidableEq, Repr

/-- The struct `server.Connection` of a TCP server: the embedded
`DefaultConnection` and the socket `tcpConn` (`none` is nil; the boolean tells
whether the socket is still open). -/
structure ServerConnection (E : Type) extends DefaultConnection E where
  tcpConn : Option Bool

/-- Go `TcpServer.read`, reached through `server.Connection.Read`.
`deadlineErr` tells whether `SetReadDeadline` returned an error, `sys` is the
result of `tcpConn.Read`. On an error `CloseClient` closes the socket; the
connection table of the server is not part of the model. -/
def TcpServer.read {E : Type} (conn : ServerConnection E) (deadlineErr : Bool)
    (sys : Int × Option SocketError) : ServerConnection E × Int × Option RWError :=
  match conn.tcpConn with
  | none => (conn, -1, some RWError.ErrClosed)
  | some _ =>
    if deadlineErr then (conn, -1, some RWError.ErrSetReadTimeout)
    else
      match SinkReadWriteError sys.2 with
      | some e => ({ conn with tcpConn := some false }, sys.1, some (RWError.Socket e))
      | none => (conn, sys.1, none)

/-- Go `TcpServer.write`, reached through `server.Connection.Write`. -/
def TcpServer.write {E : Type} (conn : ServerConnection E) (sys : Int × Option SocketError) :
    ServerConnection E × Int × Option RWError :=
  match conn.tcpConn with
  | none => (conn, -1, some RWError.ErrClosed)
  | some _ =>
    match SinkReadWriteError sys.2 with
    | some e => ({ conn with tcpConn := some false }, sys.1, some (RWError.Socket e))
    | none => (conn, sys.1, none)

/-- The struct `client.TcpClient`: the embedded `DefaultConnectable` and the
socket `conn` (`false` is nil). -/
structure TcpClient extends DefaultConnectable where
  conn : Bool
deriving DecidableEq, Repr

/-- Go `TcpClient.Stop`, without its result. -/
def TcpClient.Stop (c : TcpClient) : TcpClient :=
  { c with conn := false, isConnected := false }

/-- Go `TcpClient.Read`. -/
def TcpClient.Read (c : TcpClient) (deadlineErr : Bool) (sys : Int × Option SocketError) :
    TcpClient × Int × Option RWError :=
  if !c.conn then (c, -1, some RWError.ErrClosed)
  else if deadlineErr then (c, -1, some RWError.ErrSetReadTimeout)
  else
    match SinkReadWriteError sys.2 with
    | some e => (c.Stop, sys.1, some (RWError.Socket e))
    | none => (c, sys.1, none)

/-- Go `TcpClient.Write`. -/
def TcpClient.Write (c : TcpClient) (sys : Int × Option SocketError) :
    TcpClient × Int × Option RWError :=
  if !c.conn then (c, -1, some RWError.ErrClosed)
  else
    match SinkReadWriteError sys.2 with
    | some e => (c.Stop, sys.1, some (RWError.Socket e))
    | none => (c, sys.1, none)

/-- The two values of `node.ConnectionType`. -/
inductive ConnectionType
  | Caller
  | Callee
deriving DecidableEq, Repr

/-- The struct `node.Connection`: the embedded `DefaultConnection`, the type,
and the connection of the caller or of the callee (`none` is nil). -/
structure Connection (E : Type) extends DefaultConnection E where
  connectionType : ConnectionType
  callerConn : Option TcpClient
  calleeConn : Option (ServerConnection E)

/-- Go `node.NewConnection`. -/
def NewConnection {E : Type} (remoteAddress : String) (idleTimeoutMs : Int)
    (closeHandler : Option (Nat → Option E)) (now now2 : Time) (newId : Nat) : Connection E :=
  let zero : DefaultConnection E :=
    { isConnected := false, connectTime := none, disconnectTime := none, lastNotIdle := 0,
      idleTimeoutMs := 0, id := 0, remoteAddress := "", closeHandler := none }
  { toDefaultConnection := zero.Configure remoteAddress idleTimeoutMs closeHandler now now2 newId,
    connectionType := ConnectionType.Caller, callerConn := none, calleeConn := none }

/-- Go `node.Connection.Read`: the connection after the call, the count and
the error; the outer `none` is the run-time panic of a call on a nil
interface. -/
def Connection.Read {E : Type} (c : Connection E) (deadlineErr : Bool)
    (sys : Int × Option SocketError) : Option (Connection E × Int × Option RWError) :=
  match c.connectionType with
  | ConnectionType.Caller =>
    match c.callerConn with
    | none => none
    | some cl =>
      let r := cl.Read deadlineErr sys
      some ({ c with callerConn := some r.1 }, r.2.1, r.2.2)
  | ConnectionType.Callee =>
    match c.calleeConn with
    | none => none
    | some sc =>
      let r := TcpServer.read sc deadlineErr sys
      some ({ c with calleeConn := some r.1 }, r.2.1, r.2.2)

/-- Go `node.Connection.Write`. -/
def Connection.Write {E : Type} (c : Connection E) (sys : Int × Option SocketError) :
    Option (Connection E × Int × Option RWError) :=
  match c.connectionType with
  | ConnectionType.Caller =>
    match c.callerConn with
    | none => none
    | some cl =>
      let r := cl.Write sys
      some ({ c with callerConn := some r.1 }, r.2.1, r.2.2)
  | ConnectionType.Callee =>
    match c.calleeConn with
    | none => none
    | some sc =>
      let r := TcpServer.write sc sys
      some ({ c with calleeConn := some r.1 }, r.2.1, r.2.2)

/-- Go `IsIdle` on a `node.Connection`, the method of the embedded
`DefaultIdleable`. -/
def Connection.IsIdle {E : Type} (c : Connection E) (now : Time) : Bool :=
  c.toDefaultIdleable.IsIdle now

/-- The connection that `handleIncomingConnection` sets up for an accepted
socket, created at Unix time 0 with an idle timeout of 1000 ms. -/
def exampleConnection : Connection Unit :=
  { NewConnection "127.0.0.1:50000" 1000 (some (fun _ => none)) (UnixMilli 0) (UnixMilli 0) 2 with
    connectionType := ConnectionType.Callee,
    calleeConn := some
      { toDefaultConnection :=
          (NewConnection "127.0.0.1:50000" 1000 (some (fun _ => none)) (UnixMilli 0)
            (UnixMilli 0) 1 : Connection Unit).toDefaultConnection,
        tcpConn := some true } }

/-- A Go channel with a buffer of `cap` values: the buffered values, oldest
first, and whether the channel is closed. No other goroutine is waiting on the
channel. -/
structure Chan (α : Type) where
  buf : List α
  cap : Nat
  closed : Bool

/-- What becomes of a goroutine at a statement that may block or panic. -/
inductive Outcome (σ : Type)
  | done (s : σ)
  | blocked
  | panicked

/-- The send statement `c <- v`: a panic on a closed channel, the value at the
end of the buffer when there is room, and otherwise the goroutine blocks. -/
def Chan.send {α : Type} (c : Chan α) (v : α) : Outcome (Chan α) :=
  if c.closed then Outcome.panicked
  else if c.buf.length < c.cap then Outcome.done { c with buf := c.buf ++ [v] }
  else Outcome.blocked

/-- The statement `select { case c <- v: default: }`: `none` is the panic of a
send on a closed channel; when the buffer is full the default case runs and
the channel is unchanged. -/
def Chan.trySend {α : Type} (c : Chan α) (v : α) : Option (Chan α) :=
  if c.closed then none
  else if c.buf.length < c.cap then some { c with buf := c.buf ++ [v] }
  else some c

/-- The receive case of `select { case <-c: ... default: ... }`: the received
value (`none` is the zero value that a closed, empty channel gives) and the
channel after it; the outer `none` means that the default case runs. -/
def Chan.tryRecv {α : Type} (c : Chan α) : Option (Option α × Chan α) :=
  match c.buf with
  | v :: rest => some (some v, { c with buf := rest })
  | [] => if c.closed then some (none, c) else none

/-- Go `close(c)`; `none` is the panic of closing a closed channel. -/
def Chan.close {α : Type} (c : Chan α) : Option (Chan α) :=
  if c.closed then none else some { c with closed := true }

/-- The error `comerr.ErrConnectionLimitReached` as a server returns it,
wrapped together with the client count. -/
structure LimitError where
  clientCount : Nat
deriving DecidableEq, Repr

/-- The struct `server.TcpServer` as far as the connection limit and `Stop` use
it: the `DefaultRunnable` flag, the table `connections` of the accepted
connections, and whether the listen context has been cancelled. -/
structure TcpServer (E : Type) where
  isRunning : Bool
  connections : List (ServerConnection E)
  listenCancelled : Bool

/-- Go `BaseServer.ClientCount`. -/
def TcpServer.ClientCount {E : Type} (s : TcpServer E) : Int :=
  s.connections.length

/-- Go `TcpServer.verifyConnectionLimit`; `none` is nil. -/
def TcpServer.verifyConnectionLimit {E : Type} (s : TcpServer E) (connectionLimit : Int) :
    Option LimitError :=
  let clientCount := s.ClientCount
  let connectionLimit := if connectionLimit < 0 then 4096 else connectionLimit
  if clientCount ≥ connectionLimit then some ⟨clientCount.toNat⟩
  else none

/-- Go `BaseServer.Stop`. -/
def TcpServer.Stop {E : Type} (s : TcpServer E) : TcpServer E :=
  if !s.isRunning then s else { s with listenCancelled := true }

/-- Go `TcpServer.CloseClient` on the table of the server: the connection with
the given id, if the table holds it, is deleted (and its socket closed). -/
def TcpServer.CloseClient {E : Type} (s : TcpServer E) (id : Nat) : TcpServer E :=
  { s with connections := s.connections.filter (fun c => c.id != id) }

/-- A sequence of calls of `CloseClient`. -/
def TcpServer.CloseClients {E : Type} (s : TcpServer E) (ids : List Nat) : TcpServer E :=
  ids.foldl TcpServer.CloseClient s

/-- The fields of `node.Config` that the modelled functions read. -/
structure NodeConfig where
  IncomingConnectionLimit : Int
  OutgoingConnectionLimit : Int
  IdleConnectionTimeoutMs : Int
  SendMessageReceipts : Bool
deriving DecidableEq, Repr

/-- The errors that the functions of a node return or send to its error
channel; `E` is the type of the errors of closing a socket. -/
inductive NodeError (E : Type)
  | ErrConnectionLimitReached
  | Address (e : AddressError)
  | Dial
  | Encode (e : Error)
  | ReadWrite (e : RWError)
  | Close (e : E)

/-- The struct `node.TcpNode[T]`: the `DefaultRunnable` flag, the
configuration, the server (`none` is nil), the reply address and port, the
pool `connections`, the two channels (`none` is nil), and the errors given to
`SendError` so far. -/
structure TcpNode (E T : Type) where
  isRunning : Bool
  cfg : NodeConfig
  server : Option (TcpServer E)
  replyAddress : String
  replyPort : Nat
  connections : List (Connection E)
  incomingChan : Option (Chan (Message T))
  statusChan : Option (Chan (Message T))
  sentErrors : List (NodeError E)

/-- Go `NewMessage`; `id` is the value of `messageNextId.Add(1)` and `now` that
of `time.Now()`. -/
def NewMessage {T : Type} (replyPort : Nat) (toNode : String) (data : Option T) (id : Nat)
    (now : Time) : Message T :=
  { id := id, status := MessageSent, replyPort := replyPort, fromNode := "", toNode := toNode,
    sentOn := UnixMilli now.UnixMilli, receivedOn := Time.zero, Data := data }

/-- Go `NewMessageReceipt`. -/
def NewMessageReceipt {T : Type} (id replyPort : Nat) (toNode : String) (status : Nat)
    (now : Time) : Message T :=
  { id := id, status := status, replyPort := replyPort, fromNode := "", toNode := toNode,
    sentOn := Time.zero, receivedOn := UnixMilli now.UnixMilli, Data := none }

/-- Go `TcpNode.verifyConnectionLimit`: the inner `none` is nil, the outer
`none` is the panic of a call on the nil server. -/
def TcpNode.verifyConnectionLimit {E T : Type} (n : TcpNode E T) (connectionLimit : Int) :
    Option (Option (NodeError E)) :=
  let connectionLimit := if connectionLimit < 0 then 4096 else connectionLimit
  match n.server with
  | none => none
  | some server =>
    if server.ClientCount ≥ connectionLimit then some (some NodeError.ErrConnectionLimitReached)
    else some none

/-- Go `TcpNode.getConnectionByAddress`: a connection of the pool with that
remote address, or `none` (nil). -/
def TcpNode.getConnectionByAddress {E T : Type} (n : TcpNode E T) (address : String) :
    Option (Connection E) :=
  n.connections.find? (fun c => c.remoteAddress == address)

/-- Go `TcpNode.addOutgoingConnection`, without the goroutine that it starts
for the receipts: the node, the new connection and the error. `dialed` tells
whether `client.New` and `Start` succeed, `handler` is `n.closeConnection`,
`now`, `now2` and `newId` are the clock and the id for `NewConnection`. The
outer `none` is a panic. -/
def TcpNode.addOutgoingConnection {E T : Type} (lib : AddressLib) (n : TcpNode E T)
    (toNode : String) (dialed : Bool) (handler : Nat → Option E) (now now2 : Time)
    (newId : Nat) : Option (TcpNode E T × Option (Connection E) × Option (NodeError E)) :=
  match n.verifyConnectionLimit n.cfg.OutgoingConnectionLimit with
  | none => none
  | some (some err) => some (n, none, some err)
  | some none =>
    match GetHostAndPortFromTcpAddress lib toNode.toList with
    | (_, _, some err) => some (n, none, some (NodeError.Address err))
    | (_, _, none) =>
      if !dialed then some (n, none, some NodeError.Dial)
      else
        let c : TcpClient :=
          { isConnected := true, connectTime := none, disconnectTime := none, conn := true }
        let conn : Connection E :=
          { NewConnection toNode n.cfg.IdleConnectionTimeoutMs (some handler) now now2 newId with
            connectionType := ConnectionType.Caller, callerConn := some c }
        some ({ n with connections := conn :: n.connections }, some conn, none)

/-- The pool holds pointers: a change of a connection shows in the pool, at
the entry with the same id. -/
def TcpNode.setConnection {E T : Type} (n : TcpNode E T) (conn : Connection E) : TcpNode E T :=
  { n with connections := n.connections.map (fun c => if c.id = conn.id then conn else c) }

/-- Go `TcpNode.Send`: the node, the message and the error. `id` and `nowMsg`
are the id and the clock of `NewMessage`, `sys` is the result of the write on
the socket; the other parameters are those of `addOutgoingConnection`. The
outer `none` is a panic. -/
def TcpNode.Send {E T : Type} (lib : AddressLib) (codec : Codec T) (n : TcpNode E T)
    (toNode : String) (data : Option T) (id : Nat) (nowMsg : Time) (dialed : Bool)
    (handler : Nat → Option E) (now now2 : Time) (newId : Nat)
    (sys : Int × Option SocketError) :
    Option (TcpNode E T × Option (Message T) × Option (NodeError E)) :=
  let msg : Message T := NewMessage n.replyPort toNode data id nowMsg
  let found : Option (Option (TcpNode E T × Connection E) × Option (NodeError E)) :=
    match n.getConnectionByAddress toNode with
    | some conn => some (some (n, conn), none)
    | none =>
      match n.addOutgoingConnection lib toNode dialed handler now now2 newId with
      | none => none
      | some (_, _, some err) => some (none, some err)
      | some (_, none, none) => none
      | some (n1, some c, none) => some (some (n1, c), none)
  match found with
  | none => none
  | some (none, err) => some (n, none, err)
  | some (some (n1, conn), _) =>
    match msg.ToBytes codec with
    | none => none
    | some (_, some err) => some (n1, none, some (NodeError.Encode err))
    | some (none, none) => none
    | some (some _, none) =>
      match conn.Write sys with
      | none => none
      | some (conn1, _, some err) =>
        some (n1.setConnection conn1, none, some (NodeError.ReadWrite err))
      | some (conn1, _, none) =>
        some (n1.setConnection conn1, some msg, none)

/-- The loop of `TcpNode.Stop` over the pool: every connection is closed and
deleted from the pool, and the errors of the calls of `Close` are given to
`SendError`. The result is the list of these errors. -/
def closeErrors {E : Type} (now : Time) : List (Connection E) → List (NodeError E)
  | [] => []
  | c :: cs =>
    match (c.toDefaultConnection.Close now).2.1 with
    | some e => NodeError.Close e :: closeErrors now cs
    | none => closeErrors now cs

/-- The accepted connections that the loop of `TcpNode.Stop` closes, by their
ids. `Close` on a pooled connection that is connected calls its close handler,
`n.closeConnection`, which calls `Close` on the callee connection; when that
one is connected, its close handler, `CloseClient`, is called with its id. -/
def closedClients {E : Type} (now : Time) : List (Connection E) → List Nat
  | [] => []
  | c :: cs =>
    (if (c.toDefaultConnection.Close now).2.2 = [] then []
     else
       match c.calleeConn with
       | some callee => (callee.toDefaultConnection.Close now).2.2
       | none => []) ++ closedClients now cs

/-- Go `TcpNode.Stop`, with no other goroutine of the node or of its server
running during the call; `now` is the clock for the calls of `Close`, `none` a
panic. The accepted connections that the loop closes are deleted from the table
of the server by `CloseClient`. -/
def TcpNode.Stop {E T : Type} (n : TcpNode E T) (now : Time) : Option (TcpNode E T) :=
  if !n.isRunning then some n
  else
    let n := { n with server := n.server.map TcpServer.Stop }
    let closed := closedClients now n.connections
    let n := { n with sentErrors := n.sentErrors ++ closeErrors now n.connections,
                      server := n.server.map (fun s => TcpServer.CloseClients s closed),
                      connections := [] }
    let n := { n with isRunning := false }
    match n.incomingChan with
    | none => some n
    | some incomingChan =>
      -- `select { case <-n.incomingChan: return; default: close(n.incomingChan) }`
      match incomingChan.tryRecv with
      | some (_, c) => some { n with incomingChan := some c }
      | none =>
        match incomingChan.close with
        | none => none
        | some c => some { n with incomingChan := some c }

/-- Go `TcpNode.sendReceipt`: the connection after the write, the bytes given
to `Write` and the error. -/
def TcpNode.sendReceipt {E T : Type} (codec : Codec T) (n : TcpNode E T) (message : Message T)
    (conn : ServerConnection E) (now : Time) (sys : Int × Option SocketError) :
    Option (ServerConnection E × Option (List Nat) × Option (NodeError E)) :=
  let rcpt : Message T :=
    NewMessageReceipt message.id n.replyPort conn.remoteAddress (message.status % 256) now
  match rcpt.ToBytes codec with
  | none => none
  | some (_, some err) => some (conn, none, some (NodeError.Encode err))
  | some (none, none) => none
  | some (some rcptBytes, none) =>
    match TcpServer.write conn sys with
    | (conn1, _, some err) => some (conn1, some rcptBytes, some (NodeError.ReadWrite err))
    | (conn1, _, none) => some (conn1, some rcptBytes, none)

/-- What one turn of the loop of `handleIncomingConnection` leaves: the node,
the connection, the receipt bytes given to `Write` (if any), and whether the
function has returned. -/
structure Handled (E T : Type) where
  node : TcpNode E T
  conn : ServerConnection E
  receipt : Option (List Nat)
  returned : Bool

/-- One turn of the loop `for msg := range NewMessageStream[T](conn)` of Go
`TcpNode.handleIncomingConnection`, for the message `msg` that the stream
gives. `now` is the clock for `receivedOn`, `now2` the clock of the receipt,
`sys` the result of the write of the receipt on the socket. -/
def TcpNode.handleIncomingMessage {E T : Type} (codec : Codec T) (n : TcpNode E T)
    (conn : ServerConnection E) (callerHost : String) (sendReceipts : Bool) (msg : Message T)
    (now now2 : Time) (sys : Int × Option SocketError) : Outcome (Handled E T) :=
  let msg : Message T :=
    { msg with receivedOn := now, fromNode := callerHost ++ ":" ++ toString msg.replyPort,
               toNode := n.replyAddress }
  -- `n.incomingChan <- msg`
  match n.incomingChan with
  | none => Outcome.blocked
  | some incomingChan =>
    match incomingChan.send msg with
    | Outcome.blocked => Outcome.blocked
    | Outcome.panicked => Outcome.panicked
    | Outcome.done c =>
      let n := { n with incomingChan := some c }
      if !n.isRunning then
        match c.close with
        | none => Outcome.panicked
        | some c1 =>
          Outcome.done { node := { n with incomingChan := some c1 }, conn := conn,
                         receipt := none, returned := true }
      else if sendReceipts then
        match n.sendReceipt codec msg conn now2 sys with
        | none => Outcome.panicked
        | some (conn1, bytes, some e) =>
          Outcome.done { node := { n with sentErrors := n.sentErrors ++ [e] }, conn := conn1,
                         receipt := bytes, returned := false }
        | some (conn1, bytes, none) =>
          Outcome.done { node := n, conn := conn1, receipt := bytes, returned := false }
      else Outcome.done { node := n, conn := conn, receipt := none, returned := false }

/-- A running node with reply address `127.0.0.1:8001`, an outgoing limit of
1, a server with the accepted connections `clients`, the pool `pool`, and a
receive channel of capacity `cap` that holds `buffered`. -/
def exampleNode (clients : List (ServerConnection Unit)) (pool : List (Connection Unit))
    (cap : Nat) (buffered : List (Message (List Nat))) : TcpNode Unit (List Nat) :=
  { isRunning := true,
    cfg := { IncomingConnectionLimit := -1, OutgoingConnectionLimit := 1,
             IdleConnectionTimeoutMs := 60000, SendMessageReceipts := true },
    server := some { isRunning := true, connections := clients, listenCancelled := false },
    replyAddress := "127.0.0.1:8001", replyPort := 8001, connections := pool,
    incomingChan := some { buf := buffered, cap := cap, closed := false },
    statusChan := some { buf := [], cap := 100, closed := false },
    sentErrors := [] }

/-- The accepted connection under `exampleConnection`. -/
def exampleClient : ServerConnection Unit :=
  { toDefaultConnection :=
      (NewConnection "127.0.0.1:50000" 1000 (some (fun _ => none)) (UnixMilli 0)
        (UnixMilli 0) 1 : Connection Unit).toDefaultConnection,
    tcpConn := some true }

/-- A connection that the node has dialed to `127.0.0.1:8003`. -/
def exampleOutgoing : Connection Unit :=
  { NewConnection "127.0.0.1:8003" 60000 (some (fun _ => none)) (UnixMilli 0) (UnixMilli 0) 3 with
    connectionType := ConnectionType.Caller,
    callerConn := some
      { isConnected := true, connectTime := none, disconnectTime := none, conn := true } }

/-- Go `stream.defaultChanBufferSize`. -/
def stringStreamBufferSize : Nat := 1024

/-- The state of a `stream.StringStream` and of its `process` goroutine: the
content `sb` of the `strings.Builder`, the content of the buffered channel
`streamChan` (oldest string first, under the schedule in which the consumer
does not receive while `process` runs), the stored error, and whether
`process` has closed the channel and returned. -/
structure StringStream where
  sb : List Nat
  streamChan : List (List Nat)
  err : Option Error
  returned : Bool
deriving DecidableEq, Repr

/-- One turn of the inner loop of `StringStream.process` for the byte `b`: a
non-zero byte goes to the builder; a zero byte sends the string of a non-empty
builder with `select`/`default`, so that it is dropped when the channel holds
`bufferSize` strings, and resets the builder. -/
def StringStream.processByte (bufferSize : Nat) (s : StringStream) (b : Nat) : StringStream :=
  if b > 0 then { s with sb := s.sb ++ [b] }
  else if s.sb.length > 0 then
    if s.streamChan.length < bufferSize then
      { s with streamChan := s.streamChan ++ [s.sb], sb := [] }
    else { s with sb := [] }
  else s

/-- The inner loop of `process` over the bytes of one `Read`. -/
def StringStream.processBuffer (bufferSize : Nat) (s : StringStream) (buffer : List Nat) :
    StringStream :=
  buffer.foldl (StringStream.processByte bufferSize) s

/-- The outer loop of `process` for a reader whose successive `Read` calls
return the chunks `reads` and then an error (`io.EOF` for a `DataReader`): the
error is stored and the channel is closed. -/
def StringStream.processReads (bufferSize : Nat) : StringStream → List (List Nat) → StringStream
  | s, [] => { s with err := some Error.ReadError, returned := true }
  | s, chunk :: rest =>
    StringStream.processReads bufferSize (s.processBuffer bufferSize chunk) rest

/-- Go `StringStream.process` started by `Stream(reader, bufferSize)` on a fresh
stream; `Close` is not called. -/
def StringStream.process (bufferSize : Nat) (reads : List (List Nat)) : StringStream :=
  StringStream.processReads bufferSize
    { sb := [], streamChan := [], err := none, returned := false } reads

/-- The bytes of a list of words, each followed by one NUL byte. -/
def cStrings (words : List (List Nat)) : List Nat :=
  (words.map (fun w => w ++ [0])).flatten

/-- The buffer with the bytes at offsets 6 and 7 exchanged. -/
def swapBytes67 (b : List Nat) : List Nat :=
  (b.set 6 (b.getD 7 0)).set 7 (b.getD 6 0)

/-- A 16-bit value with its two bytes exchanged. -/
def swapPort (p : Nat) : Nat :=
  p % 256 * 256 + p / 256 % 256

/-- The header in the buffer `data` of a builder is the header of a frame:
six sync bytes, and byte 30 is the checksum of bytes 6..29. -/
def HeaderOK (data : List Nat) : Prop :=
  (∀ i, i < 6 → data.getD i 0 = 22) ∧ data.getD 30 0 = getChecksum (slice data 6 30)

/-- The states of a builder that `WriteByte` reaches from a fresh builder: the
buffer has at least 31 bytes, and the builder is looking for the preamble
after `r` sync bytes stored at the start of the buffer, or reading the header
after the six sync bytes, or reading the payload announced by a header with a
valid checksum and a payload size above 0. -/
def BuilderInv (m : MessageBuilder) : Prop :=
  31 ≤ m.Data.length ∧
  ((∃ r pe ds, r ≤ 5 ∧ m = searching r m.Data pe ds ∧ ∀ i, i < r → m.Data.getD i 0 = 22) ∨
   (∃ p pe ds, 6 ≤ p ∧ p ≤ 30 ∧ m = readingHeader p m.Data pe ds ∧
      ∀ i, i < 6 → m.Data.getD i 0 = 22) ∨
   (∃ p ds, 31 ≤ p ∧ p ≤ 31 + Uint32 (slice m.Data 26 30) ∧
      0 < Uint32 (slice m.Data 26 30) ∧
      m = readingPayload p m.Data (31 + Uint32 (slice m.Data 26 30)) ds ∧ HeaderOK m.Data))

/-- What holds of a builder when `WriteByte` has returned true: the first
`DataSize` bytes of the buffer have the layout of a frame. -/
def Emitted (m : MessageBuilder) : Prop :=
  m.DataSize ≤ m.Data.length ∧ HeaderOK m.Data ∧
  m.DataSize = if Uint32 (slice m.Data 26 30) = 0 then 31
    else 31 + Uint32 (slice m.Data 26 30) + 1

/-- The Go slice `m.Data[:m.DataSize]` that `Message` hands to the decoder. -/
def MessageBuilder.frame (m : MessageBuilder) : List Nat :=
  m.Data.take m.DataSize

/-- A header with a valid checksum that announces a payload of 2^32 - 1
bytes. -/
def maxSizeHeader : List Nat :=
  [22, 22, 22, 22, 22, 22, 0, 0, 100, 0, 0, 0, 0, 48, 48, 48, 48, 48, 48, 48, 48, 48, 48, 48,
    48, 48, 255, 255, 255, 255, 47]

/-! # Theorems -/

/-! ## Checksums -/

set_option maxRecDepth 100000 in
theorem xor_255_eq : ∀ x, x < 256 → x ^^^ 255 = 255 - x := by decide

theorem checksum_foldl (l : List Nat) (a : Nat) :
    l.foldl (fun checksum b => (checksum + b) % 256) (a % 256) = (a + l.sum) % 256 := by
  induction l generalizing a with
  | nil => simp
  | cons x xs ih =>
    simp only [List.foldl_cons, List.sum_cons]
    rw [ih]
    omega

theorem getChecksum_eq (l : List Nat) : getChecksum l = 255 - l.sum % 256 := by
  unfold getChecksum
  have h := checksum_foldl l 0
  simp only [Nat.zero_mod, Nat.zero_add] at h
  rw [h]
  exact xor_255_eq _ (Nat.mod_lt _ (by decide))

theorem getChecksum_lt (l : List Nat) : getChecksum l < 256 := by
  rw [getChecksum_eq]; omega

theorem getChecksum_congr {l₁ l₂ : List Nat} (h : l₁.sum % 256 = l₂.sum % 256) :
    getChecksum l₁ = getChecksum l₂ := by
  simp [getChecksum_eq, h]

theorem getChecksum_ne {l₁ l₂ : List Nat} (h : l₁.sum % 256 ≠ l₂.sum % 256) :
    getChecksum l₁ ≠ getChecksum l₂ := by
  simp only [getChecksum_eq]
  have h1 := Nat.mod_lt l₁.sum (show 256 > 0 by decide)
  have h2 := Nat.mod_lt l₂.sum (show 256 > 0 by decide)
  omega

/-! ## Formatting and parsing the timestamp -/

theorem decDigitsRev_digit (fuel u : Nat) : ∀ c ∈ decDigitsRev fuel u, IsDigit c := by
  induction fuel generalizing u with
  | zero => simp [decDigitsRev]
  | succ n ih =>
    intro c hc
    unfold decDigitsRev at hc
    split at hc
    · simp only [List.mem_singleton] at hc
      unfold IsDigit; omega
    · simp only [List.mem_cons] at hc
      rcases hc with h | h
      · unfold IsDigit; omega
      · exact ih _ _ h

theorem parseDigits_append (l₁ l₂ : List Nat) (acc : Nat) :
    parseDigits (l₁ ++ l₂) acc = (parseDigits l₁ acc).bind (parseDigits l₂) := by
  induction l₁ generalizing acc with
  | nil => simp [parseDigits]
  | cons c cs ih =>
    simp only [List.cons_append, parseDigits]
    split
    · exact ih _
    · simp

theorem parseDigits_of_digits (l : List Nat) (h : ∀ c ∈ l, IsDigit c) (acc : Nat) :
    ∃ v, parseDigits l acc = some v ∧ v < (acc + 1) * 10 ^ l.length := by
  induction l generalizing acc with
  | nil => exact ⟨acc, by simp [parseDigits]⟩
  | cons c cs ih =>
    have hc : IsDigit c := h c (List.mem_cons_self _ _)
    obtain ⟨v, hv, hlt⟩ := ih (fun x hx => h x (List.mem_cons_of_mem _ hx)) (acc * 10 + (c - 48))
    refine ⟨v, ?_, ?_⟩
    · simp only [parseDigits]
      rw [if_pos (show 48 ≤ c ∧ c ≤ 57 from hc)]; exact hv
    · unfold IsDigit at hc
      have h1 : acc * 10 + (c - 48) + 1 ≤ (acc + 1) * 10 := by omega
      calc v < (acc * 10 + (c - 48) + 1) * 10 ^ cs.length := hlt
        _ ≤ ((acc + 1) * 10) * 10 ^ cs.length := Nat.mul_le_mul_right _ h1
        _ = (acc + 1) * 10 ^ (cs.length + 1) := by ring
        _ = (acc + 1) * 10 ^ (c :: cs).length := by simp

theorem parseDigits_reverse (l : List Nat) (h : ∀ c ∈ l, IsDigit c) :
    parseDigits l.reverse 0 = some (valRev l) := by
  induction l with
  | nil => simp [parseDigits, valRev]
  | cons c cs ih =>
    have hc : IsDigit c := h c (List.mem_cons_self _ _)
    rw [List.reverse_cons, parseDigits_append, ih (fun x hx => h x (List.mem_cons_of_mem _ hx))]
    simp only [Option.some_bind, parseDigits, valRev]
    rw [if_pos (show 48 ≤ c ∧ c ≤ 57 from hc)]
    congr 1; omega

theorem valRev_append_zeros (l : List Nat) (n : Nat) :
    valRev (l ++ List.replicate n 48) = valRev l := by
  induction l with
  | nil =>
    induction n with
    | zero => simp [valRev]
    | succ k ih => simp only [List.nil_append] at ih; simp [List.replicate_succ, valRev, ih]
  | cons c cs ih => simp [valRev, ih]

theorem decDigitsRev_val (fuel u : Nat) (h : u < 10 ^ fuel) :
    valRev (decDigitsRev fuel u) = u := by
  induction fuel generalizing u with
  | zero => simp at h; subst h; simp [decDigitsRev, valRev]
  | succ n ih =>
    unfold decDigitsRev
    split
    · simp [valRev]
    · rename_i hu
      have h2 : u / 10 < 10 ^ n := by
        rw [Nat.div_lt_iff_lt_mul (by decide)]
        rw [pow_succ] at h; exact h
      have hv := ih (u / 10) h2
      simp only [valRev, hv]
      omega

theorem decDigitsRev_length_pos (fuel u : Nat) : 1 ≤ (decDigitsRev (fuel + 1) u).length := by
  unfold decDigitsRev
  split <;> simp

theorem decDigitsRev_length_le (k fuel u : Nat) (hk : 1 ≤ k) (h : u < 10 ^ k) :
    (decDigitsRev fuel u).length ≤ k := by
  induction fuel generalizing u k with
  | zero => simp [decDigitsRev]
  | succ n ih =>
    unfold decDigitsRev
    split
    · simpa using hk
    · rename_i hu
      obtain ⟨j, rfl⟩ : ∃ j, k = j + 1 := ⟨k - 1, by omega⟩
      have hj : 1 ≤ j := by
        rcases Nat.eq_zero_or_pos j with h0 | h0
        · subst h0; simp at h; omega
        · exact h0
      have h2 : u / 10 < 10 ^ j := by
        rw [Nat.div_lt_iff_lt_mul (by decide)]
        rw [pow_succ] at h; exact h
      have := ih j (u / 10) hj h2
      simp only [List.length_cons]; omega

theorem ParseInt_digits (l : List Nat) (hl : l ≠ []) (h : ∀ c ∈ l, IsDigit c)
    (hlen : l.length ≤ 18) :
    ∃ v : Nat, parseDigits l 0 = some v ∧ ParseInt l = some (v : Int) := by
  obtain ⟨v, hv, hlt⟩ := parseDigits_of_digits l h 0
  refine ⟨v, hv, ?_⟩
  have hb : v < 10 ^ 18 := by
    calc v < (0 + 1) * 10 ^ l.length := hlt
      _ = 10 ^ l.length := by simp
      _ ≤ 10 ^ 18 := Nat.pow_le_pow_right (by decide) hlen
  have hb' : v ≤ 9223372036854775807 := by
    have : (10 : Nat) ^ 18 = 1000000000000000000 := by norm_num
    omega
  cases l with
  | nil => exact absurd rfl hl
  | cons c cs =>
    have hc : IsDigit c := h c (List.mem_cons_self _ _)
    unfold IsDigit at hc
    have h43 : c ≠ 43 := by omega
    have h45 : c ≠ 45 := by omega
    unfold ParseInt
    simp only [h43, h45, or_self, if_false, decide_False, List.cons_ne_nil, reduceCtorEq, hv,
      Bool.false_eq_true]
    rw [if_pos hb']

theorem ParseInt_minus_digits (l : List Nat) (hl : l ≠ []) (h : ∀ c ∈ l, IsDigit c)
    (hlen : l.length ≤ 18) :
    ∃ v : Nat, parseDigits l 0 = some v ∧ ParseInt (45 :: l) = some (-(v : Int)) := by
  obtain ⟨v, hv, hlt⟩ := parseDigits_of_digits l h 0
  refine ⟨v, hv, ?_⟩
  have hb : v < 10 ^ 18 := by
    calc v < (0 + 1) * 10 ^ l.length := hlt
      _ = 10 ^ l.length := by simp
      _ ≤ 10 ^ 18 := Nat.pow_le_pow_right (by decide) hlen
  have hb' : v ≤ 9223372036854775808 := by
    have : (10 : Nat) ^ 18 = 1000000000000000000 := by norm_num
    omega
  unfold ParseInt
  simp only [or_true, if_true, decide_True, hl, if_false, hv]
  rw [if_pos hb']

theorem sprintf013d_of_nonneg (x : Int) (hx : 0 ≤ x) :
    sprintf013d x =
      (decDigitsRev 20 x.natAbs ++
        List.replicate (13 - (decDigitsRev 20 x.natAbs).length) 48).reverse := by
  have : ¬ x < 0 := by omega
  simp [sprintf013d, this]

theorem sprintf013d_of_neg (x : Int) (hx : x < 0) :
    sprintf013d x =
      45 :: (decDigitsRev 20 x.natAbs ++
        List.replicate (12 - (decDigitsRev 20 x.natAbs).length) 48).reverse := by
  simp [sprintf013d, hx]

theorem padded_digit (u n : Nat) :
    ∀ c ∈ (decDigitsRev 20 u ++ List.replicate n 48).reverse, IsDigit c := by
  intro c hc
  simp only [List.mem_reverse, List.mem_append, List.mem_replicate] at hc
  rcases hc with h | ⟨_, h⟩
  · exact decDigitsRev_digit _ _ _ h
  · subst h; unfold IsDigit; omega

/-- Whatever the `int64` value, the first 13 bytes of its `%013d` rendering are
13 bytes that `ParseInt` accepts. -/
theorem ParseInt_sprintf013d_take (x : Int) :
    ((sprintf013d x).take 13).length = 13 ∧ ∃ t, ParseInt ((sprintf013d x).take 13) = some t := by
  have hpos := decDigitsRev_length_pos 19 x.natAbs
  by_cases hx : 0 ≤ x
  · rw [sprintf013d_of_nonneg x hx]
    set l := (decDigitsRev 20 x.natAbs ++
        List.replicate (13 - (decDigitsRev 20 x.natAbs).length) 48).reverse with hl
    have hlen : 13 ≤ l.length := by
      simp only [hl, List.length_reverse, List.length_append, List.length_replicate]; omega
    have hd : ∀ c ∈ l.take 13, IsDigit c := fun c hc => padded_digit _ _ c (List.mem_of_mem_take hc)
    have hlen13 : (l.take 13).length = 13 := by simp; omega
    refine ⟨hlen13, ?_⟩
    obtain ⟨v, _, hv⟩ := ParseInt_digits (l.take 13)
      (by intro h; rw [h] at hlen13; simp at hlen13) hd (by omega)
    exact ⟨_, hv⟩
  · rw [sprintf013d_of_neg x (by omega)]
    set l := (decDigitsRev 20 x.natAbs ++
        List.replicate (12 - (decDigitsRev 20 x.natAbs).length) 48).reverse with hl
    have hlen : 12 ≤ l.length := by
      simp only [hl, List.length_reverse, List.length_append, List.length_replicate]; omega
    have hd : ∀ c ∈ l.take 12, IsDigit c := fun c hc => padded_digit _ _ c (List.mem_of_mem_take hc)
    have hlen12 : (l.take 12).length = 12 := by simp; omega
    have ht : (45 :: l).take 13 = 45 :: l.take 12 := by simp
    rw [ht]
    refine ⟨by simp; omega, ?_⟩
    obtain ⟨v, _, hv⟩ := ParseInt_minus_digits (l.take 12)
      (by intro h; rw [h] at hlen12; simp at hlen12) hd (by omega)
    exact ⟨_, hv⟩

/-- A timestamp in `[0, 10^13)` is rendered as exactly 13 digits and parsed
back to itself. -/
theorem ParseInt_sprintf013d (x : Int) (h0 : 0 ≤ x) (h1 : x < 10 ^ 13) :
    (sprintf013d x).take 13 = sprintf013d x ∧ ParseInt (sprintf013d x) = some x := by
  have hpos := decDigitsRev_length_pos 19 x.natAbs
  have hu : x.natAbs < 10 ^ 13 := by omega
  have hle := decDigitsRev_length_le 13 20 x.natAbs (by decide) hu
  rw [sprintf013d_of_nonneg x h0]
  set d := decDigitsRev 20 x.natAbs with hd
  set l := (d ++ List.replicate (13 - d.length) 48).reverse with hl
  have hlen : l.length = 13 := by
    simp only [hl, List.length_reverse, List.length_append, List.length_replicate]; omega
  have hdig : ∀ c ∈ d ++ List.replicate (13 - d.length) 48, IsDigit c := by
    intro c hc; exact padded_digit x.natAbs _ c (List.mem_reverse.mpr hc)
  refine ⟨List.take_of_length_le (by omega), ?_⟩
  obtain ⟨v, hv, hp⟩ := ParseInt_digits l (by intro h; rw [h] at hlen; simp at hlen)
    (fun c hc => padded_digit _ _ c hc) (by omega)
  rw [hp]
  rw [hl, parseDigits_reverse _ hdig, valRev_append_zeros,
    decDigitsRev_val 20 _ (lt_of_lt_of_le hu (by norm_num))] at hv
  simp only [Option.some.injEq] at hv
  rw [← hv]; simp; omega

/-! ## Base64 -/

theorem b64Value_b64Char : ∀ v, v < 64 → b64Value (b64Char v) = some v := by decide

theorem b64Char_range (v : Nat) : 43 ≤ b64Char v ∧ b64Char v ≤ 122 := by
  unfold b64Char
  split_ifs <;> omega

theorem base64Encode_length (l : List Nat) :
    (base64Encode l).length = (l.length + 2) / 3 * 4 := by
  induction l using base64Encode.induct with
  | case1 => simp [base64Encode]
  | case2 a => simp [base64Encode]
  | case3 a b => simp [base64Encode]
  | case4 a b c rest ih =>
    simp only [base64Encode, List.length_cons, ih]
    omega

theorem base64Encode_range (l : List Nat) : ∀ c ∈ base64Encode l, 43 ≤ c ∧ c ≤ 122 := by
  induction l using base64Encode.induct with
  | case1 => simp [base64Encode]
  | case2 a =>
    intro c hc
    simp only [base64Encode, List.mem_cons, List.mem_singleton, List.not_mem_nil, or_false] at hc
    rcases hc with h | h | h | h <;> subst h <;> first | exact b64Char_range _ | omega
  | case3 a b =>
    intro c hc
    simp only [base64Encode, List.mem_cons, List.mem_singleton, List.not_mem_nil, or_false] at hc
    rcases hc with h | h | h | h <;> subst h <;> first | exact b64Char_range _ | omega
  | case4 a b c rest ih =>
    intro x hx
    simp only [base64Encode, List.mem_cons] at hx
    rcases hx with h | h | h | h | h
    · subst h; exact b64Char_range _
    · subst h; exact b64Char_range _
    · subst h; exact b64Char_range _
    · subst h; exact b64Char_range _
    · exact ih x h

theorem base64DecodeAux_encode (l : List Nat) (h : ∀ x ∈ l, x < 256) (out : List Nat) :
    base64DecodeAux (base64Encode l) [] out = some (out ++ l) := by
  induction l using base64Encode.induct generalizing out with
  | case1 => simp [base64Encode, base64DecodeAux]
  | case2 a =>
    have ha : a < 256 := h a (by simp)
    have h0 := b64Value_b64Char (a * 65536 / 262144 % 64) (Nat.mod_lt _ (by decide))
    have h1 := b64Value_b64Char (a * 65536 / 4096 % 64) (Nat.mod_lt _ (by decide))
    simp only [base64Encode, base64DecodeAux, h0, h1]
    simp [b64Value, isNewline, quantumBytes]
    omega
  | case3 a b =>
    have ha : a < 256 := h a (by simp)
    have hb : b < 256 := h b (by simp)
    have h0 := b64Value_b64Char ((a * 65536 + b * 256) / 262144 % 64) (Nat.mod_lt _ (by decide))
    have h1 := b64Value_b64Char ((a * 65536 + b * 256) / 4096 % 64) (Nat.mod_lt _ (by decide))
    have h2 := b64Value_b64Char ((a * 65536 + b * 256) / 64 % 64) (Nat.mod_lt _ (by decide))
    simp only [base64Encode, base64DecodeAux, h0, h1, h2]
    simp [b64Value, isNewline, quantumBytes]
    omega
  | case4 a b c rest ih =>
    have ha : a < 256 := h a (by simp)
    have hb : b < 256 := h b (by simp)
    have hc : c < 256 := h c (by simp)
    have h0 := b64Value_b64Char ((a * 65536 + b * 256 + c) / 262144 % 64) (Nat.mod_lt _ (by decide))
    have h1 := b64Value_b64Char ((a * 65536 + b * 256 + c) / 4096 % 64) (Nat.mod_lt _ (by decide))
    have h2 := b64Value_b64Char ((a * 65536 + b * 256 + c) / 64 % 64) (Nat.mod_lt _ (by decide))
    have h3 := b64Value_b64Char ((a * 65536 + b * 256 + c) % 64) (Nat.mod_lt _ (by decide))
    simp only [base64Encode, base64DecodeAux, h0, h1, h2, h3]
    simp only [List.nil_append, List.length_nil, List.length_cons, List.length_singleton,
      List.cons_append, Nat.reduceAdd, Nat.reduceEqDiff, if_false, if_true]
    rw [ih (fun x hx => h x (by simp [hx]))]
    have hq : quantumBytes [(a * 65536 + b * 256 + c) / 262144 % 64,
        (a * 65536 + b * 256 + c) / 4096 % 64, (a * 65536 + b * 256 + c) / 64 % 64,
        (a * 65536 + b * 256 + c) % 64] = [a, b, c] := by
      simp [quantumBytes]
      omega
    rw [hq]; simp

/-- Decoding undoes encoding, for a list of bytes. -/
theorem base64Decode_encode (l : List Nat) (h : ∀ x ∈ l, x < 256) :
    base64Decode (base64Encode l) = some l := by
  unfold base64Decode
  rw [base64DecodeAux_encode l h []]; simp

/-! ## The shape of an encoded message -/

theorem timestampField_length {T : Type} (m : Message T) : (timestampField m).length = 13 := by
  unfold timestampField
  split_ifs
  · exact (ParseInt_sprintf013d_take _).1
  · exact (ParseInt_sprintf013d_take _).1
  · simp

theorem headerFields_length {T : Type} (m : Message T) (n : Nat) :
    (headerFields m n).length = 24 := by
  simp [headerFields, PutUint16, PutUint32, timestampField_length]

theorem headerBytes_length {T : Type} (m : Message T) (n : Nat) :
    (headerBytes m n).length = 31 := by
  simp [headerBytes, headerFields_length, messageSyncByteCount]

theorem copyPayload_eq (n k : Nat) (pre mid post src : List Nat)
    (hpre : pre.length = messageHeaderSize + k) (hmid : mid.length = n)
    (hsrc : k + n ≤ src.length) :
    copyPayload n (messageHeaderSize + k) (pre ++ mid ++ post) src =
      some (pre ++ slice src k (k + n) ++ post) := by
  induction n generalizing k pre mid with
  | zero =>
    have : mid = [] := List.eq_nil_of_length_eq_zero hmid
    simp [copyPayload, slice, this]
  | succ n ih =>
    obtain ⟨x, mid', rfl⟩ : ∃ x mid', mid = x :: mid' := by
      cases mid with
      | nil => simp at hmid
      | cons x xs => exact ⟨x, xs, rfl⟩
    have hk : k < src.length := by omega
    have hget : src[messageHeaderSize + k - messageHeaderSize]? = some src[k] := by
      simp [List.getElem?_eq_getElem hk]
    simp only [copyPayload, hget]
    have hlt : messageHeaderSize + k < (pre ++ x :: mid' ++ post).length := by
      simp [hpre]
    rw [if_pos hlt]
    have hset : (pre ++ x :: mid' ++ post).set (messageHeaderSize + k) src[k]
        = (pre ++ [src[k]]) ++ mid' ++ post := by
      rw [List.append_assoc, List.set_append_right _ _ (by omega)]
      simp [hpre]
    rw [hset]
    have := ih (k + 1) (pre ++ [src[k]]) mid' (by simp [hpre]; omega) (by simpa using hmid)
      (by omega)
    rw [show messageHeaderSize + (k + 1) = messageHeaderSize + k + 1 by omega] at this
    rw [this]
    congr 2
    simp only [List.append_assoc, List.singleton_append, List.append_cancel_left_eq]
    unfold slice
    rw [show k + (n + 1) - k = (k + 1 + n - (k + 1)) + 1 by omega]
    rw [List.drop_eq_getElem_cons hk, List.take_succ_cons]

theorem ToBytes_of_no_payload {T : Type} (codec : Codec T) (m : Message T)
    (h : m.Data = none) :
    m.ToBytes codec = some (some (headerBytes m 0), none) := by
  simp [Message.ToBytes, h, messageHeaderSize]

theorem ToBytes_of_empty_payload {T : Type} (codec : Codec T) (m : Message T) (d : T)
    (h : m.Data = some d) (hp : codec.marshal d = some []) :
    m.ToBytes codec = some (some (headerBytes m 0 ++ [0]), none) := by
  simp [Message.ToBytes, h, hp, messageHeaderSize, base64Encode]

theorem ToBytes_of_payload {T : Type} (codec : Codec T) (m : Message T) (d : T) (p : List Nat)
    (h : m.Data = some d) (hp : codec.marshal d = some p)
    (hpos : 0 < (base64Encode p).length) (hfit : (base64Encode p).length + 32 < 4294967296) :
    m.ToBytes codec =
      some (some (headerBytes m (base64Encode p).length ++ base64Encode p
        ++ [getChecksum (base64Encode p)]), none) := by
  set e := base64Encode p with he
  have hN : e.length % 4294967296 = e.length := Nat.mod_eq_of_lt (by omega)
  have hsize : (messageHeaderSize + e.length + 1) % 4294967296 = messageHeaderSize + e.length + 1 :=
    Nat.mod_eq_of_lt (by unfold messageHeaderSize; omega)
  have hidx : (messageHeaderSize + e.length) % 4294967296 = messageHeaderSize + e.length :=
    Nat.mod_eq_of_lt (by unfold messageHeaderSize; omega)
  have hcopy := copyPayload_eq e.length 0 (headerBytes m e.length) (List.replicate e.length 0) [0] e
    (by simp [headerBytes_length, messageHeaderSize]) (by simp) (by omega)
  have hrep : List.replicate (e.length + 1) 0 = List.replicate e.length 0 ++ [0] := by
    rw [List.replicate_succ']
  have hsl : slice e 0 (0 + e.length) = e := by simp [slice]
  rw [hsl, Nat.add_zero] at hcopy
  unfold Message.ToBytes
  simp only [h, hp, ← he, hN, hsize, hidx]
  rw [if_neg (by omega), if_pos hpos]
  rw [show messageHeaderSize + e.length + 1 - messageHeaderSize = e.length + 1 by omega,
    show messageHeaderSize + e.length - messageHeaderSize = e.length by omega, hrep,
    ← List.append_assoc, hcopy]
  simp only []
  rw [if_pos (by simp [headerBytes_length, messageHeaderSize])]
  congr 3
  rw [List.set_append_right _ _ (by simp [headerBytes_length, messageHeaderSize])]
  simp [headerBytes_length, messageHeaderSize]

/-- Every buffer that `ToBytes` returns starts with the 31 header bytes for
the `uint32` payload size. -/
theorem ToBytes_take_header {T : Type} (codec : Codec T) (m : Message T) (b : List Nat)
    (h : m.ToBytes codec = some (some b, none)) :
    b.take 31 = headerBytes m (encodedLen codec m % 4294967296) := by
  cases hD : m.Data with
  | none =>
    rw [ToBytes_of_no_payload codec m hD] at h
    simp only [Option.some.injEq, Prod.mk.injEq, and_true] at h
    subst h
    simp [encodedLen, hD, headerBytes_length]
  | some d =>
    cases hp : codec.marshal d with
    | none => simp [Message.ToBytes, hD, hp] at h
    | some p =>
      have hlen4 : (base64Encode p).length % 4 = 0 := by
        rw [base64Encode_length]; omega
      by_cases hpos : 0 < (base64Encode p).length % 4294967296
      · by_cases hfit : (base64Encode p).length % 4294967296 + 32 < 4294967296
        · -- the regular case, possibly with a truncated size
          set e := base64Encode p with he
          set N := e.length % 4294967296 with hNdef
          have hNle : N ≤ e.length := Nat.mod_le _ _
          have hsize : (messageHeaderSize + N + 1) % 4294967296 = messageHeaderSize + N + 1 :=
            Nat.mod_eq_of_lt (by unfold messageHeaderSize; omega)
          have hidx : (messageHeaderSize + N) % 4294967296 = messageHeaderSize + N :=
            Nat.mod_eq_of_lt (by unfold messageHeaderSize; omega)
          have hcopy := copyPayload_eq N 0 (headerBytes m N) (List.replicate N 0) [0] e
            (by simp [headerBytes_length, messageHeaderSize]) (by simp) (by omega)
          have hrep : List.replicate (N + 1) 0 = List.replicate N 0 ++ [0] := by
            rw [List.replicate_succ']
          rw [Nat.zero_add, Nat.add_zero] at hcopy
          unfold Message.ToBytes at h
          simp only [hD, hp, ← he, ← hNdef, hsize, hidx] at h
          rw [if_neg (by omega), if_pos hpos] at h
          rw [show messageHeaderSize + N + 1 - messageHeaderSize = N + 1 by omega,
            show messageHeaderSize + N - messageHeaderSize = N by omega, hrep,
            ← List.append_assoc, hcopy] at h
          simp only [] at h
          rw [if_pos (by simp [headerBytes_length, messageHeaderSize, slice]; omega)] at h
          simp only [Option.some.injEq, Prod.mk.injEq, and_true] at h
          subst h
          have hl : (headerBytes m N ++ slice e 0 N).length = messageHeaderSize + N := by
            simp [headerBytes_length, messageHeaderSize, slice]; omega
          rw [List.set_append_right _ _ (by omega), List.append_assoc,
            List.take_append_of_le_length (by simp [headerBytes_length])]
          simp [encodedLen, hD, hp, ← he, ← hNdef, headerBytes_length]
        · -- the allocation is shorter than the header: a header write panics
          exfalso
          have hlt : (base64Encode p).length % 4294967296 < 4294967296 := Nat.mod_lt _ (by decide)
          have hsz : (messageHeaderSize + (base64Encode p).length % 4294967296 + 1) % 4294967296
              < messageHeaderSize := by
            unfold messageHeaderSize; omega
          unfold Message.ToBytes at h
          simp only [hD, hp] at h
          rw [if_pos hsz] at h
          exact absurd h (by simp)
      · have hz : (base64Encode p).length % 4294967296 = 0 := by omega
        unfold Message.ToBytes at h
        simp only [hD, hp, hz] at h
        simp [messageHeaderSize] at h
        subst h
        simp [encodedLen, hD, hp, hz, headerBytes_length]

/-! ## Decoding an encoded header -/

theorem list_length_13 (l : List Nat) (h : l.length = 13) :
    ∃ a0 a1 a2 a3 a4 a5 a6 a7 a8 a9 a10 a11 a12,
      l = [a0, a1, a2, a3, a4, a5, a6, a7, a8, a9, a10, a11, a12] := by
  match l, h with
  | [a0, a1, a2, a3, a4, a5, a6, a7, a8, a9, a10, a11, a12], _ =>
    exact ⟨a0, a1, a2, a3, a4, a5, a6, a7, a8, a9, a10, a11, a12, rfl⟩

theorem header_facts {T : Type} (m : Message T) (N : Nat) (rest : List Nat) :
    (((headerBytes m N ++ rest).take messageSyncByteCount).any
        (fun b => decide (b ≠ messageSyncByte)) = false) ∧
    (headerBytes m N ++ rest).getD 30 0 = getChecksum (slice (headerBytes m N ++ rest) 6 30) ∧
    Uint16 (slice (headerBytes m N ++ rest) 6 8) = m.replyPort % 65536 ∧
    (headerBytes m N ++ rest).getD 8 0 = m.status % 256 ∧
    Uint32 (slice (headerBytes m N ++ rest) 9 13) = m.id % 4294967296 ∧
    slice (headerBytes m N ++ rest) 13 26 = timestampField m ∧
    Uint32 (slice (headerBytes m N ++ rest) 26 30) = N % 4294967296 ∧
    slice (headerBytes m N ++ rest) 6 30 = headerFields m N := by
  obtain ⟨a0, a1, a2, a3, a4, a5, a6, a7, a8, a9, a10, a11, a12, ht⟩ :=
    list_length_13 _ (timestampField_length m)
  simp only [headerBytes, headerFields, ht, PutUint16, PutUint32, messageSyncByteCount,
    messageSyncByte, slice, Uint16, Uint32]
  simp only [List.replicate, List.cons_append, List.nil_append, List.take, List.drop,
    List.getD_cons_zero, List.getD_cons_succ, List.any_cons, List.any_nil]
  refine ⟨by simp, by simp, ?_, by simp, ?_, by simp, ?_, by simp⟩ <;> omega

theorem MessageFromBytes_header_only {T : Type} (codec : Codec T) (m : Message T) (N : Nat)
    (rest : List Nat) (hN : N % 4294967296 = 0) :
    MessageFromBytes codec (headerBytes m N ++ rest) =
      match ParseInt (timestampField m) with
      | none => some (none, some Error.NumError)
      | some _ => some (some (headerMessage m), none) := by
  obtain ⟨h1, h2, h3, h4, h5, h6, h7, _⟩ := header_facts m N rest
  have hlen : ¬ (headerBytes m N ++ rest).length < messageHeaderSize := by
    simp [headerBytes_length, messageHeaderSize]
  unfold MessageFromBytes
  simp only [hlen, h1, ← h2, h3, h4, h5, h6, h7, hN, if_false, ne_eq, not_true_eq_false,
    Bool.false_eq_true, gt_iff_lt, Nat.lt_irrefl]
  cases hp : ParseInt (timestampField m) with
  | none => rfl
  | some ts => simp [headerMessage, hp]

theorem MessageFromBytes_payload {T : Type} (codec : Codec T) (m : Message T)
    (e : List Nat) (c : Nat) (hpos : 0 < e.length) (hfit : e.length + 32 < 4294967296) :
    MessageFromBytes codec (headerBytes m e.length ++ e ++ [c]) =
      match ParseInt (timestampField m) with
      | none => some (none, some Error.NumError)
      | some _ =>
        if c ≠ getChecksum e then some (some (headerMessage m), some Error.ErrInvalidMessagePayload)
        else
          match base64Decode e with
          | none => some (some (headerMessage m), some Error.ErrInvalidMessagePayload)
          | some dataBytes =>
            match codec.unmarshal dataBytes with
            | none => some (some (headerMessage m), some Error.ErrInvalidMessagePayload)
            | some data => some (some { headerMessage m with Data := some data }, none) := by
  have happ : headerBytes m e.length ++ e ++ [c] = headerBytes m e.length ++ (e ++ [c]) :=
    List.append_assoc _ _ _
  obtain ⟨h1, h2, h3, h4, h5, h6, h7, _⟩ := header_facts m e.length (e ++ [c])
  rw [← happ] at h1 h2 h3 h4 h5 h6 h7
  have hlenv : (headerBytes m e.length ++ e ++ [c]).length = 31 + e.length + 1 := by
    simp [headerBytes_length]; omega
  have hlen : ¬ (headerBytes m e.length ++ e ++ [c]).length < messageHeaderSize := by
    rw [hlenv]; unfold messageHeaderSize; omega
  have hmod : e.length % 4294967296 = e.length := Nat.mod_eq_of_lt (by omega)
  have hps : e.length % 4294967296 > 0 := by omega
  have hsz : (headerBytes m e.length ++ e ++ [c]).length % 4294967296
      = (messageHeaderSize + e.length % 4294967296 + 1) % 4294967296 := by
    rw [hlenv, hmod]; rfl
  have hsl : ¬ (headerBytes m e.length ++ e ++ [c]).length - 1 < messageHeaderSize := by
    rw [hlenv]; unfold messageHeaderSize; omega
  have hidx : (messageHeaderSize + e.length % 4294967296) % 4294967296 = 31 + e.length := by
    rw [hmod]; unfold messageHeaderSize; exact Nat.mod_eq_of_lt (by omega)
  have hget : (headerBytes m e.length ++ e ++ [c])[31 + e.length]? = some c := by
    rw [List.getElem?_append_right (by simp [headerBytes_length])]
    simp [headerBytes_length]
  have hdata : slice (headerBytes m e.length ++ e ++ [c]) messageHeaderSize
      ((headerBytes m e.length ++ e ++ [c]).length - 1) = e := by
    rw [hlenv]
    unfold slice messageHeaderSize
    have hd : List.drop 31 (headerBytes m e.length) = [] :=
      List.drop_eq_nil_of_le (by simp [headerBytes_length])
    rw [List.append_assoc, List.drop_append_of_le_length (by simp [headerBytes_length]), hd]
    simp
  unfold MessageFromBytes
  simp only [hlen, h1, ← h2, h3, h4, h5, h6, h7, if_false, ne_eq, not_true_eq_false,
    Bool.false_eq_true]
  cases hp : ParseInt (timestampField m) with
  | none => rfl
  | some ts =>
    simp only [hps, if_true, hsz, not_true_eq_false, if_false, hsl, hidx, hget, hdata]
    by_cases hc : c = getChecksum e
    · cases hb : base64Decode e with
      | none => simp [hc, headerMessage, hp]
      | some dataBytes =>
        cases hu : codec.unmarshal dataBytes <;> simp [hc, headerMessage, hp, hu]
    · simp [hc, headerMessage, hp]

/-! ## Frames and single-bit errors -/

set_option maxRecDepth 1000000 in
theorem xor_bit_ne : ∀ k, k < 8 → ∀ x, x < 256 → x ^^^ 2 ^ k < 256 ∧ x ^^^ 2 ^ k ≠ x := by
  decide

theorem sum_set (l : List Nat) (i v : Nat) (h : i < l.length) :
    (l.set i v).sum + l.getD i 0 = l.sum + v := by
  induction l generalizing i with
  | nil => simp at h
  | cons x xs ih =>
    cases i with
    | zero => simp; omega
    | succ j =>
      have := ih j (by simpa using h)
      simp only [List.set_cons_succ, List.sum_cons, List.getD_cons_succ]
      omega

theorem getChecksum_flip_ne (l : List Nat) (i k : Nat) (hi : i < l.length) (hk : k < 8)
    (hb : ∀ x ∈ l, x < 256) :
    getChecksum (flipBit l i k) ≠ getChecksum l := by
  have hx : l.getD i 0 < 256 := by
    rw [List.getD_eq_getElem _ _ hi]; exact hb _ (List.getElem_mem _)
  obtain ⟨h1, h2⟩ := xor_bit_ne k hk _ hx
  have hs := sum_set l i (l.getD i 0 ^^^ 2 ^ k) hi
  apply getChecksum_ne
  unfold flipBit
  omega

theorem sprintf013d_mem (x : Int) : ∀ c ∈ sprintf013d x, IsDigit c ∨ c = 45 := by
  intro c hc
  by_cases hx : 0 ≤ x
  · rw [sprintf013d_of_nonneg x hx] at hc
    exact Or.inl (padded_digit _ _ c hc)
  · rw [sprintf013d_of_neg x (by omega)] at hc
    simp only [List.mem_cons] at hc
    rcases hc with h | h
    · exact Or.inr h
    · exact Or.inl (padded_digit _ _ c h)

theorem timestampField_mem {T : Type} (m : Message T) :
    ∀ c ∈ timestampField m, IsDigit c ∨ c = 45 ∨ c = 0 := by
  intro c hc
  unfold timestampField at hc
  split_ifs at hc
  · rcases sprintf013d_mem _ c (List.mem_of_mem_take hc) with h | h
    · exact Or.inl h
    · exact Or.inr (Or.inl h)
  · rcases sprintf013d_mem _ c (List.mem_of_mem_take hc) with h | h
    · exact Or.inl h
    · exact Or.inr (Or.inl h)
  · simp only [List.mem_replicate] at hc
    exact Or.inr (Or.inr hc.2)

theorem headerFields_lt {T : Type} (m : Message T) (N : Nat) :
    ∀ c ∈ headerFields m N, c < 256 := by
  intro c hc
  simp only [headerFields, PutUint16, PutUint32, List.mem_append, List.mem_cons,
    List.mem_singleton, List.not_mem_nil, or_false] at hc
  rcases hc with (((h | h) | h) | h) | h
  · rcases h with h | h <;> omega
  · omega
  · rcases h with h | h | h | h <;> omega
  · rcases timestampField_mem m c h with h | h | h
    · unfold IsDigit at h; omega
    · omega
    · omega
  · rcases h with h | h | h | h <;> omega

/-- The function `MessageFromBytes` on a buffer with a bad header. -/
theorem MessageFromBytes_reject {T : Type} (codec : Codec T) (bytes : List Nat)
    (h : bytes.length < 31 ∨ (∃ i, i < 6 ∧ bytes.getD i 0 ≠ 22) ∨
      bytes.getD 30 0 ≠ getChecksum (slice bytes 6 30)) :
    MessageFromBytes codec bytes = some (none, some Error.ErrInvalidMessageFormat) := by
  unfold MessageFromBytes
  simp only []
  by_cases h1 : bytes.length < messageHeaderSize
  · rw [if_pos h1]
  · rw [if_neg h1]
    by_cases h2 : (bytes.take messageSyncByteCount).any (fun b => decide (b ≠ messageSyncByte))
        = true
    · rw [if_pos h2]
    · rw [if_neg h2]
      by_cases h3 : bytes.getD 30 0 ≠ getChecksum (slice bytes 6 30)
      · rw [if_pos h3]
      · exfalso
        rcases h with h | ⟨i, hi, hne⟩ | h
        · exact h1 h
        · apply h2
          rw [List.any_eq_true]
          have hlen : i < bytes.length := by unfold messageHeaderSize at h1; omega
          refine ⟨bytes[i], ?_, ?_⟩
          · rw [List.mem_take_iff_getElem]
            exact ⟨i, by simp [messageSyncByteCount]; omega, rfl⟩
          · rw [List.getD_eq_getElem _ _ hlen] at hne
            simpa [messageSyncByte] using hne
        · exact h3 h

theorem wireBytes_eq_of_ToBytes {T : Type} (codec : Codec T) (m : Message T) (b : List Nat)
    (e : Option Error) (h : m.ToBytes codec = some (some b, e)) : wireBytes codec m = b := by
  simp [wireBytes, h]

theorem IsFrame.ToBytes_no_payload {T : Type} {codec : Codec T} {m : Message T}
    (_ : IsFrame codec m) (hD : m.Data = none) :
    m.ToBytes codec = some (some (headerBytes m 0), none) ∧
      wireBytes codec m = headerBytes m 0 := by
  have := ToBytes_of_no_payload codec m hD
  exact ⟨this, wireBytes_eq_of_ToBytes _ _ _ _ this⟩

theorem IsFrame.ToBytes_payload {T : Type} {codec : Codec T} {m : Message T}
    (hF : IsFrame codec m) {d : T} (hD : m.Data = some d) :
    ∃ p, codec.marshal d = some p ∧ p ≠ [] ∧ (∀ x ∈ p, x < 256) ∧
      0 < (base64Encode p).length ∧ (base64Encode p).length + 32 < 4294967296 ∧
      m.ToBytes codec = some (some (headerBytes m (base64Encode p).length ++ base64Encode p
        ++ [getChecksum (base64Encode p)]), none) ∧
      wireBytes codec m = headerBytes m (base64Encode p).length ++ base64Encode p
        ++ [getChecksum (base64Encode p)] := by
  obtain ⟨_, _, _, hp⟩ := hF
  rw [hD] at hp
  obtain ⟨p, hm, hne, hb, hfit⟩ := hp
  have hpos : 0 < (base64Encode p).length := by
    rw [base64Encode_length]
    have : 0 < p.length := List.length_pos.mpr hne
    omega
  have := ToBytes_of_payload codec m d p hD hm hpos hfit
  exact ⟨p, hm, hne, hb, hpos, hfit, this, wireBytes_eq_of_ToBytes _ _ _ _ this⟩

theorem IsFrame.ParseInt_timestamp {T : Type} {codec : Codec T} {m : Message T}
    (hF : IsFrame codec m) : ∃ ts, ParseInt (timestampField m) = some ts := by
  obtain ⟨_, _, hs, _⟩ := hF
  unfold timestampField
  rcases hs with h | h | h <;> rw [h] <;>
    simp only [MessageSent, MessageReceived, PayloadNotReceived, Nat.reduceMod, if_true,
      Nat.reduceEqDiff, if_false, true_or, or_true] <;>
    exact (ParseInt_sprintf013d_take _).2

/-! ## Auxiliary facts for the round trip -/

theorem UnixMilli_UnixMilli (ms : Int) (h0 : 0 ≤ ms) (h1 : ms < 10 ^ 13) :
    (UnixMilli ms).UnixMilli = ms := by
  unfold UnixMilli Time.UnixMilli toInt64
  simp only []
  rw [Int.mul_ediv_cancel _ (by decide)]
  norm_num at h1
  omega

theorem ParseInt_timestamp_of_status {T : Type} (m : Message T)
    (hs : m.status = MessageSent ∨ m.status = MessageReceived ∨ m.status = PayloadNotReceived) :
    ∃ ts, ParseInt (timestampField m) = some ts := by
  unfold timestampField
  rcases hs with h | h | h <;> rw [h] <;>
    simp only [MessageSent, MessageReceived, PayloadNotReceived, Nat.reduceMod, if_true,
      Nat.reduceEqDiff, if_false, true_or, or_true] <;>
    exact (ParseInt_sprintf013d_take _).2

theorem ParseInt_timestamp_of_time {T : Type} (m : Message T) (ms : Int)
    (hs : m.status = MessageSent ∨ m.status = MessageReceived ∨ m.status = PayloadNotReceived)
    (h0 : 0 ≤ ms) (h1 : ms < 10 ^ 13)
    (ht : (if m.status = MessageSent then m.sentOn else m.receivedOn) = UnixMilli ms) :
    ParseInt (timestampField m) = some ms := by
  obtain ⟨htake, hparse⟩ := ParseInt_sprintf013d ms h0 h1
  have hu := UnixMilli_UnixMilli ms h0 h1
  unfold timestampField
  rcases hs with h | h | h
  · rw [h] at ht ⊢
    simp only [MessageSent, if_true, Nat.reduceMod] at ht ⊢
    rw [ht, hu, htake, hparse]
  · rw [h] at ht ⊢
    simp only [MessageSent, MessageReceived, PayloadNotReceived, Nat.reduceMod,
      Nat.reduceEqDiff, if_false, true_or, if_true] at ht ⊢
    rw [ht, hu, htake, hparse]
  · rw [h] at ht ⊢
    simp only [MessageSent, MessageReceived, PayloadNotReceived, Nat.reduceMod,
      Nat.reduceEqDiff, if_false, or_true, if_true] at ht ⊢
    rw [ht, hu, htake, hparse]

theorem ToBytes_of_size_zero {T : Type} (codec : Codec T) (m : Message T) (d : T) (p : List Nat)
    (h : m.Data = some d) (hp : codec.marshal d = some p)
    (hz : (base64Encode p).length % 4294967296 = 0) :
    m.ToBytes codec = some (some (headerBytes m 0 ++ [0]), none) := by
  unfold Message.ToBytes
  simp only [h, hp, hz]
  simp [messageHeaderSize]

theorem slice_take (b : List Nat) (n lo hi : Nat) (h : hi ≤ n) :
    slice (b.take n) lo hi = slice b lo hi := by
  unfold slice
  rw [List.drop_take, List.take_take]
  congr 1
  omega

theorem getD_take (b : List Nat) (n i : Nat) (h : i < n) :
    (b.take n).getD i 0 = b.getD i 0 := by
  simp [List.getD_eq_getElem?_getD, List.getElem?_take, h]

theorem PutUint32_mod (n : Nat) : PutUint32 (n % 4294967296) = PutUint32 n := by
  unfold PutUint32
  congr 1
  · omega
  · congr 1
    · omega
    · congr 1
      · omega
      · congr 1; omega

theorem getChecksum_formula (l : List Nat) : getChecksum l = (l.sum % 256) ^^^ 255 := by
  unfold getChecksum
  have h := checksum_foldl l 0
  simp only [Nat.zero_mod, Nat.zero_add] at h
  rw [h]

/-- C1 (header round trip). For a message without payload whose status is 100,
200 or 201, whose id and reply port are in the range of their types and whose
status-selected timestamp is a whole number `ms` of Unix milliseconds in
`[0, 10^13)`, `ToBytes` returns a buffer, `MessageFromBytes` accepts it without
error, and the decoded message has the same id, status and reply port and, for
status 100, the same `sentOn`. -/
theorem header_round_trip {T : Type} (codec : Codec T) (m : Message T) (ms : Int)
    (hstatus : m.status = MessageSent ∨ m.status = MessageReceived ∨
      m.status = PayloadNotReceived)
    (hid : m.id < 4294967296) (hport : m.replyPort < 65536) (hdata : m.Data = none)
    (hms : 0 ≤ ms ∧ ms < 10 ^ 13)
    (htime : (if m.status = MessageSent then m.sentOn else m.receivedOn) = UnixMilli ms) :
    ∃ bytes msg, m.ToBytes codec = some (some bytes, none) ∧
      MessageFromBytes codec bytes = some (some msg, none) ∧
      msg.id = m.id ∧ msg.status = m.status ∧ msg.replyPort = m.replyPort ∧
      (m.status = MessageSent → msg.sentOn = m.sentOn) := by
  have hparse := ParseInt_timestamp_of_time m ms hstatus hms.1 hms.2 htime
  have hdec := MessageFromBytes_header_only codec m 0 [] (by decide)
  rw [List.append_nil, hparse] at hdec
  refine ⟨headerBytes m 0, headerMessage m, ToBytes_of_no_payload codec m hdata, hdec, ?_, ?_, ?_, ?_⟩
  · exact Nat.mod_eq_of_lt hid
  · show m.status % 256 = m.status
    rcases hstatus with h | h | h <;> rw [h] <;> decide
  · exact Nat.mod_eq_of_lt hport
  · intro hs
    rw [hs] at htime
    simp only [if_true] at htime
    simp only [headerMessage, hparse, Option.getD_some, hs]
    rw [htime]; rfl

theorem header_round_trip_witness :
    ∃ bytes msg, exampleMessage.ToBytes Codec.raw = some (some bytes, none) ∧
      MessageFromBytes Codec.raw bytes = some (some msg, none) ∧
      msg.id = exampleMessage.id ∧ msg.status = exampleMessage.status ∧
      msg.replyPort = exampleMessage.replyPort ∧
      (exampleMessage.status = MessageSent → msg.sentOn = exampleMessage.sentOn) :=
  header_round_trip Codec.raw exampleMessage 1700000000123 (by decide) (by decide) (by decide)
    rfl (by decide) (by decide)

/-- C3 (header layout), amended by the size bound. Every buffer `b` that
`ToBytes` returns has `b[0..5]` all equal to 0x16, `b[6..7]` the reply port
big-endian, `b[8]` the status byte, `b[9..12]` the id big-endian, `b[26..29]`
the four bytes that `PutUint32` writes for the length of the base64 text of the
payload, which read as that length when it is below 2^32 (0 without payload),
and `b[30]` the value `((b[6] + ... + b[29]) mod 256) xor 0xFF`. -/
theorem header_layout {T : Type} (codec : Codec T) (m : Message T) (b : List Nat)
    (h : m.ToBytes codec = some (some b, none)) :
    31 ≤ b.length ∧ (∀ i, i < 6 → b.getD i 0 = 22) ∧
      slice b 6 8 = PutUint16 m.replyPort ∧ b.getD 8 0 = m.status % 256 ∧
      slice b 9 13 = PutUint32 m.id ∧
      slice b 26 30 = PutUint32 (encodedLen codec m) ∧
      (encodedLen codec m < 4294967296 → Uint32 (slice b 26 30) = encodedLen codec m) ∧
      (m.Data = none → encodedLen codec m = 0) ∧
      b.getD 30 0 = ((slice b 6 30).sum % 256) ^^^ 255 := by
  have ht := ToBytes_take_header codec m b h
  set N := encodedLen codec m % 4294967296 with hN
  have hlen : 31 ≤ b.length := by
    have := congrArg List.length ht
    rw [List.length_take, headerBytes_length] at this
    omega
  obtain ⟨a0, a1, a2, a3, a4, a5, a6, a7, a8, a9, a10, a11, a12, hts⟩ :=
    list_length_13 _ (timestampField_length m)
  have hexp : b.take 31 = [22, 22, 22, 22, 22, 22, m.replyPort / 256 % 256, m.replyPort % 256,
      m.status % 256, m.id / 16777216 % 256, m.id / 65536 % 256, m.id / 256 % 256, m.id % 256,
      a0, a1, a2, a3, a4, a5, a6, a7, a8, a9, a10, a11, a12,
      N / 16777216 % 256, N / 65536 % 256, N / 256 % 256, N % 256,
      getChecksum (headerFields m N)] := by
    rw [ht]
    simp [headerBytes, headerFields, hts, PutUint16, PutUint32, messageSyncByteCount,
      messageSyncByte, List.replicate]
  have hf : headerFields m N = slice b 6 30 := by
    rw [← slice_take b 31 6 30 (by decide), hexp]
    simp [headerFields, hts, PutUint16, PutUint32, slice]
  refine ⟨hlen, ?_, ?_, ?_, ?_, ?_, ?_, ?_, ?_⟩
  · intro i hi
    rw [← getD_take b 31 i (by omega), hexp]
    interval_cases i <;> rfl
  · rw [← slice_take b 31 6 8 (by decide), hexp]; rfl
  · rw [← getD_take b 31 8 (by decide), hexp]; rfl
  · rw [← slice_take b 31 9 13 (by decide), hexp]; rfl
  · rw [← slice_take b 31 26 30 (by decide), hexp, ← PutUint32_mod]; rfl
  · intro hlt
    rw [← slice_take b 31 26 30 (by decide), hexp]
    have : N = encodedLen codec m := Nat.mod_eq_of_lt hlt
    simp only [slice, Uint32, List.drop, List.take, List.getD_cons_zero, List.getD_cons_succ]
    omega
  · intro hD
    simp [encodedLen, hD]
  · rw [← getChecksum_formula, ← hf, ← getD_take b 31 30 (by decide), hexp]; rfl

theorem header_layout_witness :
    31 ≤ examplePayloadWire.length ∧ (∀ i, i < 6 → examplePayloadWire.getD i 0 = 22) ∧
      slice examplePayloadWire 6 8 = PutUint16 examplePayloadMessage.replyPort ∧
      examplePayloadWire.getD 8 0 = examplePayloadMessage.status % 256 ∧
      slice examplePayloadWire 9 13 = PutUint32 examplePayloadMessage.id ∧
      slice examplePayloadWire 26 30 = PutUint32 (encodedLen Codec.raw examplePayloadMessage) ∧
      (encodedLen Codec.raw examplePayloadMessage < 4294967296 →
        Uint32 (slice examplePayloadWire 26 30) = encodedLen Codec.raw examplePayloadMessage) ∧
      (examplePayloadMessage.Data = none → encodedLen Codec.raw examplePayloadMessage = 0) ∧
      examplePayloadWire.getD 30 0 = ((slice examplePayloadWire 6 30).sum % 256) ^^^ 255 :=
  header_layout Codec.raw examplePayloadMessage examplePayloadWire (by decide)

/-- C4 (header rejection). `MessageFromBytes` returns a nil message and
`ErrInvalidMessageFormat` for every buffer that is shorter than 31 bytes, or
has a byte other than 0x16 among bytes 0..5, or whose byte 30 differs from
`((sum of bytes 6..29) mod 256) xor 0xFF`. -/
theorem header_rejection {T : Type} (codec : Codec T) (bytes : List Nat)
    (h : bytes.length < 31 ∨ (∃ i, i < 6 ∧ bytes.getD i 0 ≠ 22) ∨
      bytes.getD 30 0 ≠ ((slice bytes 6 30).sum % 256) ^^^ 255) :
    MessageFromBytes codec bytes = some (none, some Error.ErrInvalidMessageFormat) := by
  rw [← getChecksum_formula] at h
  exact MessageFromBytes_reject codec bytes h

theorem header_rejection_witness :
    MessageFromBytes Codec.raw [22, 22, 22, 0, 22, 22, 1] =
      some (none, some Error.ErrInvalidMessageFormat) :=
  header_rejection Codec.raw [22, 22, 22, 0, 22, 22, 1] (Or.inl (by decide))

/-- C10 (invariant I4), evaluated where it fails: for a message whose `Data`
points to an empty byte slice, `ToBytes` returns 32 bytes although the
payload-size field (bytes 26..29) is 0; byte 31 is the unwritten zero of the
allocation. -/
theorem empty_payload_has_32_bytes :
    ∃ b, emptyPayloadMessage.ToBytes Codec.raw = some (some b, none) ∧
      Uint32 (slice b 26 30) = 0 ∧ b.length = 32 ∧ b.getD 31 0 = 0 :=
  ⟨[22, 22, 22, 22, 22, 22, 31, 65, 100, 0, 0, 0, 7, 49, 55, 48, 48, 48, 48, 48, 48, 48, 48, 49,
      50, 51, 0, 0, 0, 0, 182, 0], by decide, by decide, by decide, by decide⟩

theorem no_round_trip_of_size_zero (m : Message (List Nat)) (p : List Nat)
    (hs : m.status = MessageSent) (hD : m.Data = some p)
    (hz : (base64Encode p).length % 4294967296 = 0) :
    ¬ ∃ bytes msg, m.ToBytes Codec.raw = some (some bytes, none) ∧
      MessageFromBytes Codec.raw bytes = some (some msg, none) ∧ msg.Data = some p := by
  rintro ⟨bytes, msg, hb, hm, hd⟩
  have hto := ToBytes_of_size_zero Codec.raw m p p hD rfl hz
  rw [hto] at hb
  simp only [Option.some.injEq, Prod.mk.injEq, and_true] at hb
  subst hb
  have hdec := MessageFromBytes_header_only Codec.raw m 0 [0] (by decide)
  obtain ⟨ts, hts⟩ := ParseInt_timestamp_of_status m (Or.inl hs)
  rw [hts] at hdec
  rw [hdec] at hm
  simp only [Option.some.injEq, Prod.mk.injEq, and_true] at hm
  subst hm
  have hnone : (headerMessage m).Data = none := rfl
  rw [hnone] at hd
  exact Option.noConfusion hd

/-- C2, as stated, fails for a raw payload of 3 GiB (3 * 2^30 zero bytes): the
base64 text has 2^32 bytes, the `uint32` payload size is 0, `ToBytes` returns
the header and one zero byte, and the decoded message has no `Data`. -/
theorem payload_round_trip_fails_at_3GiB :
    ¬ ∃ bytes msg,
      Message.ToBytes Codec.raw
        { id := 7, status := MessageSent, replyPort := 8001, fromNode := "", toNode := ":8002",
          sentOn := UnixMilli 1700000000123, receivedOn := Time.zero,
          Data := some (List.replicate 3221225472 0) }
        = some (some bytes, none) ∧
      MessageFromBytes Codec.raw bytes = some (some msg, none) ∧
      msg.Data = some (List.replicate 3221225472 0) :=
  no_round_trip_of_size_zero _ _ rfl rfl
    (by rw [base64Encode_length, List.length_replicate])

/-- C2 (payload round trip), amended by the size bound. A SENT message with a
non-empty raw byte payload `b` whose base64 text, with header and checksum
byte, stays below 2^32 bytes is encoded by `ToBytes` and decoded by
`MessageFromBytes` without error, and the decoded `Data` is `b`. For any other
payload type, with `p` the non-empty marshalled bytes under the same bound, the
decoded `Data` is the result of unmarshalling `p`, and the decoder reports
`ErrInvalidMessagePayload` exactly when unmarshalling fails. -/
theorem payload_round_trip :
    (∀ (m : Message (List Nat)) (b : List Nat), m.status = MessageSent → m.Data = some b →
      b ≠ [] → (∀ x ∈ b, x < 256) → (base64Encode b).length + 32 < 4294967296 →
      ∃ bytes msg, m.ToBytes Codec.raw = some (some bytes, none) ∧
        MessageFromBytes Codec.raw bytes = some (some msg, none) ∧ msg.Data = some b) ∧
    (∀ (T : Type) (codec : Codec T) (m : Message T) (d : T) (p : List Nat),
      m.status = MessageSent → m.Data = some d → codec.marshal d = some p →
      p ≠ [] → (∀ x ∈ p, x < 256) → (base64Encode p).length + 32 < 4294967296 →
      ∃ bytes msg, m.ToBytes codec = some (some bytes, none) ∧
        MessageFromBytes codec bytes = some (some msg,
          if (codec.unmarshal p).isSome then none else some Error.ErrInvalidMessagePayload) ∧
        msg.Data = codec.unmarshal p) := by
  have general : ∀ (T : Type) (codec : Codec T) (m : Message T) (d : T) (p : List Nat),
      m.status = MessageSent → m.Data = some d → codec.marshal d = some p →
      p ≠ [] → (∀ x ∈ p, x < 256) → (base64Encode p).length + 32 < 4294967296 →
      ∃ bytes msg, m.ToBytes codec = some (some bytes, none) ∧
        MessageFromBytes codec bytes = some (some msg,
          if (codec.unmarshal p).isSome then none else some Error.ErrInvalidMessagePayload) ∧
        msg.Data = codec.unmarshal p := by
    intro T codec m d p hs hD hm hne hb hfit
    have hpos : 0 < (base64Encode p).length := by
      rw [base64Encode_length]
      have : 0 < p.length := List.length_pos.mpr hne
      omega
    have hto := ToBytes_of_payload codec m d p hD hm hpos hfit
    have hdec := MessageFromBytes_payload codec m (base64Encode p) (getChecksum (base64Encode p))
      hpos hfit
    obtain ⟨ts, hts⟩ := ParseInt_timestamp_of_status m (Or.inl hs)
    rw [hts] at hdec
    simp only [ne_eq, not_true_eq_false, if_false, base64Decode_encode p hb] at hdec
    cases hu : codec.unmarshal p with
    | none =>
      rw [hu] at hdec
      exact ⟨_, headerMessage m, hto, by simpa using hdec, rfl⟩
    | some d' =>
      rw [hu] at hdec
      exact ⟨_, { headerMessage m with Data := some d' }, hto, by simpa using hdec, rfl⟩
  refine ⟨?_, general⟩
  intro m b hs hD hne hb hfit
  obtain ⟨bytes, msg, h1, h2, h3⟩ := general (List Nat) Codec.raw m b b hs hD rfl hne hb hfit
  exact ⟨bytes, msg, h1, by simpa [Codec.raw] using h2, by simpa [Codec.raw] using h3⟩

theorem payload_round_trip_witness :
    ∃ bytes msg, examplePayloadMessage.ToBytes Codec.raw = some (some bytes, none) ∧
      MessageFromBytes Codec.raw bytes = some (some msg, none) ∧ msg.Data = some [1, 2, 3, 4] :=
  payload_round_trip.1 examplePayloadMessage [1, 2, 3, 4] rfl rfl (by decide) (by decide)
    (by decide)

theorem slice_set_of_le (l : List Nat) (i v lo hi : Nat) (h : lo ≤ i) :
    slice (l.set i v) lo hi = (slice l lo hi).set (i - lo) v := by
  unfold slice
  rw [List.drop_set, if_neg (by omega), List.set_take]

theorem slice_getD (l : List Nat) (lo hi j : Nat) (h : j < hi - lo) :
    (slice l lo hi).getD j 0 = l.getD (lo + j) 0 := by
  unfold slice
  simp [List.getD_eq_getElem?_getD, List.getElem?_take, h, List.getElem?_drop]

theorem slice_length (l : List Nat) (lo hi : Nat) (h : hi ≤ l.length) :
    (slice l lo hi).length = hi - lo := by
  unfold slice
  simp; omega

theorem flipBit_length (l : List Nat) (i k : Nat) : (flipBit l i k).length = l.length := by
  simp [flipBit]

theorem slice_flipBit (l : List Nat) (i k lo hi : Nat) (h1 : lo ≤ i) (h2 : i < hi) :
    slice (flipBit l i k) lo hi = flipBit (slice l lo hi) (i - lo) k := by
  unfold flipBit
  rw [slice_set_of_le _ _ _ _ _ h1, slice_getD _ _ _ _ (by omega)]
  congr 3
  omega

theorem flipBit_getD_ne (l : List Nat) (i j k : Nat) (h : i ≠ j) :
    (flipBit l i k).getD j 0 = l.getD j 0 := by
  simp [flipBit, List.getD_eq_getElem?_getD, List.getElem?_set_ne h]

theorem flipBit_getD_self (l : List Nat) (i k : Nat) (h : i < l.length) :
    (flipBit l i k).getD i 0 = l.getD i 0 ^^^ 2 ^ k := by
  simp [flipBit, List.getD_eq_getElem?_getD, List.getElem?_set, h]

/-- A single flipped bit in bytes 6..30 of a buffer with a valid header. -/
theorem MessageFromBytes_flip_header {T : Type} (codec : Codec T) (w : List Nat) (i k : Nat)
    (hlen : 31 ≤ w.length) (hcs : w.getD 30 0 = getChecksum (slice w 6 30))
    (hb : ∀ x ∈ slice w 6 30, x < 256) (hi : 6 ≤ i ∧ i ≤ 30) (hk : k < 8) :
    MessageFromBytes codec (flipBit w i k) = some (none, some Error.ErrInvalidMessageFormat) := by
  apply MessageFromBytes_reject
  right; right
  by_cases h30 : i = 30
  · subst h30
    have hs : slice (flipBit w 30 k) 6 30 = slice w 6 30 := by
      unfold flipBit
      rw [slice_set_of_le _ _ _ _ _ (by decide),
        List.set_eq_of_length_le (by rw [slice_length w 6 30 (by omega)])]
    rw [hs, flipBit_getD_self _ _ _ (by omega), hcs]
    exact (xor_bit_ne k hk _ (getChecksum_lt _)).2
  · have hs := slice_flipBit w i k 6 30 hi.1 (by omega)
    rw [hs, flipBit_getD_ne _ _ _ _ h30, hcs]
    exact (getChecksum_flip_ne _ _ _ (by rw [slice_length w 6 30 (by omega)]; omega) hk hb).symm

/-- For a frame, `ToBytes` returns the buffer `wireBytes`; inverting one bit of
any of its bytes 6..30 makes `MessageFromBytes` return a nil message and
`ErrInvalidMessageFormat`; and when the frame carries a payload, inverting one
bit of a payload byte or of the payload checksum byte (the bytes from index 31
on) makes it return `ErrInvalidMessagePayload`. -/
theorem IsFrame.flip_detected {T : Type} (codec : Codec T) (m : Message T)
    (hF : IsFrame codec m) (i k : Nat) (hk : k < 8) :
    m.ToBytes codec = some (some (wireBytes codec m), none) ∧
    (6 ≤ i ∧ i ≤ 30 →
      MessageFromBytes codec (flipBit (wireBytes codec m) i k) =
        some (none, some Error.ErrInvalidMessageFormat)) ∧
    (m.Data ≠ none → 31 ≤ i → i < (wireBytes codec m).length →
      ∃ msg, MessageFromBytes codec (flipBit (wireBytes codec m) i k) =
        some (some msg, some Error.ErrInvalidMessagePayload)) := by
  cases hD : m.Data with
  | none =>
    obtain ⟨hto, hw⟩ := hF.ToBytes_no_payload hD
    refine ⟨by rw [hw]; exact hto, ?_, fun h => absurd rfl h⟩
    intro hi
    obtain ⟨_, h2, _, _, _, _, _, h8⟩ := header_facts m 0 []
    rw [List.append_nil] at h2 h8
    rw [hw]
    exact MessageFromBytes_flip_header codec _ i k (by rw [headerBytes_length]) h2
      (by rw [h8]; exact headerFields_lt m 0) hi hk
  | some d =>
    obtain ⟨p, _, _, _, hpos, hfit, hto, hw⟩ := hF.ToBytes_payload hD
    set e := base64Encode p with he
    refine ⟨by rw [hw]; exact hto, ?_, ?_⟩
    · intro hi
      obtain ⟨_, h2, _, _, _, _, _, h8⟩ := header_facts m e.length (e ++ [getChecksum e])
      rw [← List.append_assoc] at h2 h8
      rw [hw]
      exact MessageFromBytes_flip_header codec _ i k (by simp [headerBytes_length]) h2
        (by rw [h8]; exact headerFields_lt m _) hi hk
    · intro _ hi hlt
      rw [hw] at hlt ⊢
      obtain ⟨ts, hts⟩ := hF.ParseInt_timestamp
      have hH : (headerBytes m e.length).length = 31 := headerBytes_length _ _
      have hlt' : i < 31 + e.length + 1 := by
        simpa [hH, Nat.add_assoc] using hlt
      have heb : ∀ x ∈ e, x < 256 := fun x hx => by
        have := base64Encode_range p x hx; omega
      by_cases hlast : i = 31 + e.length
      · -- the payload checksum byte
        have hflip : flipBit (headerBytes m e.length ++ e ++ [getChecksum e]) i k
            = headerBytes m e.length ++ e ++ [getChecksum e ^^^ 2 ^ k] := by
          unfold flipBit
          rw [List.set_append_right _ _ (by simp [hH]; omega)]
          have hz : i - (headerBytes m e.length ++ e).length = 0 := by simp [hH]; omega
          rw [hz, List.getD_eq_getElem?_getD,
            List.getElem?_append_right (by simp [hH]; omega), hz]
          rfl
        have hdec := MessageFromBytes_payload codec m e (getChecksum e ^^^ 2 ^ k) hpos hfit
        rw [hts] at hdec
        simp only [] at hdec
        rw [if_pos (xor_bit_ne k hk _ (getChecksum_lt _)).2] at hdec
        exact ⟨_, by rw [hflip]; exact hdec⟩
      · -- a payload byte
        have hj : i - 31 < e.length := by omega
        have hflip : flipBit (headerBytes m e.length ++ e ++ [getChecksum e]) i k
            = headerBytes m (flipBit e (i - 31) k).length ++ flipBit e (i - 31) k
              ++ [getChecksum e] := by
          rw [flipBit_length]
          unfold flipBit
          rw [List.append_assoc, List.set_append_right _ _ (by omega),
            List.set_append_left _ _ (by omega), List.getD_eq_getElem?_getD,
            List.getElem?_append_right (by omega),
            List.getElem?_append_left (by omega), hH, List.append_assoc,
            ← List.getD_eq_getElem?_getD]
        have hdec := MessageFromBytes_payload codec m (flipBit e (i - 31) k) (getChecksum e)
          (by rw [flipBit_length]; exact hpos) (by rw [flipBit_length]; exact hfit)
        rw [hts] at hdec
        simp only [] at hdec
        rw [if_pos (getChecksum_flip_ne e (i - 31) k hj hk heb).symm] at hdec
        exact ⟨_, by rw [hflip]; exact hdec⟩

/-- A bit inverted in bytes 6..30 of any buffer that `ToBytes` returns makes
`MessageFromBytes` return a nil message and `ErrInvalidMessageFormat`. -/
theorem ToBytes_flip_header {T : Type} (codec : Codec T) (m : Message T) (b : List Nat)
    (h : m.ToBytes codec = some (some b, none)) (i k : Nat) (hi : 6 ≤ i ∧ i ≤ 30) (hk : k < 8) :
    MessageFromBytes codec (flipBit b i k) = some (none, some Error.ErrInvalidMessageFormat) := by
  have ht := ToBytes_take_header codec m b h
  have hlen : 31 ≤ b.length := by
    have := congrArg List.length ht
    rw [List.length_take, headerBytes_length] at this
    omega
  have hb : b = headerBytes m (encodedLen codec m % 4294967296) ++ b.drop 31 := by
    rw [← ht, List.take_append_drop]
  obtain ⟨_, h2, _, _, _, _, _, h8⟩ :=
    header_facts m (encodedLen codec m % 4294967296) (b.drop 31)
  rw [← hb] at h2 h8
  exact MessageFromBytes_flip_header codec b i k hlen h2
    (by rw [h8]; exact headerFields_lt m _) hi hk

/-- C5 (single-bit error detection), amended by the size bound. For every
message and every buffer that `ToBytes` returns for it, inverting one bit of
any of the bytes 6..30 makes `MessageFromBytes` return a nil message and
`ErrInvalidMessageFormat`. For every frame with a non-empty payload whose
base64 text, with the header and the checksum byte, stays below 2^32 bytes,
`ToBytes` returns a buffer, and inverting one bit of a payload byte or of the
payload checksum byte (the bytes from index 31 on) makes `MessageFromBytes`
return `ErrInvalidMessagePayload`. -/
theorem single_bit_error_detection {T : Type} (codec : Codec T) (m : Message T) (i k : Nat)
    (hk : k < 8) :
    (∀ b, m.ToBytes codec = some (some b, none) → 6 ≤ i ∧ i ≤ 30 →
      MessageFromBytes codec (flipBit b i k) =
        some (none, some Error.ErrInvalidMessageFormat)) ∧
    (IsFrame codec m → m.Data ≠ none →
      ∃ w, m.ToBytes codec = some (some w, none) ∧
        (31 ≤ i → i < w.length →
          ∃ msg, MessageFromBytes codec (flipBit w i k) =
            some (some msg, some Error.ErrInvalidMessagePayload))) := by
  refine ⟨fun b h hi => ToBytes_flip_header codec m b h i k hi hk, ?_⟩
  intro hF hD
  obtain ⟨hto, _, hp⟩ := IsFrame.flip_detected codec m hF i k hk
  exact ⟨wireBytes codec m, hto, hp hD⟩

theorem single_bit_error_detection_witness :
    (∃ b, examplePayloadMessage.ToBytes Codec.raw = some (some b, none) ∧
      MessageFromBytes Codec.raw (flipBit b 7 3) =
        some (none, some Error.ErrInvalidMessageFormat)) ∧
    (∃ w, examplePayloadMessage.ToBytes Codec.raw = some (some w, none) ∧
      ∃ msg, MessageFromBytes Codec.raw (flipBit w 33 0) =
        some (some msg, some Error.ErrInvalidMessagePayload)) := by
  have hE : examplePayloadMessage.ToBytes Codec.raw = some (some examplePayloadWire, none) := by
    decide
  constructor
  · exact ⟨examplePayloadWire, hE,
      (single_bit_error_detection Codec.raw examplePayloadMessage 7 3 (by decide)).1
        examplePayloadWire hE ⟨by decide, by decide⟩⟩
  · obtain ⟨w, hw, hp⟩ :=
      (single_bit_error_detection Codec.raw examplePayloadMessage 33 0 (by decide)).2
        ⟨by decide, by decide, Or.inl rfl, [1, 2, 3, 4], rfl, by decide, by decide, by decide⟩
        (by decide)
    have hw2 := hw
    rw [hE] at hw2
    simp only [Option.some.injEq, Prod.mk.injEq, and_true] at hw2
    subst hw2
    exact ⟨_, hw, hp (by decide) (by decide)⟩

/-! ## States of the parser -/

theorem NewMessageBuilder_eq : NewMessageBuilder = searching 0 (List.replicate 31 0) 0 0 := rfl

theorem WriteByte_searching_sync (r : Nat) (data : List Nat) (pe ds : Nat) (hr : r < 5)
    (hd : r < data.length) :
    (searching r data pe ds).WriteByte 22 = some (searching (r + 1) (data.set r 22) pe ds, false) := by
  have h6 : r < 6 := by omega
  interval_cases r <;>
    simp [MessageBuilder.WriteByte, searching, MessageBuilder.store, hd, MessageBuilder.Reset]

theorem WriteByte_searching_last (data : List Nat) (pe ds : Nat) (hd : 5 < data.length) :
    (searching 5 data pe ds).WriteByte 22
      = some (readingHeader 6 (data.set 5 22) pe ds, false) := by
  simp [MessageBuilder.WriteByte, searching, readingHeader, MessageBuilder.store, hd]

theorem WriteByte_searching_other (r : Nat) (data : List Nat) (pe ds b : Nat) (hr : r ≤ 5)
    (hb : b ≠ 22) :
    (searching r data pe ds).WriteByte b = some (searching 0 data pe ds, false) := by
  have hb' : ¬ 22 = b := fun h => hb h.symm
  have h6 : r < 6 := by omega
  interval_cases r <;>
    simp [MessageBuilder.WriteByte, searching, MessageBuilder.store, MessageBuilder.Reset, hb']

theorem WriteByte_readingHeader (p : Nat) (data : List Nat) (pe ds b : Nat) (hp : p < 30)
    (hd : p < data.length) :
    (readingHeader p data pe ds).WriteByte b
      = some (readingHeader (p + 1) (data.set p b) pe ds, false) := by
  have : ¬ p + 1 = 31 := by omega
  simp [MessageBuilder.WriteByte, readingHeader, MessageBuilder.store, hd, this]

theorem WriteByte_readingHeader_last (data : List Nat) (pe ds b : Nat) (hd : 30 < data.length) :
    (readingHeader 30 data pe ds).WriteByte b =
      if getChecksum (slice (data.set 30 b) 6 30) ≠ b then
        some (searching 0 (data.set 30 b) pe ds, false)
      else if Uint32 (slice (data.set 30 b) 26 30) > 0 then
        some (readingPayload 31
          (data.set 30 b ++
            List.replicate ((Uint32 (slice (data.set 30 b) 26 30) + 1) % 4294967296) 0)
          (31 + Uint32 (slice (data.set 30 b) 26 30)) ds, false)
      else some (searching 0 (data.set 30 b) pe 31, true) := by
  have hl : ¬ (data.set 30 b).length < 31 := by simp; omega
  have hg : (data.set 30 b).getD 30 0 = b := by
    simp [List.getD_eq_getElem?_getD, List.getElem?_set, hd]
  unfold MessageBuilder.WriteByte
  simp only [readingHeader, MessageBuilder.store, hd, if_true, Bool.false_eq_true, if_false]
  simp only [hl, if_false, hg]
  split_ifs <;> simp [searching, readingPayload, MessageBuilder.Reset]

theorem WriteByte_readingPayload (p : Nat) (data : List Nat) (pe ds b : Nat) (hp : p ≠ pe)
    (hd : p < data.length) :
    (readingPayload p data pe ds).WriteByte b
      = some (readingPayload (p + 1) (data.set p b) pe ds, false) := by
  simp [MessageBuilder.WriteByte, readingPayload, MessageBuilder.store, hd, hp]

theorem WriteByte_readingPayload_last (data : List Nat) (pe ds b : Nat) (hd : pe < data.length) :
    (readingPayload pe data pe ds).WriteByte b
      = some (searching 0 (data.set pe b) pe (pe + 1), true) := by
  simp [MessageBuilder.WriteByte, readingPayload, searching, MessageBuilder.store, hd,
    MessageBuilder.Reset]

/-! ## Feeding runs of bytes -/

theorem feed_nil {T : Type} (codec : Codec T) (m : MessageBuilder) :
    MessageBuilder.feed codec m [] = some (m, []) := rfl

theorem feed_cons_false {T : Type} (codec : Codec T) (m m1 m2 : MessageBuilder) (b : Nat)
    (bs : List Nat) (t : List (Option (Option (Message T) × Option Error)))
    (h1 : m.WriteByte b = some (m1, false))
    (h2 : MessageBuilder.feed codec m1 bs = some (m2, t)) :
    MessageBuilder.feed codec m (b :: bs) = some (m2, none :: t) := by
  simp [MessageBuilder.feed, h1, h2]

theorem feed_cons_true {T : Type} (codec : Codec T) (m m1 m2 : MessageBuilder) (b : Nat)
    (bs : List Nat) (r : Option (Message T) × Option Error)
    (t : List (Option (Option (Message T) × Option Error)))
    (h1 : m.WriteByte b = some (m1, true)) (hr : m1.Message codec = some r)
    (h2 : MessageBuilder.feed codec m1 bs = some (m2, t)) :
    MessageBuilder.feed codec m (b :: bs) = some (m2, some r :: t) := by
  simp [MessageBuilder.feed, h1, h2, hr]

theorem feed_append {T : Type} (codec : Codec T) (m m1 m2 : MessageBuilder) (a b : List Nat)
    (t1 t2 : List (Option (Option (Message T) × Option Error)))
    (h1 : MessageBuilder.feed codec m a = some (m1, t1))
    (h2 : MessageBuilder.feed codec m1 b = some (m2, t2)) :
    MessageBuilder.feed codec m (a ++ b) = some (m2, t1 ++ t2) := by
  induction a generalizing m t1 with
  | nil =>
    simp only [MessageBuilder.feed, Option.some.injEq, Prod.mk.injEq] at h1
    obtain ⟨rfl, rfl⟩ := h1
    simpa using h2
  | cons x xs ih =>
    simp only [MessageBuilder.feed] at h1
    cases hw : m.WriteByte x with
    | none => simp [hw] at h1
    | some res =>
      obtain ⟨m', ready⟩ := res
      rw [hw] at h1
      simp only [] at h1
      cases ready with
      | false =>
        simp only [Bool.false_eq_true, if_false] at h1
        cases hf : MessageBuilder.feed codec m' xs with
        | none => simp [hf] at h1
        | some res2 =>
          obtain ⟨m3, t3⟩ := res2
          rw [hf] at h1
          simp only [Option.some.injEq, Prod.mk.injEq] at h1
          obtain ⟨rfl, rfl⟩ := h1
          have := ih m' t3 hf
          simp [MessageBuilder.feed, hw, this]
      | true =>
        simp only [if_true] at h1
        cases hmsg : m'.Message codec with
        | none => simp [hmsg] at h1
        | some r =>
          rw [hmsg] at h1
          simp only [] at h1
          cases hf : MessageBuilder.feed codec m' xs with
          | none => simp [hf] at h1
          | some res2 =>
            obtain ⟨m3, t3⟩ := res2
            rw [hf] at h1
            simp only [Option.some.injEq, Prod.mk.injEq] at h1
            obtain ⟨rfl, rfl⟩ := h1
            have := ih m' t3 hf
            simp [MessageBuilder.feed, hw, hmsg, this]

theorem take_set_succ (data : List Nat) (p b : Nat) (h : p < data.length) :
    (data.set p b).take (p + 1) = data.take p ++ [b] := by
  rw [List.take_succ, List.set_take, List.set_eq_of_length_le (by simp)]
  simp [List.getElem?_set, h]

theorem feed_sync_run {T : Type} (codec : Codec T) (pe ds : Nat) (n r : Nat) (data : List Nat)
    (hn : r + n ≤ 5) (hd : r + n ≤ data.length) :
    ∃ data', MessageBuilder.feed codec (searching r data pe ds) (List.replicate n 22)
        = some (searching (r + n) data' pe ds,
            List.replicate n (none : Option (Option (Message T) × Option Error))) ∧
      data'.take (r + n) = data.take r ++ List.replicate n 22 ∧ data'.length = data.length := by
  induction n generalizing r data with
  | zero => exact ⟨data, by simp [feed_nil], by simp, rfl⟩
  | succ n ih =>
    have hstep := WriteByte_searching_sync r data pe ds (by omega) (by omega)
    obtain ⟨data', hf, ht, hl⟩ := ih (r + 1) (data.set r 22) (by omega) (by simp; omega)
    refine ⟨data', ?_, ?_, ?_⟩
    · rw [List.replicate_succ, List.replicate_succ]
      rw [show r + (n + 1) = r + 1 + n by omega]
      exact feed_cons_false codec _ _ _ _ _ _ hstep hf
    · rw [show r + (n + 1) = r + 1 + n by omega, ht, take_set_succ _ _ _ (by omega),
        List.replicate_succ]
      simp
    · simpa using hl

theorem feed_header_run {T : Type} (codec : Codec T) (pe ds : Nat) (bs : List Nat) (p : Nat)
    (data : List Nat) (hn : p + bs.length ≤ 30) (hd : p + bs.length ≤ data.length) :
    ∃ data', MessageBuilder.feed codec (readingHeader p data pe ds) bs
        = some (readingHeader (p + bs.length) data' pe ds,
            List.replicate bs.length (none : Option (Option (Message T) × Option Error))) ∧
      data'.take (p + bs.length) = data.take p ++ bs ∧ data'.length = data.length := by
  induction bs generalizing p data with
  | nil => exact ⟨data, by simp [feed_nil], by simp, rfl⟩
  | cons b bs ih =>
    simp only [List.length_cons] at hn hd ⊢
    have hstep := WriteByte_readingHeader p data pe ds b (by omega) (by omega)
    obtain ⟨data', hf, ht, hl⟩ := ih (p + 1) (data.set p b) (by omega) (by simp; omega)
    refine ⟨data', ?_, ?_, ?_⟩
    · rw [List.replicate_succ, show p + (bs.length + 1) = p + 1 + bs.length by omega]
      exact feed_cons_false codec _ _ _ _ _ _ hstep hf
    · rw [show p + (bs.length + 1) = p + 1 + bs.length by omega, ht,
        take_set_succ _ _ _ (by omega)]
      simp
    · simpa using hl

theorem feed_payload_run {T : Type} (codec : Codec T) (pe ds : Nat) (bs : List Nat) (p : Nat)
    (data : List Nat) (hn : p + bs.length ≤ pe) (hd : p + bs.length ≤ data.length) :
    ∃ data', MessageBuilder.feed codec (readingPayload p data pe ds) bs
        = some (readingPayload (p + bs.length) data' pe ds,
            List.replicate bs.length (none : Option (Option (Message T) × Option Error))) ∧
      data'.take (p + bs.length) = data.take p ++ bs ∧ data'.length = data.length := by
  induction bs generalizing p data with
  | nil => exact ⟨data, by simp [feed_nil], by simp, rfl⟩
  | cons b bs ih =>
    simp only [List.length_cons] at hn hd ⊢
    have hstep := WriteByte_readingPayload p data pe ds b (by omega) (by omega)
    obtain ⟨data', hf, ht, hl⟩ := ih (p + 1) (data.set p b) (by omega) (by simp; omega)
    refine ⟨data', ?_, ?_, ?_⟩
    · rw [List.replicate_succ, show p + (bs.length + 1) = p + 1 + bs.length by omega]
      exact feed_cons_false codec _ _ _ _ _ _ hstep hf
    · rw [show p + (bs.length + 1) = p + 1 + bs.length by omega, ht,
        take_set_succ _ _ _ (by omega)]
      simp
    · simpa using hl

theorem take_31_split (w : List Nat) (h : 31 ≤ w.length) :
    w.take 31 = w.take 6 ++ slice w 6 30 ++ [w.getD 30 0] := by
  have h1 : w.take 31 = w.take 30 ++ [w.getD 30 0] := by
    rw [List.take_succ, List.getD_eq_getElem?_getD, List.getElem?_eq_getElem (by omega)]
    simp
  have h2 : w.take 30 = w.take 6 ++ slice w 6 30 := by
    unfold slice
    rw [show (30 : Nat) = 6 + 24 by rfl, List.take_add]
  rw [h1, h2]

theorem feed_preamble {T : Type} (codec : Codec T) (pe ds : Nat) (data : List Nat)
    (hd : 31 ≤ data.length) :
    ∃ data', MessageBuilder.feed codec (searching 0 data pe ds) (List.replicate 6 22)
        = some (readingHeader 6 data' pe ds,
            List.replicate 6 (none : Option (Option (Message T) × Option Error))) ∧
      data'.take 6 = List.replicate 6 22 ∧ data'.length = data.length := by
  obtain ⟨data1, hf, ht, hl⟩ := feed_sync_run (T := T) codec pe ds 5 0 data (by decide) (by omega)
  have hstep := WriteByte_searching_last data1 pe ds (by omega)
  refine ⟨data1.set 5 22, ?_, ?_, by simpa using hl⟩
  · have h1 := feed_cons_false codec _ _ _ 22 [] [] hstep (feed_nil codec _)
    have := feed_append codec _ _ _ _ _ _ _ hf h1
    simpa [List.replicate] using this
  · rw [show (6 : Nat) = 5 + 1 by rfl, take_set_succ _ _ _ (by omega)]
    simp only [Nat.zero_add] at ht
    rw [ht]
    simp [List.replicate]

theorem feed_header30 {T : Type} (codec : Codec T) (pe ds : Nat) (data w : List Nat)
    (hw : 31 ≤ w.length) (hs : w.take 6 = List.replicate 6 22) (hd : 31 ≤ data.length) :
    ∃ data', MessageBuilder.feed codec (searching 0 data pe ds) (w.take 30)
        = some (readingHeader 30 data' pe ds,
            List.replicate 30 (none : Option (Option (Message T) × Option Error))) ∧
      data'.take 30 = w.take 30 ∧ data'.length = data.length := by
  obtain ⟨data1, hf1, ht1, hl1⟩ := feed_preamble (T := T) codec pe ds data hd
  have hFlen : (slice w 6 30).length = 24 := slice_length w 6 30 (by omega)
  obtain ⟨data2, hf2, ht2, hl2⟩ := feed_header_run (T := T) codec pe ds (slice w 6 30) 6 data1
    (by omega) (by omega)
  have hsplit : w.take 30 = List.replicate 6 22 ++ slice w 6 30 := by
    unfold slice
    rw [← hs, show (30 : Nat) = 6 + 24 by rfl, List.take_add]
  rw [hFlen] at hf2 ht2
  refine ⟨data2, ?_, ?_, by omega⟩
  · rw [hsplit]
    have := feed_append codec _ _ _ _ _ _ _ hf1 hf2
    rw [this]
    simp [← List.replicate_add]
  · rw [show 6 + 24 = 30 by rfl] at ht2
    rw [ht2, ht1, hsplit]

/-- The parser on the 31 bytes of a header with a valid checksum and payload
size 0. -/
theorem feed_header_no_payload {T : Type} (codec : Codec T) (pe ds : Nat) (data w : List Nat)
    (r : Option (Message T) × Option Error)
    (hw : 31 ≤ w.length) (hs : w.take 6 = List.replicate 6 22)
    (hc : w.getD 30 0 = getChecksum (slice w 6 30)) (hN : Uint32 (slice w 26 30) = 0)
    (hr : MessageFromBytes codec (w.take 31) = some r) (hd : 31 ≤ data.length) :
    ∃ data', MessageBuilder.feed codec (searching 0 data pe ds) (w.take 31)
        = some (searching 0 data' pe 31, List.replicate 30 none ++ [some r]) ∧
      data'.length = data.length := by
  obtain ⟨data2, hf, ht, hl⟩ := feed_header30 (T := T) codec pe ds data w hw hs hd
  have h31 : w.take 31 = w.take 30 ++ [w.getD 30 0] := by
    rw [List.take_succ, List.getD_eq_getElem?_getD, List.getElem?_eq_getElem (by omega)]
    simp
  have hdata3 : (data2.set 30 (w.getD 30 0)).take 31 = w.take 31 := by
    rw [take_set_succ _ _ _ (by omega), ht, h31]
  have hsl : ∀ lo hi, hi ≤ 31 → slice (data2.set 30 (w.getD 30 0)) lo hi = slice w lo hi := by
    intro lo hi hhi
    rw [← slice_take _ 31 lo hi hhi, hdata3, slice_take _ 31 lo hi hhi]
  have hstep := WriteByte_readingHeader_last data2 pe ds (w.getD 30 0) (by omega)
  rw [hsl 6 30 (by decide), hsl 26 30 (by decide), ← hc, hN] at hstep
  simp only [ne_eq, not_true_eq_false, if_false, gt_iff_lt, Nat.lt_irrefl] at hstep
  have hmsg : (searching 0 (data2.set 30 (w.getD 30 0)) pe 31).Message codec = some r := by
    unfold MessageBuilder.Message
    simp only [searching]
    rw [if_pos (by simp; omega), hdata3, hr]
  have h1 := feed_cons_true codec _ _ _ (w.getD 30 0) [] r [] hstep hmsg (feed_nil codec _)
  have := feed_append codec _ _ _ _ _ _ _ hf h1
  refine ⟨data2.set 30 (w.getD 30 0), ?_, by simpa using hl⟩
  rw [h31]; exact this

/-- The parser on the 31 bytes of a header with a valid checksum and payload
size `N > 0`: it grows the buffer by `N + 1` bytes (in `uint32` arithmetic) and
goes on to read the payload. -/
theorem feed_header_payload {T : Type} (codec : Codec T) (pe ds : Nat) (data w : List Nat)
    (hw : 31 ≤ w.length) (hs : w.take 6 = List.replicate 6 22)
    (hc : w.getD 30 0 = getChecksum (slice w 6 30)) (hN : 0 < Uint32 (slice w 26 30))
    (hd : 31 ≤ data.length) :
    ∃ data', MessageBuilder.feed codec (searching 0 data pe ds) (w.take 31)
        = some (readingPayload 31
            (data' ++ List.replicate ((Uint32 (slice w 26 30) + 1) % 4294967296) 0)
            (31 + Uint32 (slice w 26 30)) ds,
            List.replicate 31 (none : Option (Option (Message T) × Option Error))) ∧
      data'.take 31 = w.take 31 ∧ data'.length = data.length := by
  obtain ⟨data2, hf, ht, hl⟩ := feed_header30 (T := T) codec pe ds data w hw hs hd
  have h31 : w.take 31 = w.take 30 ++ [w.getD 30 0] := by
    rw [List.take_succ, List.getD_eq_getElem?_getD, List.getElem?_eq_getElem (by omega)]
    simp
  have hdata3 : (data2.set 30 (w.getD 30 0)).take 31 = w.take 31 := by
    rw [take_set_succ _ _ _ (by omega), ht, h31]
  have hsl : ∀ lo hi, hi ≤ 31 → slice (data2.set 30 (w.getD 30 0)) lo hi = slice w lo hi := by
    intro lo hi hhi
    rw [← slice_take _ 31 lo hi hhi, hdata3, slice_take _ 31 lo hi hhi]
  have hstep := WriteByte_readingHeader_last data2 pe ds (w.getD 30 0) (by omega)
  rw [hsl 6 30 (by decide), hsl 26 30 (by decide), ← hc] at hstep
  simp only [ne_eq, not_true_eq_false, if_false, gt_iff_lt, hN, if_true] at hstep
  have h1 := feed_cons_false codec _ _ _ (w.getD 30 0) [] [] hstep (feed_nil codec _)
  have := feed_append codec _ _ _ _ _ _ _ hf h1
  refine ⟨data2.set 30 (w.getD 30 0), ?_, hdata3, by simpa using hl⟩
  rw [h31, this]
  simp [List.replicate_succ']

/-- The parser, after a reset, on the bytes of one well-framed buffer: it
returns false on every byte but the last, true on the last, `Message` then
decodes exactly the bytes of the frame, and the builder is reset again. -/
theorem feed_frame {T : Type} (codec : Codec T) (pe ds : Nat) (data w : List Nat)
    (r : Option (Message T) × Option Error) (hw : WellFramed w)
    (hr : MessageFromBytes codec w = some r) (hd : 31 ≤ data.length) :
    ∃ data' pe' ds', MessageBuilder.feed codec (searching 0 data pe ds) w
        = some (searching 0 data' pe' ds', List.replicate (w.length - 1) none ++ [some r]) ∧
      31 ≤ data'.length := by
  obtain ⟨hlen, hs, hc, hN⟩ := hw
  rcases hN with ⟨hN0, hl31⟩ | ⟨hNpos, hNfit, hlN⟩
  · have hw31 : w.take 31 = w := List.take_of_length_le (by omega)
    obtain ⟨data', hf, hl⟩ := feed_header_no_payload codec pe ds data w r hlen hs hc hN0
      (by rw [hw31]; exact hr) hd
    rw [hw31] at hf
    exact ⟨data', pe, 31, by rw [hf, hl31], by omega⟩
  · set N := Uint32 (slice w 26 30) with hNdef
    obtain ⟨data3, hf, ht3, hl3⟩ := feed_header_payload (T := T) codec pe ds data w hlen hs hc
      hNpos hd
    rw [← hNdef, Nat.mod_eq_of_lt hNfit] at hf
    -- the payload bytes and the payload checksum byte
    have hsplit : w = w.take 31 ++ slice w 31 (31 + N) ++ [w.getD (31 + N) 0] := by
      have h1 : w = w.take (31 + N + 1) := (List.take_of_length_le (by omega)).symm
      have h2 : w.take (31 + N + 1) = w.take (31 + N) ++ [w.getD (31 + N) 0] := by
        rw [List.take_succ, List.getD_eq_getElem?_getD, List.getElem?_eq_getElem (by omega)]
        simp
      have h3 : w.take (31 + N) = w.take 31 ++ slice w 31 (31 + N) := by
        unfold slice
        rw [List.take_add, show 31 + N - 31 = N by omega]
      rw [← h3, ← h2, ← h1]
    have helen : (slice w 31 (31 + N)).length = N := by
      rw [slice_length w 31 (31 + N) (by omega)]; omega
    obtain ⟨data4, hf4, ht4, hl4⟩ := feed_payload_run (T := T) codec (31 + N) ds
      (slice w 31 (31 + N)) 31 (data3 ++ List.replicate (N + 1) 0)
      (by rw [helen]) (by rw [helen]; simp; omega)
    rw [helen] at hf4 ht4
    have hl4' : data4.length = data3.length + (N + 1) := by simpa using hl4
    have hstep := WriteByte_readingPayload_last data4 (31 + N) ds (w.getD (31 + N) 0) (by omega)
    have hdata5 : (data4.set (31 + N) (w.getD (31 + N) 0)).take (31 + N + 1) = w := by
      rw [take_set_succ _ _ _ (by omega), ht4,
        List.take_append_of_le_length (by omega), ht3]
      exact hsplit.symm
    have hmsg : (searching 0 (data4.set (31 + N) (w.getD (31 + N) 0)) (31 + N)
        (31 + N + 1)).Message codec = some r := by
      unfold MessageBuilder.Message
      simp only [searching]
      rw [if_pos (by simp; omega), hdata5, hr]
    have h1 := feed_cons_true codec _ _ _ (w.getD (31 + N) 0) [] r [] hstep hmsg
      (feed_nil codec _)
    have h2 := feed_append codec _ _ _ _ _ _ _ hf4 h1
    have h3 := feed_append codec _ _ _ _ _ _ _ hf h2
    rw [← List.append_assoc, ← hsplit] at h3
    refine ⟨data4.set (31 + N) (w.getD (31 + N) 0), 31 + N, 31 + N + 1, ?_, ?_⟩
    · rw [h3, hlN]
      simp only [Nat.add_sub_cancel, ← List.append_assoc, ← List.replicate_add]
    · simp; omega

/-! ## Frames on the wire -/

theorem headerBytes_take_6 {T : Type} (m : Message T) (N : Nat) (rest : List Nat) :
    (headerBytes m N ++ rest).take 6 = List.replicate 6 22 := by
  simp [headerBytes, messageSyncByteCount, messageSyncByte, List.replicate, List.append_assoc]

theorem IsFrame.wellFramed {T : Type} {codec : Codec T} {m : Message T} (hF : IsFrame codec m) :
    WellFramed (wireBytes codec m) := by
  cases hD : m.Data with
  | none =>
    obtain ⟨_, hw⟩ := hF.ToBytes_no_payload hD
    obtain ⟨_, h2, _, _, _, _, h7, _⟩ := header_facts m 0 []
    have h6 := headerBytes_take_6 m 0 []
    rw [List.append_nil] at h2 h7 h6
    rw [hw]
    exact ⟨by rw [headerBytes_length], h6, h2, Or.inl ⟨h7, headerBytes_length m 0⟩⟩
  | some d =>
    obtain ⟨p, _, _, _, hpos, hfit, _, hw⟩ := hF.ToBytes_payload hD
    set e := base64Encode p with he
    obtain ⟨_, h2, _, _, _, _, h7, _⟩ := header_facts m e.length (e ++ [getChecksum e])
    have h6 := headerBytes_take_6 m e.length (e ++ [getChecksum e])
    rw [← List.append_assoc] at h2 h7 h6
    rw [Nat.mod_eq_of_lt (by omega)] at h7
    rw [hw]
    refine ⟨by simp [headerBytes_length], h6, h2, Or.inr ⟨?_, ?_, ?_⟩⟩
    · rw [h7]; exact hpos
    · rw [h7]; omega
    · rw [h7]; simp [headerBytes_length]; omega

theorem Codec.raw_reversible : Codec.raw.Reversible := by
  intro d p _
  rfl

/-- The function `MessageFromBytes` on the bytes of a frame: no panic, and no error when
the codec is reversible. -/
theorem IsFrame.decode {T : Type} {codec : Codec T} {m : Message T} (hF : IsFrame codec m) :
    (∃ r, MessageFromBytes codec (wireBytes codec m) = some r) ∧
    (codec.Reversible → ∃ msg, MessageFromBytes codec (wireBytes codec m) = some (some msg, none)) := by
  obtain ⟨ts, hts⟩ := hF.ParseInt_timestamp
  cases hD : m.Data with
  | none =>
    obtain ⟨_, hw⟩ := hF.ToBytes_no_payload hD
    have hdec := MessageFromBytes_header_only codec m 0 [] (by decide)
    rw [List.append_nil, hts] at hdec
    rw [hw]
    exact ⟨⟨_, hdec⟩, fun _ => ⟨_, hdec⟩⟩
  | some d =>
    obtain ⟨p, hm, _, hb, hpos, hfit, _, hw⟩ := hF.ToBytes_payload hD
    have hdec := MessageFromBytes_payload codec m (base64Encode p) (getChecksum (base64Encode p))
      hpos hfit
    rw [hts] at hdec
    simp only [ne_eq, not_true_eq_false, if_false, base64Decode_encode p hb] at hdec
    rw [hw]
    cases hu : codec.unmarshal p with
    | none =>
      rw [hu] at hdec
      refine ⟨⟨_, hdec⟩, fun hrev => ?_⟩
      have := hrev d p hm
      rw [hu] at this
      exact absurd this (by simp)
    | some d' =>
      rw [hu] at hdec
      exact ⟨⟨_, hdec⟩, fun _ => ⟨_, hdec⟩⟩

/-! ## The stream loop -/

theorem take_append_push {α : Type} (n : Nat) (chan rest : List α) (x : α)
    (hc : chan.length ≤ n) :
    ((if chan.length < n then chan ++ [x] else chan) ++ rest).take n
      = (chan ++ x :: rest).take n := by
  split_ifs with h
  · simp
  · have : chan.length = n := by omega
    rw [List.take_append_of_le_length (by omega), List.take_append_of_le_length (by omega)]

theorem processBuffer_of_feed {T : Type} (codec : Codec T) (n : Nat) (bytes : List Nat)
    (mb mb' : MessageBuilder) (trace : List (Option (Option (Message T) × Option Error)))
    (chan : List (Message T)) (err : Option Error)
    (hf : MessageBuilder.feed codec mb bytes = some (mb', trace))
    (hok : ∀ r, some r ∈ trace → ∃ msg, r = (some msg, none))
    (hc : chan.length ≤ n) :
    MessageStream.processBuffer codec n ⟨mb, chan, err, false⟩ bytes =
      some ⟨mb', (chan ++ (traceMessages trace).map asReceived).take n, err, false⟩ := by
  induction bytes generalizing mb chan trace with
  | nil =>
    simp only [MessageBuilder.feed, Option.some.injEq, Prod.mk.injEq] at hf
    obtain ⟨rfl, rfl⟩ := hf
    simp [MessageStream.processBuffer, traceMessages, List.take_of_length_le hc]
  | cons x xs ih =>
    simp only [MessageBuilder.feed] at hf
    cases hw : mb.WriteByte x with
    | none => simp [hw] at hf
    | some res =>
      obtain ⟨m1, ready⟩ := res
      rw [hw] at hf
      simp only [] at hf
      cases ready with
      | false =>
        simp only [Bool.false_eq_true, if_false] at hf
        cases hfe : MessageBuilder.feed codec m1 xs with
        | none => simp [hfe] at hf
        | some res2 =>
          obtain ⟨m3, t3⟩ := res2
          rw [hfe] at hf
          simp only [Option.some.injEq, Prod.mk.injEq] at hf
          obtain ⟨rfl, rfl⟩ := hf
          have := ih m1 t3 chan hfe (fun r hr => hok r (List.mem_cons_of_mem _ hr)) hc
          simp only [MessageStream.processBuffer, MessageStream.processByte, hw,
            Bool.false_eq_true, if_false]
          rw [this]
          simp [traceMessages]
      | true =>
        simp only [if_true] at hf
        cases hmsg : m1.Message codec with
        | none => simp [hmsg] at hf
        | some r =>
          rw [hmsg] at hf
          simp only [] at hf
          cases hfe : MessageBuilder.feed codec m1 xs with
          | none => simp [hfe] at hf
          | some res2 =>
            obtain ⟨m3, t3⟩ := res2
            rw [hfe] at hf
            simp only [Option.some.injEq, Prod.mk.injEq] at hf
            obtain ⟨rfl, rfl⟩ := hf
            obtain ⟨msg, rfl⟩ := hok r (List.mem_cons_self _ _)
            have hlen : (if chan.length < n then chan ++ [asReceived msg] else chan).length ≤ n := by
              split_ifs with h
              · simp; omega
              · exact hc
            have := ih m1 t3 (if chan.length < n then chan ++ [asReceived msg] else chan) hfe
              (fun r hr => hok r (List.mem_cons_of_mem _ hr)) hlen
            rw [take_append_push n chan _ _ hc] at this
            simp only [MessageStream.processBuffer, MessageStream.processByte, hw, hmsg,
              Bool.false_eq_true, if_false, if_true]
            by_cases hroom : chan.length < n
            · simp only [hroom, if_true] at this ⊢
              rw [show ({ msg with status := MessageReceived } : Message T) = asReceived msg from rfl]
              rw [this]
              simp [traceMessages]
            · simp only [hroom, if_false] at this ⊢
              rw [this]
              simp [traceMessages]

theorem processBuffer_append {T : Type} (codec : Codec T) (n : Nat) (a b : List Nat)
    (s : MessageStream T) :
    MessageStream.processBuffer codec n s (a ++ b) =
      (MessageStream.processBuffer codec n s a).bind
        (fun s1 => MessageStream.processBuffer codec n s1 b) := by
  induction a generalizing s with
  | nil => simp [MessageStream.processBuffer]
  | cons x xs ih =>
    simp only [List.cons_append, MessageStream.processBuffer]
    cases h : s.processByte codec n x with
    | none => simp
    | some s1 => simp [ih]

theorem processReads_eq {T : Type} (codec : Codec T) (n : Nat) (reads : List (List Nat))
    (s : MessageStream T) :
    MessageStream.processReads codec n s reads =
      (MessageStream.processBuffer codec n s reads.flatten).map MessageStream.finish := by
  induction reads generalizing s with
  | nil => simp [MessageStream.processReads, MessageStream.processBuffer, MessageStream.finish]
  | cons c cs ih =>
    simp only [MessageStream.processReads, List.flatten_cons, processBuffer_append]
    cases h : MessageStream.processBuffer codec n s c with
    | none => simp
    | some s1 => simp [ih]

/-! ## Bytes that do not start a frame -/

theorem feed_quiet {T : Type} (codec : Codec T) (pe ds : Nat) (P : List Nat) (r : Nat)
    (data : List Nat) (hr : r ≤ 5) (hd : 31 ≤ data.length) (hq : quiet r P = true) :
    ∃ data', MessageBuilder.feed codec (searching r data pe ds) P
        = some (searching (runAfter r P) data' pe ds,
            List.replicate P.length (none : Option (Option (Message T) × Option Error))) ∧
      runAfter r P ≤ 5 ∧ data'.length = data.length := by
  induction P generalizing r data with
  | nil => exact ⟨data, by simp [feed_nil, runAfter], by simpa [runAfter] using hr, rfl⟩
  | cons b bs ih =>
    by_cases hb : b = 22
    · subst hb
      simp only [quiet, if_true, Bool.and_eq_true, decide_eq_true_eq] at hq
      obtain ⟨hr6, hq'⟩ := hq
      have hstep := WriteByte_searching_sync r data pe ds (by omega) (by omega)
      obtain ⟨data', hf, hr', hl⟩ := ih (r + 1) (data.set r 22) (by omega) (by simpa using hd) hq'
      refine ⟨data', ?_, by simpa [runAfter] using hr', by simpa using hl⟩
      simp only [runAfter, if_true, List.length_cons, List.replicate_succ]
      exact feed_cons_false codec _ _ _ _ _ _ hstep hf
    · simp only [quiet, hb, if_false] at hq
      have hstep := WriteByte_searching_other r data pe ds b hr hb
      obtain ⟨data', hf, hr', hl⟩ := ih 0 data (by omega) hd hq
      refine ⟨data', ?_, by simpa [runAfter, hb] using hr', hl⟩
      simp only [runAfter, hb, if_false, List.length_cons, List.replicate_succ]
      exact feed_cons_false codec _ _ _ _ _ _ hstep hf

theorem quiet_of_not_infix (P : List Nat) (r : Nat) (hr : r ≤ 5)
    (h : ¬ List.replicate 6 22 <:+: List.replicate r 22 ++ P) : quiet r P = true := by
  induction P generalizing r with
  | nil => rfl
  | cons b bs ih =>
    by_cases hb : b = 22
    · subst hb
      have hcons : List.replicate r 22 ++ 22 :: bs = List.replicate (r + 1) 22 ++ bs := by
        rw [List.replicate_succ', List.append_assoc]; rfl
      have hr5 : r + 1 < 6 := by
        by_contra hcon
        have h5 : r = 5 := by omega
        subst h5
        apply h
        rw [hcons]
        exact (List.prefix_append _ _).isInfix
      simp only [quiet, if_true, Bool.and_eq_true, decide_eq_true_eq]
      refine ⟨hr5, ih (r + 1) (by omega) ?_⟩
      rw [← hcons]; exact h
    · simp only [quiet, hb, if_false]
      apply ih 0 (by omega)
      intro hinf
      apply h
      simp only [List.replicate_zero, List.nil_append] at hinf
      have hsuf : bs <:+ List.replicate r 22 ++ b :: bs :=
        ⟨List.replicate r 22 ++ [b], by simp⟩
      exact hinf.trans hsuf.isInfix

theorem runAfter_append (r : Nat) (a b : List Nat) :
    runAfter r (a ++ b) = runAfter (runAfter r a) b := by
  induction a generalizing r with
  | nil => rfl
  | cons x xs ih =>
    simp only [List.cons_append, runAfter]
    split_ifs <;> exact ih _

theorem quiet_append (r : Nat) (a b : List Nat) :
    quiet r (a ++ b) = (quiet r a && quiet (runAfter r a) b) := by
  induction a generalizing r with
  | nil => simp [quiet, runAfter]
  | cons x xs ih =>
    simp only [List.cons_append, quiet, runAfter]
    split_ifs
    · have := ih (r + 1)
      simp only [List.append_eq] at this ⊢
      rw [this, Bool.and_assoc]
    · exact ih _

theorem runAfter_concat_of_ne (r : Nat) (a : List Nat) (b : Nat) (hb : b ≠ 22) :
    runAfter r (a ++ [b]) = 0 := by
  rw [runAfter_append]
  simp [runAfter, hb]

theorem quiet_of_no_sync (r : Nat) (a : List Nat) (h : ∀ x ∈ a, x ≠ 22) :
    quiet r a = true ∧ (a ≠ [] → runAfter r a = 0) := by
  induction a generalizing r with
  | nil => exact ⟨rfl, fun h => absurd rfl h⟩
  | cons x xs ih =>
    have hx : x ≠ 22 := h x (List.mem_cons_self _ _)
    obtain ⟨h1, h2⟩ := ih 0 (fun y hy => h y (List.mem_cons_of_mem _ hy))
    refine ⟨by simpa [quiet, hx] using h1, fun _ => ?_⟩
    simp only [runAfter, hx, if_false]
    cases xs with
    | nil => rfl
    | cons y ys => exact h2 (by simp)

theorem quiet_of_short (r : Nat) (a : List Nat) (h : r + a.length ≤ 5) :
    quiet r a = true ∧ runAfter r a ≤ r + a.length := by
  induction a generalizing r with
  | nil => exact ⟨rfl, by simp [runAfter]⟩
  | cons x xs ih =>
    simp only [List.length_cons] at h ⊢
    by_cases hx : x = 22
    · obtain ⟨h1, h2⟩ := ih (r + 1) (by omega)
      refine ⟨by simp [quiet, hx, h1]; omega, ?_⟩
      simp only [runAfter, hx, if_true]; omega
    · obtain ⟨h1, h2⟩ := ih 0 (by omega)
      refine ⟨by simpa [quiet, hx] using h1, ?_⟩
      simp only [runAfter, hx, if_false]; omega

/-! ## Streams of frames -/

theorem feed_frames {T : Type} (codec : Codec T) (frames : List (Message T))
    (hF : ∀ F ∈ frames, IsFrame codec F) (pe ds : Nat) (data : List Nat)
    (hd : 31 ≤ data.length) :
    ∃ results data' pe' ds',
      List.Forall₂ (fun F r => F.ToBytes codec = some (some (wireBytes codec F), none) ∧
        MessageFromBytes codec (wireBytes codec F) = some r) frames results ∧
      MessageBuilder.feed codec (searching 0 data pe ds) (frames.map (wireBytes codec)).flatten
        = some (searching 0 data' pe' ds',
            (List.zipWith (fun F r => frameTrace (wireBytes codec F) r) frames results).flatten) ∧
      31 ≤ data'.length ∧
      (codec.Reversible → ∀ r ∈ results, ∃ msg, r = (some msg, none)) := by
  induction frames generalizing pe ds data with
  | nil => exact ⟨[], data, pe, ds, List.Forall₂.nil, by simp [feed_nil], hd, by simp⟩
  | cons F Fs ih =>
    have hFr : IsFrame codec F := hF F (List.mem_cons_self _ _)
    obtain ⟨⟨r, hr⟩, hrev⟩ := hFr.decode
    have hto : F.ToBytes codec = some (some (wireBytes codec F), none) := by
      cases hD : F.Data with
      | none =>
        obtain ⟨h1, h2⟩ := hFr.ToBytes_no_payload hD
        rw [h2]; exact h1
      | some d =>
        obtain ⟨p, _, _, _, _, _, h1, h2⟩ := hFr.ToBytes_payload hD
        rw [h2]; exact h1
    obtain ⟨data1, pe1, ds1, hf1, hd1⟩ := feed_frame codec pe ds data (wireBytes codec F) r
      hFr.wellFramed hr hd
    obtain ⟨rs, data2, pe2, ds2, hall, hf2, hd2, hok⟩ :=
      ih (fun G hG => hF G (List.mem_cons_of_mem _ hG)) pe1 ds1 data1 hd1
    refine ⟨r :: rs, data2, pe2, ds2, List.Forall₂.cons ⟨hto, hr⟩ hall, ?_, hd2, ?_⟩
    · simp only [List.map_cons, List.flatten_cons, List.zipWith_cons_cons]
      exact feed_append codec _ _ _ _ _ _ _ hf1 hf2
    · intro hR x hx
      rcases List.mem_cons.mp hx with h | h
      · obtain ⟨msg, hmsg⟩ := hrev hR
        rw [hr] at hmsg
        exact ⟨msg, by rw [h]; exact Option.some.inj hmsg⟩
      · exact hok hR x h

theorem traceMessages_frames {T : Type} (codec : Codec T) (frames : List (Message T))
    (results : List (Option (Message T) × Option Error))
    (hlen : frames.length = results.length) :
    traceMessages ((List.zipWith (fun F r => frameTrace (wireBytes codec F) r) frames
      results).flatten) = results.filterMap (fun r => r.1) := by
  induction frames generalizing results with
  | nil =>
    cases results with
    | nil => rfl
    | cons r rs => simp at hlen
  | cons F Fs ih =>
    cases results with
    | nil => simp at hlen
    | cons r rs =>
      have := ih rs (by simpa using hlen)
      have hq : List.filterMap (fun x : Option (Option (Message T) × Option Error) =>
          x.bind (fun r => r.1)) (List.replicate ((wireBytes codec F).length - 1) none) = [] := by
        rw [List.filterMap_eq_nil_iff]
        intro x hx
        rw [List.mem_replicate] at hx
        rw [hx.2]; rfl
      unfold traceMessages at this ⊢
      rw [List.zipWith_cons_cons, List.flatten_cons, List.filterMap_append, this, frameTrace,
        List.filterMap_append, hq, List.nil_append]
      cases h1 : r.1 <;> simp [List.filterMap_cons, h1]

theorem mem_trace_frames {T : Type} (codec : Codec T) (frames : List (Message T))
    (results : List (Option (Message T) × Option Error))
    (r : Option (Message T) × Option Error)
    (h : some r ∈ (List.zipWith (fun F r => frameTrace (wireBytes codec F) r) frames
      results).flatten) : r ∈ results := by
  induction frames generalizing results with
  | nil => simp at h
  | cons F Fs ih =>
    cases results with
    | nil => simp at h
    | cons x xs =>
      simp only [List.zipWith_cons_cons, List.flatten_cons, List.mem_append, frameTrace,
        List.mem_replicate, List.mem_singleton, Option.some.injEq, reduceCtorEq, and_false,
        false_or] at h
      rcases h with h | h
      · exact List.mem_cons.mpr (Or.inl h)
      · exact List.mem_cons_of_mem _ (ih xs h)

/-- The parser and the stream on the concatenated bytes of a list of frames. -/
theorem frames_stream {T : Type} (codec : Codec T) (frames : List (Message T))
    (hF : ∀ F ∈ frames, IsFrame codec F) :
    ∃ results mb,
      List.Forall₂ (fun F r => F.ToBytes codec = some (some (wireBytes codec F), none) ∧
        MessageFromBytes codec (wireBytes codec F) = some r) frames results ∧
      MessageBuilder.feed codec NewMessageBuilder (frames.map (wireBytes codec)).flatten
        = some (mb,
            (List.zipWith (fun F r => frameTrace (wireBytes codec F) r) frames results).flatten) ∧
      (codec.Reversible →
        (∀ r ∈ results, ∃ msg, r = (some msg, none)) ∧
        ∀ bufferSize reads, reads.flatten = (frames.map (wireBytes codec)).flatten →
          ∃ s, MessageStream.process codec bufferSize reads = some s ∧
            s.streamChan = ((results.filterMap (fun r => r.1)).map asReceived).take bufferSize ∧
            (∀ msg ∈ s.streamChan, msg.status = MessageReceived) ∧
            s.err = some Error.ReadError ∧ s.returned = true) := by
  obtain ⟨results, data', pe', ds', hall, hf, _, hok⟩ :=
    feed_frames codec frames hF 0 0 (List.replicate 31 0) (by simp)
  rw [← NewMessageBuilder_eq] at hf
  refine ⟨results, _, hall, hf, fun hR => ⟨hok hR, ?_⟩⟩
  intro bufferSize reads hreads
  have hpb := processBuffer_of_feed codec bufferSize _ NewMessageBuilder _ _ [] none hf
    (fun r hr => hok hR r (mem_trace_frames codec frames results r hr)) (Nat.zero_le _)
  rw [traceMessages_frames codec frames results hall.length_eq, List.nil_append] at hpb
  unfold MessageStream.process
  rw [processReads_eq, hreads, hpb]
  refine ⟨_, rfl, ?_, ?_, ?_, ?_⟩
  · simp [MessageStream.finish]
  · intro msg hmsg
    simp only [MessageStream.finish, Bool.false_eq_true, if_false] at hmsg
    obtain ⟨m0, _, rfl⟩ := List.mem_map.mp (List.mem_of_mem_take hmsg)
    rfl
  · simp [MessageStream.finish]
  · simp [MessageStream.finish]

/-- The parser on a frame that follows bytes without a run of six sync bytes
and without a sync byte at their end. -/
theorem feed_prefix_frame {T : Type} (codec : Codec T) (P : List Nat) (F : Message T)
    (hP : ¬ List.replicate 6 22 <:+: P) (hend : P.getLast? ≠ some 22) (hF : IsFrame codec F) :
    ∃ r mb, MessageFromBytes codec (wireBytes codec F) = some r ∧
      MessageBuilder.feed codec NewMessageBuilder (P ++ wireBytes codec F)
        = some (mb, List.replicate (P.length + (wireBytes codec F).length - 1) none ++ [some r]) := by
  obtain ⟨⟨r, hr⟩, _⟩ := hF.decode
  have hq : quiet 0 P = true := quiet_of_not_infix P 0 (by decide) (by simpa using hP)
  obtain ⟨data1, hf1, _, hl1⟩ := feed_quiet (T := T) codec 0 0 P 0 (List.replicate 31 0)
    (by decide) (by simp) hq
  have hrun : runAfter 0 P = 0 := by
    rcases List.eq_nil_or_concat P with h | ⟨L, b, h⟩
    · rw [h]; rfl
    · rw [h, List.concat_eq_append] at hend ⊢
      rw [List.getLast?_append] at hend
      simp only [List.getLast?_singleton] at hend
      exact runAfter_concat_of_ne 0 L b (fun hb => hend (by rw [hb]; rfl))
  rw [hrun, ← NewMessageBuilder_eq] at hf1
  obtain ⟨data2, pe2, ds2, hf2, _⟩ := feed_frame codec 0 0 data1 (wireBytes codec F) r
    hF.wellFramed hr (by rw [hl1]; simp)
  have := feed_append codec _ _ _ _ _ _ _ hf1 hf2
  have hwl : 31 ≤ (wireBytes codec F).length := hF.wellFramed.1
  refine ⟨r, searching 0 data2 pe2 ds2, hr, ?_⟩
  rw [this, ← List.append_assoc, ← List.replicate_add]
  congr 4
  omega

/-- C6, as stated, fails for 1025 frames and the default channel buffer of
1024 messages when the consumer does not receive in the meantime: the channel
does not hold 1025 messages. -/
theorem stream_drops_beyond_buffer :
    ¬ ∃ s, MessageStream.process Codec.raw defaultChanBufferSize
        [((List.replicate 1025 exampleMessage).map (wireBytes Codec.raw)).flatten] = some s ∧
      s.streamChan.length = 1025 := by
  rintro ⟨s, hs, hlen⟩
  have hF : ∀ F ∈ List.replicate 1025 exampleMessage, IsFrame Codec.raw F := by
    intro F hF
    rw [(List.mem_replicate.mp hF).2]
    exact ⟨by decide, by decide, Or.inl rfl, trivial⟩
  obtain ⟨results, mb, _, _, hstream⟩ := frames_stream Codec.raw _ hF
  obtain ⟨s', hs', hchan, _⟩ := (hstream Codec.raw_reversible).2 defaultChanBufferSize
    [((List.replicate 1025 exampleMessage).map (wireBytes Codec.raw)).flatten]
    (by rw [List.flatten_cons, List.flatten_nil, List.append_nil])
  rw [hs] at hs'
  have hss : s = s' := Option.some.inj hs'
  rw [hss, hchan, List.length_take] at hlen
  have : defaultChanBufferSize = 1024 := rfl
  omega

/-- C6 (parser on well-formed input), amended by the channel buffer, the size
bound and the codec. For every list of frames (each without payload or with a
non-empty payload whose base64 text is shorter than 2^32 - 32 bytes), `ToBytes`
returns the bytes of each frame, and a fresh `MessageBuilder` fed their
concatenation byte by byte returns true exactly on the last byte of each frame,
where `Message` gives what `MessageFromBytes` gives on the bytes of that frame.
With a codec that unmarshals what it marshalled, every frame decodes without
error and the stream, whatever the chunks its reader returns, puts the decoded
messages in order and with status 200 into its channel until the channel's
buffer is full (all of them when there are at most `bufferSize`), and closes
with the reader's error. -/
theorem parser_on_well_formed_input {T : Type} (codec : Codec T) (frames : List (Message T))
    (hF : ∀ F ∈ frames, IsFrame codec F) :
    ∃ results mb,
      List.Forall₂ (fun F r => F.ToBytes codec = some (some (wireBytes codec F), none) ∧
        MessageFromBytes codec (wireBytes codec F) = some r) frames results ∧
      MessageBuilder.feed codec NewMessageBuilder (frames.map (wireBytes codec)).flatten
        = some (mb,
            (List.zipWith (fun F r => frameTrace (wireBytes codec F) r) frames results).flatten) ∧
      (codec.Reversible →
        (∀ r ∈ results, ∃ msg, r = (some msg, none)) ∧
        ∀ bufferSize reads, reads.flatten = (frames.map (wireBytes codec)).flatten →
          ∃ s, MessageStream.process codec bufferSize reads = some s ∧
            s.streamChan = ((results.filterMap (fun r => r.1)).map asReceived).take bufferSize ∧
            (∀ msg ∈ s.streamChan, msg.status = MessageReceived) ∧
            s.err = some Error.ReadError ∧ s.returned = true) :=
  frames_stream codec frames hF

theorem parser_on_well_formed_input_witness :
    ∃ results mb,
      List.Forall₂ (fun F r => F.ToBytes Codec.raw = some (some (wireBytes Codec.raw F), none) ∧
        MessageFromBytes Codec.raw (wireBytes Codec.raw F) = some r)
        [exampleMessage, examplePayloadMessage] results ∧
      MessageBuilder.feed Codec.raw NewMessageBuilder
          ([exampleMessage, examplePayloadMessage].map (wireBytes Codec.raw)).flatten
        = some (mb,
            (List.zipWith (fun F r => frameTrace (wireBytes Codec.raw F) r)
              [exampleMessage, examplePayloadMessage] results).flatten) ∧
      (Codec.raw.Reversible →
        (∀ r ∈ results, ∃ msg, r = (some msg, none)) ∧
        ∀ bufferSize reads,
          reads.flatten = ([exampleMessage, examplePayloadMessage].map
            (wireBytes Codec.raw)).flatten →
          ∃ s, MessageStream.process Codec.raw bufferSize reads = some s ∧
            s.streamChan = ((results.filterMap (fun r => r.1)).map asReceived).take bufferSize ∧
            (∀ msg ∈ s.streamChan, msg.status = MessageReceived) ∧
            s.err = some Error.ReadError ∧ s.returned = true) :=
  parser_on_well_formed_input Codec.raw [exampleMessage, examplePayloadMessage]
    (by
      intro F hF
      simp only [List.mem_cons, List.mem_singleton, List.not_mem_nil, or_false] at hF
      rcases hF with rfl | rfl
      · exact ⟨by decide, by decide, Or.inl rfl, trivial⟩
      · exact ⟨by decide, by decide, Or.inl rfl, [1, 2, 3, 4], rfl, by decide, by decide,
          by decide⟩)

/-- C7, as stated, fails for the prefix `[0x16]`: it contains no run of six
sync bytes, but the parser then takes the sixth sync byte of the frame for the
first header byte, the header checksum fails, and `WriteByte` returns true on
none of the 32 bytes. -/
theorem sync_resilience_fails_after_sync_byte :
    (¬ List.replicate 6 22 <:+: [22]) ∧
      (MessageBuilder.feed Codec.raw NewMessageBuilder
        ([22] ++ wireBytes Codec.raw exampleMessage)).map (fun x => x.2.map Option.isSome)
        = some (List.replicate 32 false) := by
  constructor
  · decide
  · decide

/-- C7 (sync resilience), amended: the prefix must also not end with a sync
byte, and the frame has no payload or a non-empty payload whose base64 text is
shorter than 2^32 - 32 bytes. For every byte sequence `P` without six
consecutive 0x16 bytes and whose last byte is not 0x16, and every such frame
`F`, a fresh `MessageBuilder` fed `P ∥ ToBytes(F)` byte by byte returns true
exactly once, on the last byte, and `Message` then gives what
`MessageFromBytes` gives on `ToBytes(F)`. -/
theorem sync_resilience {T : Type} (codec : Codec T) (P : List Nat) (F : Message T)
    (hP : ¬ List.replicate 6 22 <:+: P) (hend : P.getLast? ≠ some 22) (hF : IsFrame codec F) :
    ∃ r mb, F.ToBytes codec = some (some (wireBytes codec F), none) ∧
      MessageFromBytes codec (wireBytes codec F) = some r ∧
      MessageBuilder.feed codec NewMessageBuilder (P ++ wireBytes codec F)
        = some (mb, List.replicate (P.length + (wireBytes codec F).length - 1) none ++ [some r]) := by
  obtain ⟨r, mb, hr, hf⟩ := feed_prefix_frame codec P F hP hend hF
  refine ⟨r, mb, ?_, hr, hf⟩
  cases hD : F.Data with
  | none =>
    obtain ⟨h1, h2⟩ := hF.ToBytes_no_payload hD
    rw [h2]; exact h1
  | some d =>
    obtain ⟨p, _, _, _, _, _, h1, h2⟩ := hF.ToBytes_payload hD
    rw [h2]; exact h1

theorem sync_resilience_witness :
    ∃ r mb, examplePayloadMessage.ToBytes Codec.raw
        = some (some (wireBytes Codec.raw examplePayloadMessage), none) ∧
      MessageFromBytes Codec.raw (wireBytes Codec.raw examplePayloadMessage) = some r ∧
      MessageBuilder.feed Codec.raw NewMessageBuilder
          ([22, 22, 1, 22, 22, 22, 22, 22, 0] ++ wireBytes Codec.raw examplePayloadMessage)
        = some (mb, List.replicate ([22, 22, 1, 22, 22, 22, 22, 22, 0].length +
            (wireBytes Codec.raw examplePayloadMessage).length - 1) none ++ [some r]) :=
  sync_resilience Codec.raw [22, 22, 1, 22, 22, 22, 22, 22, 0] examplePayloadMessage
    (by decide) (by decide)
    ⟨by decide, by decide, Or.inl rfl, [1, 2, 3, 4], rfl, by decide, by decide, by decide⟩

/-! ## A frame that follows a truncated frame -/

theorem quiet_append_of {r : Nat} {a b : List Nat} (ha : quiet r a = true)
    (hb : quiet (runAfter r a) b = true) : quiet r (a ++ b) = true := by
  rw [quiet_append, ha, hb]; rfl

theorem timestampField_ne_sync {T : Type} (m : Message T) : ∀ c ∈ timestampField m, c ≠ 22 := by
  intro c hc
  rcases timestampField_mem m c hc with h | h | h
  · unfold IsDigit at h; omega
  · omega
  · omega

/-- After its first 11 bytes, the bytes of a frame contain no run of six sync
bytes that the parser could take for a preamble. -/
theorem quiet_frame_tail {T : Type} {codec : Codec T} {m : Message T} (hF : IsFrame codec m) :
    quiet 0 ((wireBytes codec m).drop 11) = true := by
  have hts := timestampField_ne_sync m
  have htl := timestampField_length m
  have hshape : ∀ (N : Nat) (rest : List Nat), (headerBytes m N ++ rest).drop 11
      = [m.id / 256 % 256, m.id % 256] ++ (timestampField m ++
          ((PutUint32 N ++ [getChecksum (headerFields m N)]) ++ rest)) := by
    intro N rest
    obtain ⟨a0, a1, a2, a3, a4, a5, a6, a7, a8, a9, a10, a11, a12, ht⟩ :=
      list_length_13 _ htl
    simp [headerBytes, headerFields, ht, PutUint16, PutUint32, messageSyncByteCount,
      messageSyncByte, List.replicate]
  have hne : timestampField m ≠ [] := by
    intro h; rw [h] at htl; simp at htl
  have key : ∀ (N : Nat) (rest : List Nat), (∀ r, r ≤ 5 → quiet r rest = true) →
      quiet 0 ((headerBytes m N ++ rest).drop 11) = true := by
    intro N rest hrest
    rw [hshape]
    obtain ⟨hA, _⟩ := quiet_of_short 0 [m.id / 256 % 256, m.id % 256] (by simp)
    refine quiet_append_of hA ?_
    obtain ⟨hT, hT0⟩ := quiet_of_no_sync (runAfter 0 [m.id / 256 % 256, m.id % 256])
      (timestampField m) hts
    refine quiet_append_of hT ?_
    rw [hT0 hne]
    obtain ⟨hB, hB5⟩ := quiet_of_short 0 (PutUint32 N ++ [getChecksum (headerFields m N)])
      (by simp [PutUint32])
    refine quiet_append_of hB ?_
    exact hrest _ (by simpa [PutUint32] using hB5)
  cases hD : m.Data with
  | none =>
    obtain ⟨_, hw⟩ := hF.ToBytes_no_payload hD
    rw [hw, ← List.append_nil (headerBytes m 0)]
    exact key 0 [] (fun _ _ => rfl)
  | some d =>
    obtain ⟨p, _, hne', _, hpos, _, _, hw⟩ := hF.ToBytes_payload hD
    rw [hw, List.append_assoc]
    apply key
    intro r _
    have he : ∀ x ∈ base64Encode p, x ≠ 22 := fun x hx => by
      have := base64Encode_range p x hx; omega
    obtain ⟨hE, hE0⟩ := quiet_of_no_sync r (base64Encode p) he
    refine quiet_append_of hE ?_
    rw [hE0 (by intro h; rw [h] at hpos; simp at hpos)]
    exact (quiet_of_short 0 [getChecksum (base64Encode p)] (by simp)).1

/-- The parser on the first 20 bytes of one buffer followed by a second
buffer: the first 11 bytes of the second buffer complete the header, and when
the checksum over the spliced header bytes fails the parser resets and the
rest of the second buffer is skipped. -/
theorem feed_truncated {T : Type} (codec : Codec T) (w1 w2 : List Nat)
    (hw1 : 31 ≤ w1.length) (hs1 : w1.take 6 = List.replicate 6 22) (hw2 : 11 ≤ w2.length)
    (hq : quiet 0 (w2.drop 11) = true)
    (hmis : getChecksum (slice w1 6 20 ++ w2.take 10) ≠ w2.getD 10 0) :
    ∃ mb, MessageBuilder.feed codec NewMessageBuilder (w1.take 20 ++ w2)
      = some (mb, List.replicate (20 + w2.length)
          (none : Option (Option (Message T) × Option Error))) := by
  -- the preamble and bytes 6..19 of the first buffer
  obtain ⟨data1, hf1, ht1, hl1⟩ := feed_preamble (T := T) codec 0 0 (List.replicate 31 0)
    (by simp)
  have hl1' : data1.length = 31 := by simpa using hl1
  have hA : (slice w1 6 20).length = 14 := slice_length w1 6 20 (by omega)
  obtain ⟨data2, hf2, ht2, hl2⟩ := feed_header_run (T := T) codec 0 0 (slice w1 6 20) 6 data1
    (by omega) (by omega)
  rw [hA] at hf2 ht2
  have hw1split : w1.take 20 = List.replicate 6 22 ++ slice w1 6 20 := by
    unfold slice
    rw [← hs1, show (20 : Nat) = 6 + 14 by rfl, List.take_add]
  -- the first 10 bytes of the second buffer
  have hB : (w2.take 10).length = 10 := by simp; omega
  obtain ⟨data3, hf3, ht3, hl3⟩ := feed_header_run (T := T) codec 0 0 (w2.take 10) 20 data2
    (by omega) (by omega)
  rw [hB] at hf3 ht3
  rw [show 6 + 14 = 20 by rfl] at hf2 ht2
  rw [show 20 + 10 = 30 by rfl] at hf3 ht3
  -- byte 10 of the second buffer lands on the header checksum
  have hstep := WriteByte_readingHeader_last data3 0 0 (w2.getD 10 0) (by omega)
  have hslice : slice (data3.set 30 (w2.getD 10 0)) 6 30 = slice w1 6 20 ++ w2.take 10 := by
    rw [← slice_take _ 30 6 30 (le_refl _), List.set_take,
      List.set_eq_of_length_le (by simp), ht3, ht2, ht1]
    unfold slice
    rw [List.append_assoc, List.drop_append_of_le_length (by simp)]
    simp only [List.length_replicate, List.drop_replicate, Nat.sub_self, List.replicate_zero,
      List.nil_append, Nat.reduceSub, Nat.sub_zero]
    rw [List.take_of_length_le (by simp [hB])]
  rw [hslice, if_pos hmis] at hstep
  -- the rest of the second buffer
  obtain ⟨data5, hf5, _, _⟩ := feed_quiet (T := T) codec 0 0 (w2.drop 11) 0
    (data3.set 30 (w2.getD 10 0)) (by decide) (by simp; omega) hq
  have hw2split : w2 = w2.take 10 ++ ([w2.getD 10 0] ++ w2.drop 11) := by
    have h1 : w2.take 11 = w2.take 10 ++ [w2.getD 10 0] := by
      rw [List.take_succ, List.getD_eq_getElem?_getD, List.getElem?_eq_getElem (by omega)]
      simp
    rw [← List.append_assoc, ← h1, List.take_append_drop]
  have h4 := feed_cons_false codec _ _ _ (w2.getD 10 0) _ _ hstep hf5
  have h34 := feed_append codec _ _ _ _ _ _ _ hf3 h4
  have h234 := feed_append codec _ _ _ _ _ _ _ hf2 h34
  have hall := feed_append codec _ _ _ _ _ _ _ hf1 h234
  rw [← NewMessageBuilder_eq] at hall
  refine ⟨searching (runAfter 0 (w2.drop 11)) data5 0 0, ?_⟩
  rw [hw1split, List.append_assoc]
  conv_lhs => rw [hw2split]
  rw [List.singleton_append, hall]
  simp only [← List.replicate_succ, ← List.replicate_add, List.length_drop]
  congr 3
  omega

/-- A message stream whose parser never returned true has an empty channel and
only the reader's error. -/
theorem process_of_quiet_feed {T : Type} (codec : Codec T) (bytes : List Nat)
    (mb : MessageBuilder)
    (hf : MessageBuilder.feed codec NewMessageBuilder bytes
      = some (mb, List.replicate bytes.length
          (none : Option (Option (Message T) × Option Error))))
    (bufferSize : Nat) (reads : List (List Nat)) (hreads : reads.flatten = bytes) :
    ∃ s, MessageStream.process codec bufferSize reads = some s ∧ s.streamChan = [] ∧
      s.err = some Error.ReadError ∧ s.returned = true := by
  have hpb := processBuffer_of_feed codec bufferSize _ NewMessageBuilder _ _ [] none hf
    (fun r hr => by
      rw [List.mem_replicate] at hr
      exact absurd hr.2 (by simp)) (Nat.zero_le _)
  have hnil : traceMessages (List.replicate bytes.length
      (none : Option (Option (Message T) × Option Error))) = [] := by
    unfold traceMessages
    rw [List.filterMap_eq_nil_iff]
    intro x hx
    rw [List.mem_replicate] at hx
    rw [hx.2]; rfl
  rw [hnil] at hpb
  unfold MessageStream.process
  rw [processReads_eq, hreads, hpb]
  exact ⟨_, rfl, by simp [MessageStream.finish], by simp [MessageStream.finish],
    by simp [MessageStream.finish]⟩

/-- C8, as stated, fails: fed the first 20 bytes of a frame without payload and
then all the bytes of a frame with payload `[1, 2, 3, 4]`, 60 bytes in all,
`WriteByte` returns true on none of them. The second frame is not emitted. -/
theorem truncated_frame_swallows_next_frame :
    (MessageBuilder.feed Codec.raw NewMessageBuilder
      ((wireBytes Codec.raw exampleMessage).take 20
        ++ wireBytes Codec.raw examplePayloadMessage)).map (fun x => x.2.map Option.isSome)
      = some (List.replicate 60 false) := by
  decide

/-- C8 (truncated frame), amended to what the parser does. For all frames `F1`
and `F2`, the parser fed the first 20 bytes of `ToBytes(F1)` and then all of
`ToBytes(F2)` takes the first 11 bytes of `F2` for bytes 20..30 of the header
it is reading; when the header checksum over the spliced bytes (bytes 6..19 of
`F1`, bytes 0..9 of `F2`) differs from byte 10 of `F2`, it resets silently and
`WriteByte` returns true on no byte: no frame is emitted, `F2` is lost with the
truncated `F1`, the channel of the stream stays empty and the only error is the
one of the reader at the end of the input. -/
theorem truncated_frame_recovery {T : Type} (codec : Codec T) (F1 F2 : Message T)
    (hF1 : IsFrame codec F1) (hF2 : IsFrame codec F2)
    (hmis : getChecksum (slice (wireBytes codec F1) 6 20 ++ (wireBytes codec F2).take 10)
      ≠ (wireBytes codec F2).getD 10 0) :
    (∃ mb, MessageBuilder.feed codec NewMessageBuilder
        ((wireBytes codec F1).take 20 ++ wireBytes codec F2)
      = some (mb, List.replicate (20 + (wireBytes codec F2).length)
          (none : Option (Option (Message T) × Option Error)))) ∧
    ∀ bufferSize reads,
      reads.flatten = (wireBytes codec F1).take 20 ++ wireBytes codec F2 →
      ∃ s, MessageStream.process codec bufferSize reads = some s ∧ s.streamChan = [] ∧
        s.err = some Error.ReadError ∧ s.returned = true := by
  have h1 := hF1.wellFramed
  have h2 := hF2.wellFramed
  obtain ⟨mb, hf⟩ := feed_truncated (T := T) codec (wireBytes codec F1) (wireBytes codec F2)
    h1.1 h1.2.1 (by have := h2.1; omega) (quiet_frame_tail hF2) hmis
  refine ⟨⟨mb, hf⟩, fun bufferSize reads hreads => ?_⟩
  have hlen : ((wireBytes codec F1).take 20 ++ wireBytes codec F2).length
      = 20 + (wireBytes codec F2).length := by
    have := h1.1
    simp; omega
  exact process_of_quiet_feed codec _ mb (by rw [hlen]; exact hf) bufferSize reads hreads

theorem truncated_frame_recovery_witness :
    (∃ mb, MessageBuilder.feed Codec.raw NewMessageBuilder
        ((wireBytes Codec.raw exampleMessage).take 20
          ++ wireBytes Codec.raw examplePayloadMessage)
      = some (mb, List.replicate (20 + (wireBytes Codec.raw examplePayloadMessage).length)
          (none : Option (Option (Message (List Nat)) × Option Error)))) ∧
    ∀ bufferSize reads,
      reads.flatten = (wireBytes Codec.raw exampleMessage).take 20
        ++ wireBytes Codec.raw examplePayloadMessage →
      ∃ s, MessageStream.process Codec.raw bufferSize reads = some s ∧ s.streamChan = [] ∧
        s.err = some Error.ReadError ∧ s.returned = true :=
  truncated_frame_recovery Codec.raw exampleMessage examplePayloadMessage
    ⟨by decide, by decide, Or.inl rfl, trivial⟩
    ⟨by decide, by decide, Or.inl rfl, [1, 2, 3, 4], rfl, by decide, by decide, by decide⟩
    (by decide)

/-- C9 (corrupt payload emission), evaluated where it fails: the stream reads
the frame of a message with payload `[1, 2, 3, 4]` in which bit 0 of byte 33, a
payload byte, is inverted, followed by a valid frame. `process` records
`ErrInvalidMessagePayload` and returns; its channel is empty: neither the
corrupt frame (for which it has stored status 201) nor the frame after it is
sent. -/
theorem corrupt_payload_is_not_emitted :
    (MessageStream.process Codec.raw defaultChanBufferSize
        [flipBit (wireBytes Codec.raw examplePayloadMessage) 33 0
          ++ wireBytes Codec.raw exampleMessage]).map
        (fun s => (s.streamChan.length, s.err, s.returned))
      = some (0, some Error.ErrInvalidMessagePayload, true) := by
  decide

/-! ## The shape of every buffer that ToBytes returns -/

/-- Go `ToBytes` for a payload whose `uint32` size `N` is positive: the header
for `N`, the first `N` bytes of the base64 text, and the checksum of the whole
base64 text. -/
theorem ToBytes_of_sized {T : Type} (codec : Codec T) (m : Message T) (d : T) (p : List Nat)
    (h : m.Data = some d) (hp : codec.marshal d = some p)
    (hpos : 0 < (base64Encode p).length % 4294967296)
    (hfit : (base64Encode p).length % 4294967296 + 32 < 4294967296) :
    m.ToBytes codec =
      some (some (headerBytes m ((base64Encode p).length % 4294967296)
        ++ (base64Encode p).take ((base64Encode p).length % 4294967296)
        ++ [getChecksum (base64Encode p)]), none) := by
  set e := base64Encode p with he
  set N := e.length % 4294967296 with hNdef
  have hNle : N ≤ e.length := Nat.mod_le _ _
  have hsize : (messageHeaderSize + N + 1) % 4294967296 = messageHeaderSize + N + 1 :=
    Nat.mod_eq_of_lt (by unfold messageHeaderSize; omega)
  have hidx : (messageHeaderSize + N) % 4294967296 = messageHeaderSize + N :=
    Nat.mod_eq_of_lt (by unfold messageHeaderSize; omega)
  have hcopy := copyPayload_eq N 0 (headerBytes m N) (List.replicate N 0) [0] e
    (by simp [headerBytes_length, messageHeaderSize]) (by simp) (by omega)
  have hrep : List.replicate (N + 1) 0 = List.replicate N 0 ++ [0] := by
    rw [List.replicate_succ']
  have hsl : slice e 0 N = e.take N := by simp [slice]
  rw [Nat.zero_add, Nat.add_zero, hsl] at hcopy
  unfold Message.ToBytes
  simp only [h, hp, ← he, ← hNdef, hsize, hidx]
  rw [if_neg (by omega), if_pos hpos]
  rw [show messageHeaderSize + N + 1 - messageHeaderSize = N + 1 by omega,
    show messageHeaderSize + N - messageHeaderSize = N by omega, hrep,
    ← List.append_assoc, hcopy]
  simp only []
  have hl : (headerBytes m N ++ e.take N).length = messageHeaderSize + N := by
    simp [headerBytes_length, messageHeaderSize]; omega
  rw [if_pos (by rw [List.length_append, hl]; simp)]
  congr 3
  rw [List.set_append_right _ _ (by omega), hl]
  simp

/-- The three shapes of a buffer that `ToBytes` returns: the header alone; the
header and a zero byte (payload present, `uint32` size 0); or the header, `N`
bytes of base64 text and the checksum of the whole base64 text. -/
theorem ToBytes_shape {T : Type} (codec : Codec T) (m : Message T) (b : List Nat)
    (h : m.ToBytes codec = some (some b, none)) :
    (m.Data = none ∧ b = headerBytes m 0) ∨
    (∃ d p, m.Data = some d ∧ codec.marshal d = some p ∧
      (base64Encode p).length % 4294967296 = 0 ∧ b = headerBytes m 0 ++ [0]) ∨
    (∃ d p, m.Data = some d ∧ codec.marshal d = some p ∧
      0 < (base64Encode p).length % 4294967296 ∧
      (base64Encode p).length % 4294967296 + 32 < 4294967296 ∧
      b = headerBytes m ((base64Encode p).length % 4294967296)
        ++ (base64Encode p).take ((base64Encode p).length % 4294967296)
        ++ [getChecksum (base64Encode p)]) := by
  cases hD : m.Data with
  | none =>
    rw [ToBytes_of_no_payload codec m hD] at h
    simp only [Option.some.injEq, Prod.mk.injEq, and_true] at h
    exact Or.inl ⟨rfl, h.symm⟩
  | some d =>
    right
    cases hp : codec.marshal d with
    | none => simp [Message.ToBytes, hD, hp] at h
    | some p =>
      by_cases hpos : 0 < (base64Encode p).length % 4294967296
      · by_cases hfit : (base64Encode p).length % 4294967296 + 32 < 4294967296
        · rw [ToBytes_of_sized codec m d p hD hp hpos hfit] at h
          simp only [Option.some.injEq, Prod.mk.injEq, and_true] at h
          exact Or.inr ⟨d, p, rfl, hp, hpos, hfit, h.symm⟩
        · exfalso
          have hlen4 : (base64Encode p).length % 4 = 0 := by
            rw [base64Encode_length]; omega
          have hlt : (base64Encode p).length % 4294967296 < 4294967296 := Nat.mod_lt _ (by decide)
          have hsz : (messageHeaderSize + (base64Encode p).length % 4294967296 + 1) % 4294967296
              < messageHeaderSize := by
            unfold messageHeaderSize; omega
          unfold Message.ToBytes at h
          simp only [hD, hp] at h
          rw [if_pos hsz] at h
          exact absurd h (by simp)
      · have hz : (base64Encode p).length % 4294967296 = 0 := by omega
        rw [ToBytes_of_size_zero codec m d p hD hp hz] at h
        simp only [Option.some.injEq, Prod.mk.injEq, and_true] at h
        exact Or.inl ⟨d, p, rfl, hp, hz, h.symm⟩

/-- The payload region and the byte after it in a buffer made of a header, a
region `r` and one more byte `c`. -/
theorem region_facts {T : Type} (m : Message T) (N : Nat) (r : List Nat) (c : Nat)
    (hr : r.length = N) :
    (headerBytes m N ++ r ++ [c]).length = 31 + N + 1 ∧
    slice (headerBytes m N ++ r ++ [c]) 31 (31 + N) = r ∧
    (headerBytes m N ++ r ++ [c]).getD (31 + N) 0 = c := by
  have hl := headerBytes_length m N
  refine ⟨by simp [hl, hr]; omega, ?_, ?_⟩
  · unfold slice
    rw [List.append_assoc, List.drop_append_of_le_length (by omega),
      List.drop_of_length_le (by omega), List.nil_append,
      show 31 + N - 31 = r.length by omega, List.take_left']
    rfl
  · rw [List.getD_eq_getElem?_getD, List.getElem?_append_right (by simp [hl, hr])]
    simp [hl, hr]

/-! ## The payload region (I5 and I3) -/

theorem base64Encode_zeros (k : Nat) :
    base64Encode (List.replicate (3 * k + 1) 0) = List.replicate (4 * k) 65 ++ [65, 65, 61, 61] := by
  induction k with
  | zero => rfl
  | succ k ih =>
    rw [show 3 * (k + 1) + 1 = (3 * k + 1) + 1 + 1 + 1 by ring,
      show 4 * (k + 1) = 4 * k + 1 + 1 + 1 + 1 by ring]
    simp only [List.replicate_succ, base64Encode, List.cons_append]
    rw [← List.replicate_succ, ih]
    simp [b64Char, List.replicate_succ]

theorem base64Encode_zeros_take (k : Nat) :
    (base64Encode (List.replicate (3 * (k + 1) + 1) 0)).take 4 = [65, 65, 65, 65] := by
  rw [base64Encode_zeros, show 4 * (k + 1) = 4 * k + 1 + 1 + 1 + 1 by ring]
  simp [List.replicate_succ]

theorem base64Encode_zeros_checksum (k : Nat) :
    getChecksum (base64Encode (List.replicate (3 * k + 1) 0)) = 255 - (260 * k + 252) % 256 := by
  rw [getChecksum_eq, base64Encode_zeros]
  simp only [List.sum_append, List.sum_replicate, smul_eq_mul, List.sum_cons, List.sum_nil]
  congr 2
  ring

/-- A payload whose base64 text has 2^32 + 4 bytes, abstractly: the size field
is 4, the region holds the first four bytes of the text, and the byte after it
is the checksum of the whole text. -/
theorem region_checksum_of_truncated (m : Message (List Nat)) (p : List Nat)
    (hD : m.Data = some p) (hN : (base64Encode p).length % 4294967296 = 4)
    (ht : (base64Encode p).take 4 = [65, 65, 65, 65]) (hc : getChecksum (base64Encode p) = 3) :
    ∃ b, m.ToBytes Codec.raw = some (some b, none) ∧ Uint32 (slice b 26 30) = 4 ∧
      slice b 31 (31 + 4) = [65, 65, 65, 65] ∧ b.getD (31 + 4) 0 = 3 := by
  have hto := ToBytes_of_sized Codec.raw m p p hD rfl (by omega) (by omega)
  rw [hN, ht, hc] at hto
  refine ⟨_, hto, ?_, ?_, ?_⟩
  · rw [List.append_assoc]
    exact (header_facts m 4 _).2.2.2.2.2.2.1
  · exact (region_facts m 4 [65, 65, 65, 65] 3 rfl).2.1
  · exact (region_facts m 4 [65, 65, 65, 65] 3 rfl).2.2

/-- C11, as stated, fails for a raw payload of 3 * 2^30 + 1 zero bytes: the
base64 text has 2^32 + 4 bytes, the size field N is 4, bytes 31..34 are the
first four bytes `AAAA` of the text, and byte 35 is 3, the checksum of the whole
text, whereas `((65 + 65 + 65 + 65) mod 256) xor 0xFF` is 251. -/
theorem payload_checksum_fails_beyond_4GiB :
    ∃ b,
      Message.ToBytes Codec.raw
        { id := 7, status := MessageSent, replyPort := 8001, fromNode := "", toNode := ":8002",
          sentOn := UnixMilli 1700000000123, receivedOn := Time.zero,
          Data := some (List.replicate 3221225473 0) }
        = some (some b, none) ∧
      Uint32 (slice b 26 30) = 4 ∧
      b.getD (31 + 4) 0 ≠ ((slice b 31 (31 + 4)).sum % 256) ^^^ 255 := by
  have h1 : (base64Encode (List.replicate 3221225473 0)).length % 4294967296 = 4 := by
    rw [base64Encode_length, List.length_replicate]
  have h2 := base64Encode_zeros_take 1073741823
  have h3 := base64Encode_zeros_checksum 1073741824
  rw [show 3 * (1073741823 + 1) + 1 = 3221225473 from rfl] at h2
  rw [show 3 * 1073741824 + 1 = 3221225473 from rfl,
    show 255 - (260 * 1073741824 + 252) % 256 = 3 from rfl] at h3
  obtain ⟨b, hb, hN, hr, hc⟩ := region_checksum_of_truncated
    ({ id := 7, status := MessageSent, replyPort := 8001, fromNode := "", toNode := ":8002",
       sentOn := UnixMilli 1700000000123, receivedOn := Time.zero,
       Data := some (List.replicate 3221225473 0) } : Message (List Nat))
    (List.replicate 3221225473 0) rfl h1 h2 h3
  refine ⟨b, hb, hN, ?_⟩
  rw [hr, hc]
  decide

/-- The payload region of a buffer `b` that `ToBytes` returns with a payload
size field `N` greater than 0: `b` has exactly `31 + N + 1` bytes, bytes
31..30+N are the first `N` bytes of the base64 text of the payload and byte 31+N
is the checksum of the whole base64 text; when the base64 text is shorter than
2^32 bytes, `N` is its length, bytes 31..30+N are the base64 text, and byte 31+N
is `((sum of those N bytes) mod 256) xor 0xFF`. -/
theorem ToBytes_region {T : Type} (codec : Codec T) (m : Message T) (b : List Nat)
    (h : m.ToBytes codec = some (some b, none)) (hN : 0 < Uint32 (slice b 26 30)) :
    b.length = 31 + Uint32 (slice b 26 30) + 1 ∧
    ∃ d p, m.Data = some d ∧ codec.marshal d = some p ∧
      slice b 31 (31 + Uint32 (slice b 26 30)) =
        (base64Encode p).take (Uint32 (slice b 26 30)) ∧
      b.getD (31 + Uint32 (slice b 26 30)) 0 = (((base64Encode p).sum % 256) ^^^ 255) ∧
      ((base64Encode p).length < 4294967296 →
        Uint32 (slice b 26 30) = (base64Encode p).length ∧
        slice b 31 (31 + Uint32 (slice b 26 30)) = base64Encode p ∧
        b.getD (31 + Uint32 (slice b 26 30)) 0 =
          (((slice b 31 (31 + Uint32 (slice b 26 30))).sum % 256) ^^^ 255)) := by
  rcases ToBytes_shape codec m b h with ⟨_, hb⟩ | ⟨d, p, _, _, _, hb⟩ | ⟨d, p, hD, hp, hpos, hfit, hb⟩
  · exfalso
    have := (header_facts m 0 []).2.2.2.2.2.2.1
    rw [List.append_nil, ← hb] at this
    omega
  · exfalso
    have := (header_facts m 0 [0]).2.2.2.2.2.2.1
    rw [← hb] at this
    omega
  · set e := base64Encode p with he
    set N := e.length % 4294967296 with hNdef
    have hsz : Uint32 (slice b 26 30) = N := by
      have := (header_facts m N (e.take N ++ [getChecksum e])).2.2.2.2.2.2.1
      rw [← List.append_assoc, ← hb] at this
      rw [this]
      exact Nat.mod_eq_of_lt (by omega)
    have hNle : N ≤ e.length := Nat.mod_le _ _
    have hrl : (e.take N).length = N := by simp; omega
    obtain ⟨f1, f2, f3⟩ := region_facts m N (e.take N) (getChecksum e) hrl
    rw [← hb] at f1 f2 f3
    rw [hsz]
    refine ⟨f1, d, p, hD, hp, f2, ?_, ?_⟩
    · rw [f3, getChecksum_formula]
    · intro hlt
      have hNe : N = e.length := Nat.mod_eq_of_lt hlt
      have htk : e.take N = e := by rw [hNe]; exact List.take_length _
      rw [htk] at f2
      refine ⟨hNe, f2, ?_⟩
      rw [f3, f2, getChecksum_formula]

/-- C11 (invariant I5), amended by the size bound. For every buffer `b` that
`ToBytes` returns whose payload size field `N` is greater than 0, `b` has
exactly `31 + N + 1` bytes and the message has a payload; when the base64 text
of the payload is shorter than 2^32 - 32 bytes, `N` is the length of that text,
bytes 31..30+N are the base64 text, and byte 31+N is `((sum of those N bytes)
mod 256) xor 0xFF`. -/
theorem payload_region_layout {T : Type} (codec : Codec T) (m : Message T) (b : List Nat)
    (h : m.ToBytes codec = some (some b, none)) (hN : 0 < Uint32 (slice b 26 30)) :
    b.length = 31 + Uint32 (slice b 26 30) + 1 ∧
    ∃ d p, m.Data = some d ∧ codec.marshal d = some p ∧
      ((base64Encode p).length + 32 < 4294967296 →
        Uint32 (slice b 26 30) = (base64Encode p).length ∧
        slice b 31 (31 + Uint32 (slice b 26 30)) = base64Encode p ∧
        b.getD (31 + Uint32 (slice b 26 30)) 0 =
          (((slice b 31 (31 + Uint32 (slice b 26 30))).sum % 256) ^^^ 255)) := by
  obtain ⟨hl, d, p, hD, hp, _, _, hr⟩ := ToBytes_region codec m b h hN
  exact ⟨hl, d, p, hD, hp, fun hfit => hr (by omega)⟩

theorem payload_region_layout_witness :
    examplePayloadWire.length = 31 + Uint32 (slice examplePayloadWire 26 30) + 1 ∧
    Uint32 (slice examplePayloadWire 26 30) = (base64Encode [1, 2, 3, 4]).length ∧
    slice examplePayloadWire 31 (31 + Uint32 (slice examplePayloadWire 26 30)) =
      base64Encode [1, 2, 3, 4] ∧
    examplePayloadWire.getD (31 + Uint32 (slice examplePayloadWire 26 30)) 0 =
      (((slice examplePayloadWire 31
        (31 + Uint32 (slice examplePayloadWire 26 30))).sum % 256) ^^^ 255) := by
  obtain ⟨hl, d, p, hD, hp, hr⟩ :=
    payload_region_layout Codec.raw examplePayloadMessage examplePayloadWire (by decide)
      (by decide)
  have hd : d = [1, 2, 3, 4] := by
    have h0 : examplePayloadMessage.Data = some [1, 2, 3, 4] := rfl
    rw [h0] at hD
    exact (Option.some.inj hD).symm
  subst hd
  have hp2 : p = [1, 2, 3, 4] := (Option.some.inj hp).symm
  subst hp2
  exact ⟨hl, hr (by decide)⟩

theorem base64Encode_alphabet (l : List Nat) :
    ∀ c ∈ base64Encode l, c = 61 ∨ ∃ v, v < 64 ∧ c = b64Char v := by
  induction l using base64Encode.induct with
  | case1 => simp [base64Encode]
  | case2 a =>
    intro c hc
    simp only [base64Encode, List.mem_cons, List.mem_singleton, List.not_mem_nil, or_false] at hc
    rcases hc with h | h | h | h
    · exact Or.inr ⟨_, Nat.mod_lt _ (by decide), h⟩
    · exact Or.inr ⟨_, Nat.mod_lt _ (by decide), h⟩
    · exact Or.inl h
    · exact Or.inl h
  | case3 a b =>
    intro c hc
    simp only [base64Encode, List.mem_cons, List.mem_singleton, List.not_mem_nil, or_false] at hc
    rcases hc with h | h | h | h
    · exact Or.inr ⟨_, Nat.mod_lt _ (by decide), h⟩
    · exact Or.inr ⟨_, Nat.mod_lt _ (by decide), h⟩
    · exact Or.inr ⟨_, Nat.mod_lt _ (by decide), h⟩
    · exact Or.inl h
  | case4 a b c rest ih =>
    intro x hx
    simp only [base64Encode, List.mem_cons] at hx
    rcases hx with h | h | h | h | h
    · exact Or.inr ⟨_, Nat.mod_lt _ (by decide), h⟩
    · exact Or.inr ⟨_, Nat.mod_lt _ (by decide), h⟩
    · exact Or.inr ⟨_, Nat.mod_lt _ (by decide), h⟩
    · exact Or.inr ⟨_, Nat.mod_lt _ (by decide), h⟩
    · exact ih x h

theorem base64Encode_ne_sync (l : List Nat) : ∀ c ∈ base64Encode l, c ≠ 22 := by
  intro c hc
  have := base64Encode_range l c hc
  omega

/-- The payload region of a buffer whose size field is 0 is empty. -/
theorem region_of_size_zero {T : Type} (m : Message T) (rest : List Nat) :
    slice (headerBytes m 0 ++ rest) 31
      (31 + Uint32 (slice (headerBytes m 0 ++ rest) 26 30)) = [] := by
  rw [(header_facts m 0 rest).2.2.2.2.2.2.1]
  simp [slice]

theorem region_empty_of_size_zero (m : Message (List Nat)) (p : List Nat)
    (hD : m.Data = some p) (hz : (base64Encode p).length % 4294967296 = 0) :
    ∃ b, m.ToBytes Codec.raw = some (some b, none) ∧
      slice b 31 (31 + Uint32 (slice b 26 30)) = [] :=
  ⟨_, ToBytes_of_size_zero Codec.raw m p p hD rfl hz, region_of_size_zero m [0]⟩

/-- C12, as stated, fails for a raw payload of 3 GiB (3 * 2^30 zero bytes): the
base64 text has 2^32 bytes, the size field N is 0 and the payload region, bytes
31..30+N, is empty. -/
theorem payload_region_fails_at_3GiB :
    ∃ b,
      Message.ToBytes Codec.raw
        { id := 7, status := MessageSent, replyPort := 8001, fromNode := "", toNode := ":8002",
          sentOn := UnixMilli 1700000000123, receivedOn := Time.zero,
          Data := some (List.replicate 3221225472 0) }
        = some (some b, none) ∧
      slice b 31 (31 + Uint32 (slice b 26 30)) ≠ base64Encode (List.replicate 3221225472 0) := by
  have h1 : (base64Encode (List.replicate 3221225472 0)).length = 4294967296 := by
    rw [base64Encode_length, List.length_replicate]
  obtain ⟨b, hb, hr⟩ := region_empty_of_size_zero
    ({ id := 7, status := MessageSent, replyPort := 8001, fromNode := "", toNode := ":8002",
       sentOn := UnixMilli 1700000000123, receivedOn := Time.zero,
       Data := some (List.replicate 3221225472 0) } : Message (List Nat))
    (List.replicate 3221225472 0) rfl (by rw [h1])
  refine ⟨b, hb, ?_⟩
  rw [hr]
  intro h
  rw [← h] at h1
  exact absurd h1 (by decide)

/-- C12 (invariant I3), amended by the size bound. For every message with a raw
byte payload `p` whose base64 text, with header and checksum byte, stays below
2^32 bytes, `ToBytes` returns a buffer whose size field `N` is the length of the
base64 text and whose payload region, bytes 31..30+N, is the base64 text of `p`:
every byte of it is a character of the standard alphabet or the padding `=`,
its length is `4 * ceil(len(p) / 3)`, and it decodes to `p`. Whatever the size
of the payload, no byte of the payload region of a returned buffer is 0x16. -/
theorem payload_region_is_base64 (m : Message (List Nat)) (p : List Nat)
    (hD : m.Data = some p) :
    ((base64Encode p).length + 32 < 4294967296 →
      ∃ b, m.ToBytes Codec.raw = some (some b, none) ∧
        Uint32 (slice b 26 30) = (base64Encode p).length ∧
        slice b 31 (31 + Uint32 (slice b 26 30)) = base64Encode p ∧
        (∀ c ∈ slice b 31 (31 + Uint32 (slice b 26 30)),
          c = 61 ∨ ∃ v, v < 64 ∧ c = b64Char v) ∧
        (slice b 31 (31 + Uint32 (slice b 26 30))).length = (p.length + 2) / 3 * 4 ∧
        ((∀ x ∈ p, x < 256) →
          base64Decode (slice b 31 (31 + Uint32 (slice b 26 30))) = some p)) ∧
    (∀ b, m.ToBytes Codec.raw = some (some b, none) →
      ∀ c ∈ slice b 31 (31 + Uint32 (slice b 26 30)), c ≠ 22) := by
  constructor
  · intro hfit
    by_cases hpos : 0 < (base64Encode p).length
    · have hmod : (base64Encode p).length % 4294967296 = (base64Encode p).length :=
        Nat.mod_eq_of_lt (by omega)
      have hto := ToBytes_of_payload Codec.raw m p p hD rfl hpos hfit
      have hsz := (header_facts m (base64Encode p).length
        (base64Encode p ++ [getChecksum (base64Encode p)])).2.2.2.2.2.2.1
      rw [← List.append_assoc, hmod] at hsz
      have hr := (region_facts m (base64Encode p).length (base64Encode p)
        (getChecksum (base64Encode p)) rfl).2.1
      refine ⟨_, hto, hsz, ?_, ?_, ?_, ?_⟩ <;> rw [hsz, hr]
      · exact base64Encode_alphabet p
      · exact base64Encode_length p
      · exact base64Decode_encode p
    · have he : base64Encode p = [] := List.eq_nil_of_length_eq_zero (by omega)
      have hp : p = [] := by
        have hl := base64Encode_length p
        rw [he] at hl
        simp only [List.length_nil] at hl
        exact List.eq_nil_of_length_eq_zero (by omega)
      subst hp
      have hr := region_of_size_zero m [0]
      refine ⟨_, ToBytes_of_empty_payload Codec.raw m [] hD rfl,
        (header_facts m 0 [0]).2.2.2.2.2.2.1, ?_, ?_, ?_, ?_⟩ <;> rw [hr]
      · rfl
      · intro c hc; exact absurd hc (List.not_mem_nil c)
      · rfl
      · intro _; rfl
  · intro b hb c hc
    rcases ToBytes_shape Codec.raw m b hb with ⟨_, hb⟩ | ⟨d, q, _, _, _, hb⟩ |
      ⟨d, q, hD2, hq, hpos, hfit, hb⟩
    · rw [hb, ← List.append_nil (headerBytes m 0), region_of_size_zero m []] at hc
      exact absurd hc (List.not_mem_nil c)
    · rw [hb, region_of_size_zero m [0]] at hc
      exact absurd hc (List.not_mem_nil c)
    · set e := base64Encode q with he
      set N := e.length % 4294967296 with hNdef
      have hNle : N ≤ e.length := Nat.mod_le _ _
      have hsz := (header_facts m N (e.take N ++ [getChecksum e])).2.2.2.2.2.2.1
      rw [← List.append_assoc, ← hb, Nat.mod_eq_of_lt (by omega)] at hsz
      have hr := (region_facts m N (e.take N) (getChecksum e) (by simp; omega)).2.1
      rw [← hb] at hr
      rw [hsz, hr] at hc
      exact base64Encode_ne_sync q c (List.mem_of_mem_take hc)

theorem payload_region_is_base64_witness :
    (∃ b, examplePayloadMessage.ToBytes Codec.raw = some (some b, none) ∧
        Uint32 (slice b 26 30) = (base64Encode [1, 2, 3, 4]).length ∧
        slice b 31 (31 + Uint32 (slice b 26 30)) = base64Encode [1, 2, 3, 4] ∧
        (∀ c ∈ slice b 31 (31 + Uint32 (slice b 26 30)),
          c = 61 ∨ ∃ v, v < 64 ∧ c = b64Char v) ∧
        (slice b 31 (31 + Uint32 (slice b 26 30))).length = ([1, 2, 3, 4].length + 2) / 3 * 4 ∧
        ((∀ x ∈ [1, 2, 3, 4], x < 256) →
          base64Decode (slice b 31 (31 + Uint32 (slice b 26 30))) = some [1, 2, 3, 4])) ∧
    (∀ b, examplePayloadMessage.ToBytes Codec.raw = some (some b, none) →
      ∀ c ∈ slice b 31 (31 + Uint32 (slice b 26 30)), c ≠ 22) :=
  ⟨(payload_region_is_base64 examplePayloadMessage [1, 2, 3, 4] rfl).1 (by decide),
    (payload_region_is_base64 examplePayloadMessage [1, 2, 3, 4] rfl).2⟩

/-! ## Runs of sync bytes inside a buffer (sync sufficiency) -/

theorem not_infix_of_quiet (r : Nat) (l : List Nat) (h : quiet r l = true) :
    ¬ (List.replicate 6 22 <:+: l) := by
  rintro ⟨pre, suf, rfl⟩
  rw [List.append_assoc, quiet_append] at h
  have h2 : quiet (runAfter r pre) (List.replicate 6 22 ++ suf) = false := by
    simp [quiet, List.replicate]
  rw [h2, Bool.and_false] at h
  exact Bool.noConfusion h

theorem infix_drop_of_slice (b : List Nat) (i k : Nat) (hk : k ≤ i) :
    slice b i (i + 6) <:+: b.drop k := by
  unfold slice
  have h1 : b.drop i = (b.drop k).drop (i - k) := by
    rw [List.drop_drop]; congr 1; omega
  rw [h1]
  have hp : ((b.drop k).drop (i - k)).take (i + 6 - i) <+: (b.drop k).drop (i - k) :=
    List.take_prefix _ _
  have hs : (b.drop k).drop (i - k) <:+ b.drop k := List.drop_suffix _ _
  exact hp.isInfix.trans hs.isInfix

/-- From any run length, the header from the timestamp on, followed by a tail
that completes no run, completes no run of six sync bytes. -/
theorem quiet_from_timestamp {T : Type} (m : Message T) (N r : Nat) (rest : List Nat)
    (hrest : ∀ r, r ≤ 5 → quiet r rest = true) :
    quiet r (timestampField m ++ ((PutUint32 N ++ [getChecksum (headerFields m N)]) ++ rest))
      = true := by
  have hne : timestampField m ≠ [] := by
    intro h
    have := timestampField_length m
    rw [h] at this; simp at this
  obtain ⟨hT, hT0⟩ := quiet_of_no_sync r (timestampField m) (timestampField_ne_sync m)
  refine quiet_append_of hT ?_
  rw [hT0 hne]
  obtain ⟨hB, hB5⟩ := quiet_of_short 0 (PutUint32 N ++ [getChecksum (headerFields m N)])
    (by simp [PutUint32])
  refine quiet_append_of hB ?_
  exact hrest _ (by simpa [PutUint32] using hB5)

theorem headerBytes_split {T : Type} (m : Message T) (N : Nat) (rest : List Nat) :
    headerBytes m N ++ rest = [22, 22, 22, 22, 22, 22, m.replyPort / 256 % 256,
      m.replyPort % 256, m.status % 256, m.id / 16777216 % 256, m.id / 65536 % 256,
      m.id / 256 % 256, m.id % 256] ++
      (timestampField m ++ ((PutUint32 N ++ [getChecksum (headerFields m N)]) ++ rest)) := by
  obtain ⟨a0, a1, a2, a3, a4, a5, a6, a7, a8, a9, a10, a11, a12, ht⟩ :=
    list_length_13 _ (timestampField_length m)
  simp [headerBytes, headerFields, ht, PutUint16, PutUint32, messageSyncByteCount,
    messageSyncByte, List.replicate]

/-- The runs of six sync bytes in a header followed by a tail that completes no
run: none from offset 8 on; none from offset 3 on when the status byte is not
0x16; none from offset 1 on when, moreover, the high byte of the reply port is
not 0x16. -/
theorem quiet_header {T : Type} (m : Message T) (N : Nat) (rest : List Nat)
    (hrest : ∀ r, r ≤ 5 → quiet r rest = true) :
    quiet 0 ((headerBytes m N ++ rest).drop 8) = true ∧
    (m.status % 256 ≠ 22 → quiet 0 ((headerBytes m N ++ rest).drop 3) = true) ∧
    (m.status % 256 ≠ 22 → m.replyPort / 256 % 256 ≠ 22 →
      quiet 0 ((headerBytes m N ++ rest).drop 1) = true) := by
  have hX := fun r => quiet_from_timestamp m N r rest hrest
  rw [headerBytes_split]
  refine ⟨?_, ?_, ?_⟩
  · show quiet 0 ([m.status % 256, m.id / 16777216 % 256, m.id / 65536 % 256,
      m.id / 256 % 256, m.id % 256] ++ _) = true
    exact quiet_append_of (quiet_of_short 0 _ (by simp)).1 (hX _)
  · intro hs
    show quiet 0 ([22, 22, 22, m.replyPort / 256 % 256, m.replyPort % 256] ++
      ([m.status % 256] ++ ([m.id / 16777216 % 256, m.id / 65536 % 256,
      m.id / 256 % 256, m.id % 256] ++ _))) = true
    refine quiet_append_of (quiet_of_short 0 _ (by simp)).1 ?_
    obtain ⟨h1, h2⟩ := quiet_of_no_sync
      (runAfter 0 [22, 22, 22, m.replyPort / 256 % 256, m.replyPort % 256]) [m.status % 256]
      (by simpa using hs)
    refine quiet_append_of h1 ?_
    rw [h2 (by simp)]
    exact quiet_append_of (quiet_of_short 0 _ (by simp)).1 (hX _)
  · intro hs hp
    show quiet 0 ([22, 22, 22, 22, 22] ++ ([m.replyPort / 256 % 256] ++
      ([m.replyPort % 256] ++ ([m.status % 256] ++ ([m.id / 16777216 % 256,
      m.id / 65536 % 256, m.id / 256 % 256, m.id % 256] ++ _))))) = true
    refine quiet_append_of (quiet_of_short 0 _ (by simp)).1 ?_
    obtain ⟨h1, h2⟩ := quiet_of_no_sync (runAfter 0 [22, 22, 22, 22, 22])
      [m.replyPort / 256 % 256] (by simpa using hp)
    refine quiet_append_of h1 ?_
    rw [h2 (by simp)]
    refine quiet_append_of (quiet_of_short 0 _ (by simp)).1 ?_
    obtain ⟨h3, h4⟩ := quiet_of_no_sync (runAfter 0 [m.replyPort % 256]) [m.status % 256]
      (by simpa using hs)
    refine quiet_append_of h3 ?_
    rw [h4 (by simp)]
    exact quiet_append_of (quiet_of_short 0 _ (by simp)).1 (hX _)

/-- Every buffer that `ToBytes` returns is a header followed by a tail that
completes no run of six sync bytes. -/
theorem ToBytes_header_tail {T : Type} (codec : Codec T) (m : Message T) (b : List Nat)
    (h : m.ToBytes codec = some (some b, none)) :
    ∃ N rest, b = headerBytes m N ++ rest ∧ ∀ r, r ≤ 5 → quiet r rest = true := by
  rcases ToBytes_shape codec m b h with ⟨_, hb⟩ | ⟨d, p, _, _, _, hb⟩ |
    ⟨d, p, hD, hp, hpos, hfit, hb⟩
  · exact ⟨0, [], by rw [hb, List.append_nil], fun _ _ => rfl⟩
  · exact ⟨0, [0], hb, fun r _ => by simp [quiet]⟩
  · refine ⟨_, _, by rw [hb, List.append_assoc], fun r _ => ?_⟩
    have hne : (base64Encode p).take ((base64Encode p).length % 4294967296) ≠ [] := by
      intro h0
      have := congrArg List.length h0
      simp only [List.length_take, List.length_nil] at this
      have := Nat.mod_le (base64Encode p).length 4294967296
      omega
    obtain ⟨hE, hE0⟩ := quiet_of_no_sync r
      ((base64Encode p).take ((base64Encode p).length % 4294967296))
      (fun x hx => base64Encode_ne_sync p x (List.mem_of_mem_take hx))
    refine quiet_append_of hE ?_
    rw [hE0 hne]
    exact (quiet_of_short 0 [getChecksum (base64Encode p)] (by simp)).1

/-- C13, as stated, fails for a message whose reply port is 5632 (0x1600): the
byte at offset 6 is 0x16 as well, so a run of six 0x16 bytes starts at offset
1. -/
theorem sync_run_at_offset_one :
    ∃ b, Message.ToBytes Codec.raw { exampleMessage with replyPort := 5632 }
        = some (some b, none) ∧
      slice b 1 (1 + 6) = List.replicate 6 22 :=
  ⟨[22, 22, 22, 22, 22, 22, 22, 0, 100, 0, 0, 0, 7, 49, 55, 48, 48, 48, 48, 48, 48, 48, 48, 49,
      50, 51, 0, 0, 0, 0, 0], by decide, by decide⟩

/-- C13 (sync sufficiency), amended. In every buffer `b` that `ToBytes`
returns, bytes 0..5 are six 0x16 bytes, and no run of six consecutive 0x16
bytes starts at offset 8 or later: not in the timestamp, the payload size, the
payload or the checksum bytes. When the status byte is not 0x16 (as for the
statuses 100, 200 and 201), no run starts at offset 3 or later; when, moreover,
the high byte of the reply port is not 0x16, a run starts at offset 0 only. -/
theorem sync_sufficiency {T : Type} (codec : Codec T) (m : Message T) (b : List Nat)
    (h : m.ToBytes codec = some (some b, none)) :
    slice b 0 (0 + 6) = List.replicate 6 22 ∧
    (∀ i, 8 ≤ i → slice b i (i + 6) ≠ List.replicate 6 22) ∧
    (m.status % 256 ≠ 22 → ∀ i, 3 ≤ i → slice b i (i + 6) ≠ List.replicate 6 22) ∧
    (m.status % 256 ≠ 22 → m.replyPort / 256 % 256 ≠ 22 →
      ∀ i, 1 ≤ i → slice b i (i + 6) ≠ List.replicate 6 22) := by
  obtain ⟨N, rest, hb, hrest⟩ := ToBytes_header_tail codec m b h
  obtain ⟨q8, q3, q1⟩ := quiet_header m N rest hrest
  rw [← hb] at q8 q3 q1
  have key : ∀ k, quiet 0 (b.drop k) = true → ∀ i, k ≤ i →
      slice b i (i + 6) ≠ List.replicate 6 22 := by
    intro k hq i hi heq
    have := infix_drop_of_slice b i k hi
    rw [heq] at this
    exact not_infix_of_quiet 0 _ hq this
  refine ⟨?_, key 8 q8, fun hs => key 3 (q3 hs), fun hs hp => key 1 (q1 hs hp)⟩
  rw [hb, headerBytes_split]
  rfl

theorem sync_sufficiency_witness :
    slice examplePayloadWire 0 (0 + 6) = List.replicate 6 22 ∧
    (∀ i, 8 ≤ i → slice examplePayloadWire i (i + 6) ≠ List.replicate 6 22) ∧
    (examplePayloadMessage.status % 256 ≠ 22 →
      ∀ i, 3 ≤ i → slice examplePayloadWire i (i + 6) ≠ List.replicate 6 22) ∧
    (examplePayloadMessage.status % 256 ≠ 22 →
      examplePayloadMessage.replyPort / 256 % 256 ≠ 22 →
      ∀ i, 1 ≤ i → slice examplePayloadWire i (i + 6) ≠ List.replicate 6 22) :=
  sync_sufficiency Codec.raw examplePayloadMessage examplePayloadWire (by decide)

/-! ## The timestamp field -/

theorem sprintf013d_in_range (x : Int) (h0 : 0 ≤ x) (h1 : x < 10 ^ 13) :
    (∀ c ∈ (sprintf013d x).take 13, IsDigit c) ∧
      ParseInt ((sprintf013d x).take 13) = some x := by
  obtain ⟨htake, hparse⟩ := ParseInt_sprintf013d x h0 h1
  rw [htake]
  refine ⟨?_, hparse⟩
  rw [sprintf013d_of_nonneg x h0]
  exact padded_digit _ _

theorem sprintf013d_head_of_neg (x : Int) (h : x < 0) :
    ((sprintf013d x).take 13).head? = some 45 := by
  rw [sprintf013d_of_neg x h]
  rfl

/-- C14, as stated, fails for a message whose status is none of 100, 200 and
201, here 101: `ToBytes` writes no timestamp and bytes 13..25 stay zero bytes,
which are not ASCII digits. -/
theorem timestamp_field_unset_for_status_101 :
    ∃ b,
      Message.ToBytes Codec.raw
        { id := 7, status := 101, replyPort := 8001, fromNode := "", toNode := ":8002",
          sentOn := Time.zero, receivedOn := UnixMilli 1700000000123, Data := none }
        = some (some b, none) ∧
      slice b 13 26 = List.replicate 13 0 ∧ ¬ (∀ c ∈ slice b 13 26, IsDigit c) := by
  refine ⟨[22, 22, 22, 22, 22, 22, 31, 65, 101, 0, 0, 0, 7, 0, 0, 0, 0, 0, 0, 0, 0, 0, 0, 0,
      0, 0, 0, 0, 0, 0, 51], by decide, by decide, ?_⟩
  intro h
  have h0 := h 0 (by decide)
  unfold IsDigit at h0
  omega

/-- C14 (timestamp field), amended. In every buffer `b` that `ToBytes` returns,
bytes 13..25 are 13 bytes. For status 100 they are the ASCII decimal digits,
zero-padded, of the Unix-millisecond `sentOn` time when that time is in
`[0, 10^13)`, and for status 200 or 201 those of the `receivedOn` time under the
same condition; for a negative time the field starts with a minus sign; for
every other status the field is 13 zero bytes. -/
theorem timestamp_field {T : Type} (codec : Codec T) (m : Message T) (b : List Nat)
    (h : m.ToBytes codec = some (some b, none)) :
    (slice b 13 26).length = 13 ∧
    (m.status % 256 = 100 →
      (0 ≤ m.sentOn.UnixMilli → m.sentOn.UnixMilli < 10 ^ 13 →
        (∀ c ∈ slice b 13 26, IsDigit c) ∧
          ParseInt (slice b 13 26) = some m.sentOn.UnixMilli) ∧
      (m.sentOn.UnixMilli < 0 → (slice b 13 26).head? = some 45)) ∧
    (m.status % 256 = 200 ∨ m.status % 256 = 201 →
      (0 ≤ m.receivedOn.UnixMilli → m.receivedOn.UnixMilli < 10 ^ 13 →
        (∀ c ∈ slice b 13 26, IsDigit c) ∧
          ParseInt (slice b 13 26) = some m.receivedOn.UnixMilli) ∧
      (m.receivedOn.UnixMilli < 0 → (slice b 13 26).head? = some 45)) ∧
    (m.status % 256 ≠ 100 → m.status % 256 ≠ 200 → m.status % 256 ≠ 201 →
      slice b 13 26 = List.replicate 13 0) := by
  obtain ⟨N, rest, hb, _⟩ := ToBytes_header_tail codec m b h
  have hts : slice b 13 26 = timestampField m := by
    rw [hb]; exact (header_facts m N rest).2.2.2.2.2.1
  rw [hts]
  refine ⟨timestampField_length m, ?_, ?_, ?_⟩
  · intro hs
    have hf : timestampField m = (sprintf013d m.sentOn.UnixMilli).take 13 := by
      unfold timestampField MessageSent
      rw [if_pos hs]
    rw [hf]
    exact ⟨sprintf013d_in_range _, sprintf013d_head_of_neg _⟩
  · intro hs
    have hf : timestampField m = (sprintf013d m.receivedOn.UnixMilli).take 13 := by
      unfold timestampField MessageSent MessageReceived PayloadNotReceived
      rw [if_neg (by omega), if_pos hs]
    rw [hf]
    exact ⟨sprintf013d_in_range _, sprintf013d_head_of_neg _⟩
  · intro h1 h2 h3
    unfold timestampField MessageSent MessageReceived PayloadNotReceived
    rw [if_neg h1, if_neg (by omega)]

theorem timestamp_field_witness :
    (slice examplePayloadWire 13 26).length = 13 ∧
    (examplePayloadMessage.status % 256 = 100 →
      (0 ≤ examplePayloadMessage.sentOn.UnixMilli →
        examplePayloadMessage.sentOn.UnixMilli < 10 ^ 13 →
        (∀ c ∈ slice examplePayloadWire 13 26, IsDigit c) ∧
          ParseInt (slice examplePayloadWire 13 26) =
            some examplePayloadMessage.sentOn.UnixMilli) ∧
      (examplePayloadMessage.sentOn.UnixMilli < 0 →
        (slice examplePayloadWire 13 26).head? = some 45)) ∧
    (examplePayloadMessage.status % 256 = 200 ∨ examplePayloadMessage.status % 256 = 201 →
      (0 ≤ examplePayloadMessage.receivedOn.UnixMilli →
        examplePayloadMessage.receivedOn.UnixMilli < 10 ^ 13 →
        (∀ c ∈ slice examplePayloadWire 13 26, IsDigit c) ∧
          ParseInt (slice examplePayloadWire 13 26) =
            some examplePayloadMessage.receivedOn.UnixMilli) ∧
      (examplePayloadMessage.receivedOn.UnixMilli < 0 →
        (slice examplePayloadWire 13 26).head? = some 45)) ∧
    (examplePayloadMessage.status % 256 ≠ 100 → examplePayloadMessage.status % 256 ≠ 200 →
      examplePayloadMessage.status % 256 ≠ 201 →
      slice examplePayloadWire 13 26 = List.replicate 13 0) :=
  timestamp_field Codec.raw examplePayloadMessage examplePayloadWire (by decide)

/-! ## The decoder on buffers that no encoder produced -/

/-- C15: the decoder on a 31-byte buffer with a valid preamble, a valid header
checksum, the timestamp `0000000000000` and the payload size field
`FF FF FF FF` (N = 2^32 - 1). The length 31 is not `31 + N + 1`, but the
`uint32` sum `31 + N + 1` wraps to 31, the length check passes, and
`bytes[31:30]` is a run-time panic: no `ErrInvalidMessagePayload` is returned. -/
theorem length_check_wraps_at_max_size :
    Uint32 (slice [22, 22, 22, 22, 22, 22, 0, 0, 100, 0, 0, 0, 0, 48, 48, 48, 48, 48, 48, 48,
      48, 48, 48, 48, 48, 48, 255, 255, 255, 255, 47] 26 30) = 4294967295 ∧
    MessageFromBytes Codec.raw [22, 22, 22, 22, 22, 22, 0, 0, 100, 0, 0, 0, 0, 48, 48, 48, 48,
      48, 48, 48, 48, 48, 48, 48, 48, 48, 255, 255, 255, 255, 47] = none :=
  ⟨by decide, rfl⟩

/-- C16: the decoder on a 31-byte buffer with a valid preamble and a valid
header checksum whose timestamp bytes are zero bytes (what `ToBytes` writes for a
status other than 100, 200 and 201): the error of `strconv.ParseInt` is returned
as it is, which is neither `ErrInvalidMessageFormat` nor
`ErrInvalidMessagePayload`. -/
theorem decoder_returns_parse_error :
    Message.ToBytes Codec.raw
      { id := 7, status := 101, replyPort := 8001, fromNode := "", toNode := ":8002",
        sentOn := Time.zero, receivedOn := UnixMilli 1700000000123, Data := none }
      = some (some [22, 22, 22, 22, 22, 22, 31, 65, 101, 0, 0, 0, 7, 0, 0, 0, 0, 0, 0, 0, 0, 0,
        0, 0, 0, 0, 0, 0, 0, 0, 51], none) ∧
    MessageFromBytes Codec.raw [22, 22, 22, 22, 22, 22, 31, 65, 101, 0, 0, 0, 7, 0, 0, 0, 0, 0,
      0, 0, 0, 0, 0, 0, 0, 0, 0, 0, 0, 0, 51] = some (none, some Error.NumError) :=
  ⟨by decide, rfl⟩

/-! ## Package transport: the type of an address, its host and its port -/

theorem GetTypeFromAddress_eq_cascade (lib : AddressLib) (a : List Char) :
    GetTypeFromAddress lib a = addressRuleCascade lib a := by
  unfold GetTypeFromAddress addressRuleCascade firstRule firstRule firstRule firstRule firstRule
    firstRule
  simp only []
  by_cases h1 : lib.TrimSpace a = []
  · simp [h1]
  · by_cases h2 : (lib.TrimSpace a = "localhost".toList ||
        HasPrefix (lib.TrimSpace a) "localhost:".toList) = true
    · simp only [h1, if_false, decide_False, Bool.false_eq_true]
      rw [if_pos h2]
      simp only [Bool.or_eq_true, decide_eq_true_eq] at h2 ⊢
      rw [if_pos h2]
    · simp only [h1, if_false, decide_False, Bool.false_eq_true]
      rw [if_neg h2]
      simp only [Bool.or_eq_true, decide_eq_true_eq] at h2 ⊢
      rw [if_neg h2]
      rfl

/-- The possible results of `GetTypeFromAddress`. -/
theorem GetTypeFromAddress_cases (lib : AddressLib) (a : List Char) :
    GetTypeFromAddress lib a = (TransportType.NotSet, some AddressError.ErrAddressEmpty) ∨
    GetTypeFromAddress lib a = (TransportType.TCP, none) ∨
    GetTypeFromAddress lib a = (TransportType.RFCOMM, none) ∨
    GetTypeFromAddress lib a =
      (TransportType.NotSet, some AddressError.ErrAddressFormatUnknown) := by
  unfold GetTypeFromAddress
  simp only []
  split_ifs <;> simp

/-- C17 (address classification). `GetTypeFromAddress` is the ordered rule
cascade on the whitespace-trimmed input: empty gives (NotSet, ErrAddressEmpty);
`localhost` or a string starting with `localhost:` gives TCP; a bare IP address
gives TCP; then, after `0.0.0.0` is put in front of a string that starts with a
colon, a valid IP:port gives TCP and a valid MAC address gives RFCOMM; anything
else gives (NotSet, ErrAddressFormatUnknown). The type is never UDP, and the
error is nil exactly when the type is not NotSet. -/
theorem address_classification (lib : AddressLib) (a : List Char) :
    GetTypeFromAddress lib a = addressRuleCascade lib a ∧
    (GetTypeFromAddress lib a).1 ≠ TransportType.UDP ∧
    ((GetTypeFromAddress lib a).2 = none ↔
      (GetTypeFromAddress lib a).1 ≠ TransportType.NotSet) := by
  refine ⟨GetTypeFromAddress_eq_cascade lib a, ?_, ?_⟩
  · rcases GetTypeFromAddress_cases lib a with h | h | h | h <;> rw [h] <;> decide
  · rcases GetTypeFromAddress_cases lib a with h | h | h | h <;> rw [h] <;> decide

/-! ## Host and port of a TCP address -/

theorem Split_ne_nil (s : List Char) (c : Char) : Split s c ≠ [] := by
  cases s with
  | nil => simp [Split]
  | cons x xs =>
    unfold Split
    split_ifs
    · simp
    · split <;> simp

theorem Split_of_not_mem (s : List Char) (c : Char) (h : c ∉ s) : Split s c = [s] := by
  induction s with
  | nil => rfl
  | cons x xs ih =>
    have hx : x ≠ c := fun e => h (by simp [e])
    have hxs : c ∉ xs := fun e => h (List.mem_cons_of_mem _ e)
    unfold Split
    rw [if_neg hx, ih hxs]

theorem Split_append_sep (pre suf : List Char) (c : Char) (h : c ∉ pre) :
    Split (pre ++ c :: suf) c = pre :: Split suf c := by
  induction pre with
  | nil =>
    simp only [List.nil_append]
    rw [Split, if_pos rfl]
  | cons x xs ih =>
    have hx : x ≠ c := fun e => h (by simp [e])
    have hxs : c ∉ xs := fun e => h (List.mem_cons_of_mem _ e)
    simp only [List.cons_append]
    rw [Split, if_neg hx, ih hxs]

theorem Split_length_one (s : List Char) (c : Char) (h : (Split s c).length = 1) : c ∉ s := by
  induction s with
  | nil => simp
  | cons x xs ih =>
    unfold Split at h
    by_cases hx : x = c
    · rw [if_pos hx] at h
      simp only [List.length_cons, add_left_eq_self, List.length_eq_zero] at h
      exact absurd h (Split_ne_nil xs c)
    · rw [if_neg hx] at h
      cases hS : Split xs c with
      | nil => exact absurd hS (Split_ne_nil xs c)
      | cons p ps =>
        rw [hS] at h
        simp only [List.length_cons] at h
        have := ih (by rw [hS]; simpa using h)
        simp only [List.mem_cons, not_or]
        exact ⟨fun e => hx e.symm, this⟩

theorem Split_length_two (s : List Char) (c : Char) (h : (Split s c).length = 2) :
    ∃ pre suf, s = pre ++ c :: suf ∧ c ∉ pre ∧ c ∉ suf := by
  induction s with
  | nil => simp [Split] at h
  | cons x xs ih =>
    unfold Split at h
    by_cases hx : x = c
    · rw [if_pos hx] at h
      simp only [List.length_cons, Nat.reduceEqDiff] at h
      exact ⟨[], xs, by simp [hx], by simp, Split_length_one xs c h⟩
    · rw [if_neg hx] at h
      cases hS : Split xs c with
      | nil => exact absurd hS (Split_ne_nil xs c)
      | cons p ps =>
        rw [hS] at h
        simp only [List.length_cons] at h
        obtain ⟨pre, suf, he, h1, h2⟩ := ih (by rw [hS]; simpa using h)
        refine ⟨x :: pre, suf, by simp [he], ?_, h2⟩
        simp only [List.mem_cons, not_or]
        exact ⟨fun e => hx e.symm, h1⟩

theorem parseUintDigits_eq (s : List Char) (acc v : Nat) :
    parseUintDigits s acc = some v ↔
      (∀ c ∈ s, 48 ≤ c.toNat ∧ c.toNat ≤ 57) ∧
        s.foldl (fun acc c => acc * 10 + (c.toNat - 48)) acc = v := by
  induction s generalizing acc with
  | nil => simp [parseUintDigits]
  | cons x xs ih =>
    unfold parseUintDigits
    by_cases hx : 48 ≤ x.toNat ∧ x.toNat ≤ 57
    · rw [if_pos hx, ih]
      simp [hx]
    · rw [if_neg hx]
      constructor
      · intro h; exact Option.noConfusion h
      · intro h; exact absurd (h.1 x (List.mem_cons_self _ _)) hx

/-- Go `strconv.ParseUint(s, 10, 16)` succeeds with `p` exactly when `s` is a
non-empty string of decimal digits whose value is `p`, at most 65535. -/
theorem ParseUint_16 (s : List Char) (p : Nat) :
    ParseUint s 16 = some p ↔
      s ≠ [] ∧ (∀ c ∈ s, 48 ≤ c.toNat ∧ c.toNat ≤ 57) ∧ decimalValue s = p ∧ p ≤ 65535 := by
  unfold ParseUint decimalValue
  by_cases hs : s = []
  · simp [hs]
  · rw [if_neg hs]
    cases hd : parseUintDigits s 0 with
    | none =>
      constructor
      · intro h; exact Option.noConfusion h
      · rintro ⟨_, h1, h2, _⟩
        have := (parseUintDigits_eq s 0 p).2 ⟨h1, h2⟩
        rw [hd] at this
        exact Option.noConfusion this
    | some v =>
      obtain ⟨h1, h2⟩ := (parseUintDigits_eq s 0 v).1 hd
      simp only [h2]
      by_cases hv : v < 2 ^ 16
      · rw [if_pos hv]
        simp only [Option.some.injEq, ne_eq, hs, not_false_eq_true, true_and]
        constructor
        · intro e; subst e; exact ⟨h1, rfl, by norm_num at hv; omega⟩
        · intro e; exact e.2.1
      · rw [if_neg hv]
        constructor
        · intro h; exact Option.noConfusion h
        · rintro ⟨_, _, e1, e2⟩
          subst e1
          norm_num at hv
          omega

/-- The cases of `GetHostAndPortFromTcpAddress`. -/
theorem GetHostAndPort_cases (lib : AddressLib) (a : List Char) :
    (GetTypeFromAddress lib a ≠ (TransportType.TCP, none) →
      GetHostAndPortFromTcpAddress lib a = ([], 0, some AddressError.ErrAddressFormatUnknown)) ∧
    ((Split a ':').length ≠ 2 →
      GetHostAndPortFromTcpAddress lib a = ([], 0, some AddressError.ErrAddressFormatUnknown)) ∧
    (ParseUint ((Split a ':').getD 1 []) 16 = none →
      GetHostAndPortFromTcpAddress lib a = ([], 0, some AddressError.ErrAddressFormatUnknown)) ∧
    (∀ p, GetTypeFromAddress lib a = (TransportType.TCP, none) → (Split a ':').length = 2 →
      ParseUint ((Split a ':').getD 1 []) 16 = some p →
      GetHostAndPortFromTcpAddress lib a =
        (if (Split a ':').getD 0 [] = [] then "0.0.0.0".toList else (Split a ':').getD 0 [],
          p % 65536, none)) := by
  unfold GetHostAndPortFromTcpAddress
  refine ⟨?_, ?_, ?_, ?_⟩
  · rcases GetTypeFromAddress_cases lib a with h | h | h | h <;> rw [h] <;> simp
  · intro hl
    rcases GetTypeFromAddress_cases lib a with h | h | h | h <;> rw [h] <;> simp [hl]
  · intro hp
    rcases GetTypeFromAddress_cases lib a with h | h | h | h <;> rw [h] <;>
      simp only [ne_eq, not_true_eq_false, reduceCtorEq, not_false_eq_true, or_self, or_true,
        true_or, if_true, if_false]
    rw [hp]
    split_ifs <;> rfl
  · intro p ht hl hp
    rw [ht]
    simp only [ne_eq, not_true_eq_false, or_self, if_false, hl]
    rw [hp]

/-- C18 (host/port extraction). `GetHostAndPortFromTcpAddress` returns
`(host, port, nil)` exactly when the address has type TCP and is `pre:suf` with
no other colon, `suf` is a non-empty string of decimal digits whose value `port`
is at most 65535, and `host` is `pre`, or `0.0.0.0` when `pre` is empty; on
every other input it returns `("", 0, ErrAddressFormatUnknown)`, in particular
on every address without a colon (a bare IPv4 address, `localhost`). -/
theorem host_and_port_extraction (lib : AddressLib) (a : List Char) :
    (∀ host port, GetHostAndPortFromTcpAddress lib a = (host, port, none) ↔
      GetTypeFromAddress lib a = (TransportType.TCP, none) ∧
      ∃ pre suf, a = pre ++ ':' :: suf ∧ ':' ∉ pre ∧ ':' ∉ suf ∧
        suf ≠ [] ∧ (∀ c ∈ suf, 48 ≤ c.toNat ∧ c.toNat ≤ 57) ∧
        decimalValue suf = port ∧ port ≤ 65535 ∧
        host = if pre = [] then "0.0.0.0".toList else pre) ∧
    ((GetHostAndPortFromTcpAddress lib a).2.2 ≠ none →
      GetHostAndPortFromTcpAddress lib a =
        ([], 0, some AddressError.ErrAddressFormatUnknown)) ∧
    (':' ∉ a →
      GetHostAndPortFromTcpAddress lib a =
        ([], 0, some AddressError.ErrAddressFormatUnknown)) := by
  obtain ⟨hno, hlen, hparse, hyes⟩ := GetHostAndPort_cases lib a
  refine ⟨?_, ?_, ?_⟩
  · intro host port
    constructor
    · intro hres
      by_cases ht : GetTypeFromAddress lib a = (TransportType.TCP, none)
      · refine ⟨ht, ?_⟩
        by_cases hl : (Split a ':').length = 2
        · obtain ⟨pre, suf, ha, h1, h2⟩ := Split_length_two a ':' hl
          have hS : Split a ':' = [pre, suf] := by
            rw [ha, Split_append_sep pre suf ':' h1, Split_of_not_mem suf ':' h2]
          cases hp : ParseUint ((Split a ':').getD 1 []) 16 with
          | none =>
            rw [hparse hp] at hres
            simp at hres
          | some p =>
            rw [hyes p ht hl hp] at hres
            rw [hS] at hp hres
            simp only [List.getD_cons_succ, List.getD_cons_zero] at hp hres
            simp only [Prod.mk.injEq, and_true] at hres
            obtain ⟨g1, g2, g3, g4⟩ := (ParseUint_16 suf p).1 hp
            have hpm : p % 65536 = p := Nat.mod_eq_of_lt (by omega)
            rw [hpm] at hres
            refine ⟨pre, suf, ha, h1, h2, g1, g2, ?_, ?_, hres.1.symm⟩
            · rw [g3]; exact hres.2
            · rw [← hres.2]; exact g4
        · rw [hlen hl] at hres
          simp at hres
      · rw [hno ht] at hres
        simp at hres
    · rintro ⟨ht, pre, suf, ha, h1, h2, g1, g2, g3, g4, hh⟩
      have hS : Split a ':' = [pre, suf] := by
        rw [ha, Split_append_sep pre suf ':' h1, Split_of_not_mem suf ':' h2]
      have hp : ParseUint ((Split a ':').getD 1 []) 16 = some port := by
        rw [hS]
        exact (ParseUint_16 suf port).2 ⟨g1, g2, g3, g4⟩
      rw [hyes port ht (by rw [hS]; rfl) hp, hS, hh, Nat.mod_eq_of_lt (by omega)]
      rfl
  · intro hne
    by_cases ht : GetTypeFromAddress lib a = (TransportType.TCP, none)
    · by_cases hl : (Split a ':').length = 2
      · cases hp : ParseUint ((Split a ':').getD 1 []) 16 with
        | none => exact hparse hp
        | some p =>
          rw [hyes p ht hl hp] at hne
          exact absurd rfl hne
      · exact hlen hl
    · exact hno ht
  · intro hc
    apply hlen
    rw [Split_of_not_mem a ':' hc]
    simp

/-- The model on the examples of the specification, with the stand-in
library: `:p` and `a.b.c.d:p` give the host and the port, a bare IP address and
`localhost` without a port fail. -/
theorem host_and_port_examples :
    GetHostAndPortFromTcpAddress exampleLib ":8002".toList = ("0.0.0.0".toList, 8002, none) ∧
    GetHostAndPortFromTcpAddress exampleLib "127.0.0.1:80".toList =
      ("127.0.0.1".toList, 80, none) ∧
    GetHostAndPortFromTcpAddress exampleLib "localhost:8001".toList =
      ("localhost".toList, 8001, none) ∧
    GetHostAndPortFromTcpAddress exampleLib "127.0.0.1".toList =
      ([], 0, some AddressError.ErrAddressFormatUnknown) ∧
    GetHostAndPortFromTcpAddress exampleLib "localhost".toList =
      ([], 0, some AddressError.ErrAddressFormatUnknown) ∧
    GetHostAndPortFromTcpAddress exampleLib "127.0.0.1:65536".toList =
      ([], 0, some AddressError.ErrAddressFormatUnknown) := by
  refine ⟨?_, ?_, ?_, ?_, ?_, ?_⟩ <;> decide

/-! ## Packages comobj, socket, server, client and node: the state of a connection -/

/-- Go `DefaultIdleable.IsIdle` is true exactly when the timeout is positive
and the `int64` difference between now and `lastNotIdle` exceeds it. -/
theorem IsIdle_iff (i : DefaultIdleable) (now : Time) :
    i.IsIdle now = true ↔
      0 < i.idleTimeoutMs ∧ toInt64 (now.UnixMilli - i.lastNotIdle) > i.idleTimeoutMs := by
  unfold DefaultIdleable.IsIdle
  simp only []
  split_ifs with h
  · constructor
    · intro h'; exact h'.elim
    · intro h'; omega
  · simp only [decide_eq_true_eq]
    constructor
    · intro h'; exact ⟨by omega, h'⟩
    · intro h'; exact h'.2

/-- A read on a `node.Connection` leaves the embedded `DefaultConnection`,
and with it `lastNotIdle`, as it was. -/
theorem Read_base {E : Type} (c c' : Connection E) (d : Bool) (sys : Int × Option SocketError)
    (n : Int) (e : Option RWError) (h : c.Read d sys = some (c', n, e)) :
    c'.toDefaultConnection = c.toDefaultConnection := by
  unfold Connection.Read at h
  cases hT : c.connectionType <;> rw [hT] at h <;> simp only [] at h
  · cases hC : c.callerConn with
    | none => rw [hC] at h; exact Option.noConfusion h
    | some cl =>
      rw [hC] at h
      simp only [Option.some.injEq, Prod.mk.injEq] at h
      rw [← h.1]
  · cases hC : c.calleeConn with
    | none => rw [hC] at h; exact Option.noConfusion h
    | some sc =>
      rw [hC] at h
      simp only [Option.some.injEq, Prod.mk.injEq] at h
      rw [← h.1]

/-- A write on a `node.Connection` leaves the embedded `DefaultConnection`,
and with it `lastNotIdle`, as it was. -/
theorem Write_base {E : Type} (c c' : Connection E) (sys : Int × Option SocketError)
    (n : Int) (e : Option RWError) (h : c.Write sys = some (c', n, e)) :
    c'.toDefaultConnection = c.toDefaultConnection := by
  unfold Connection.Write at h
  cases hT : c.connectionType <;> rw [hT] at h <;> simp only [] at h
  · cases hC : c.callerConn with
    | none => rw [hC] at h; exact Option.noConfusion h
    | some cl =>
      rw [hC] at h
      simp only [Option.some.injEq, Prod.mk.injEq] at h
      rw [← h.1]
  · cases hC : c.calleeConn with
    | none => rw [hC] at h; exact Option.noConfusion h
    | some sc =>
      rw [hC] at h
      simp only [Option.some.injEq, Prod.mk.injEq] at h
      rw [← h.1]

/-- C19: a connection created at time 0 with an idle timeout of 1000 ms, on
which a write of 40 bytes and then a read of 31 bytes succeed. No read or write,
on the `node.Connection` or on the `server.Connection` under it, changes
`lastNotIdle`, which stays at the time of creation, so `IsIdle` at 1001 ms is
true whenever the write and the read took place, also right before the
question. -/
theorem active_connection_reported_idle :
    (∀ (E : Type) (c c' : Connection E) (d : Bool) (sys : Int × Option SocketError) (n : Int),
      c.Read d sys = some (c', n, none) →
        c'.lastNotIdle = c.lastNotIdle ∧ ∀ now, c'.IsIdle now = c.IsIdle now) ∧
    (∀ (E : Type) (c c' : Connection E) (sys : Int × Option SocketError) (n : Int),
      c.Write sys = some (c', n, none) →
        c'.lastNotIdle = c.lastNotIdle ∧ ∀ now, c'.IsIdle now = c.IsIdle now) ∧
    (∀ (E : Type) (conn : ServerConnection E) (d : Bool) (sys : Int × Option SocketError),
      (TcpServer.read conn d sys).1.toDefaultConnection = conn.toDefaultConnection ∧
      (TcpServer.write conn sys).1.toDefaultConnection = conn.toDefaultConnection) ∧
    ∃ c1 c2, exampleConnection.Write (40, none) = some (c1, 40, none) ∧
      c1.Read false (31, none) = some (c2, 31, none) ∧
      c2.lastNotIdle = 0 ∧ c2.IsIdle (UnixMilli 1000) = false ∧
      c2.IsIdle (UnixMilli 1001) = true := by
  refine ⟨?_, ?_, ?_, ?_⟩
  · intro E c c' d sys n h
    have hb := Read_base c c' d sys n none h
    exact ⟨by rw [hb], fun now => by unfold Connection.IsIdle; rw [hb]⟩
  · intro E c c' sys n h
    have hb := Write_base c c' sys n none h
    exact ⟨by rw [hb], fun now => by unfold Connection.IsIdle; rw [hb]⟩
  · intro E conn d sys
    unfold TcpServer.read TcpServer.write
    constructor
    · cases conn.tcpConn with
      | none => rfl
      | some o =>
        simp only []
        split_ifs
        · rfl
        · cases SinkReadWriteError sys.2 <;> rfl
    · cases conn.tcpConn with
      | none => rfl
      | some o =>
        simp only []
        cases SinkReadWriteError sys.2 <;> rfl
  · exact ⟨_, _, rfl, rfl, by decide, by decide, by decide⟩

/-- Go `Close` on a connection that is not connected returns nil, changes
nothing and does not invoke the handler. -/
theorem Close_of_not_connected {E : Type} (c : DefaultConnection E) (now : Time)
    (h : c.isConnected = false) : c.Close now = (c, none, []) := by
  unfold DefaultConnection.Close DefaultConnectable.IsConnected
  rw [h]
  rfl

theorem CloseAll_of_not_connected {E : Type} (c : DefaultConnection E) (ts : List Time)
    (h : c.isConnected = false) :
    c.CloseAll ts = (c, List.replicate ts.length none, []) := by
  induction ts with
  | nil => rfl
  | cons t ts ih =>
    unfold DefaultConnection.CloseAll
    rw [Close_of_not_connected c t h]
    simp only [ih]
    rfl

/-- C20 (idempotent close). On a connected `DefaultConnection` whose close
handler returns nil, the first `Close` returns nil, leaves the connection not
connected with the disconnect time set to the time of that call, and invokes
the handler once, with the id of the connection; every later `Close` returns
nil, invokes no handler and leaves the connection, disconnect time included, as
the first `Close` left it. -/
theorem idempotent_close {E : Type} (c : DefaultConnection E) (handler : Nat → Option E)
    (now : Time) (later : List Time)
    (hc : c.isConnected = true) (hh : c.closeHandler = some handler)
    (hok : handler c.id = none) :
    (c.Close now).2.1 = none ∧
    (c.Close now).1.IsConnected = false ∧
    (c.Close now).1.DisconnectTime = some now ∧
    (c.Close now).2.2 = [c.id] ∧
    (c.Close now).1 = { c with isConnected := false, disconnectTime := some now } ∧
    (c.Close now).1.CloseAll later =
      ((c.Close now).1, List.replicate later.length none, []) ∧
    (c.CloseAll (now :: later)).1.IsConnected = false ∧
    (c.CloseAll (now :: later)).1.DisconnectTime = some now ∧
    (c.CloseAll (now :: later)).2.1 = List.replicate (later.length + 1) none ∧
    (c.CloseAll (now :: later)).2.2 = [c.id] := by
  have h1 : c.Close now =
      ({ c with isConnected := false, disconnectTime := some now }, none, [c.id]) := by
    unfold DefaultConnection.Close DefaultConnectable.IsConnected
    rw [hc]
    simp only [Bool.not_true, Bool.false_eq_true, if_false, DefaultConnection.SetIsConnected,
      hh, DefaultConnection.SetDisconnectTime, hok]
  have h2 := CloseAll_of_not_connected
    ({ c with isConnected := false, disconnectTime := some now } : DefaultConnection E) later rfl
  have h3 : c.CloseAll (now :: later) =
      ({ c with isConnected := false, disconnectTime := some now },
        List.replicate (later.length + 1) none, [c.id]) := by
    rw [DefaultConnection.CloseAll, h1]
    simp only [h2]
    rfl
  rw [h1, h3]
  exact ⟨rfl, rfl, rfl, rfl, rfl, h2, rfl, rfl, rfl, rfl⟩

theorem idempotent_close_witness :
    (exampleConnection.toDefaultConnection.Close (UnixMilli 5)).2.1 = none ∧
    (exampleConnection.toDefaultConnection.Close (UnixMilli 5)).1.IsConnected = false ∧
    (exampleConnection.toDefaultConnection.Close (UnixMilli 5)).1.DisconnectTime =
      some (UnixMilli 5) ∧
    (exampleConnection.toDefaultConnection.Close (UnixMilli 5)).2.2 =
      [exampleConnection.toDefaultConnection.id] ∧
    (exampleConnection.toDefaultConnection.Close (UnixMilli 5)).1 =
      { exampleConnection.toDefaultConnection with
        isConnected := false, disconnectTime := some (UnixMilli 5) } ∧
    (exampleConnection.toDefaultConnection.Close (UnixMilli 5)).1.CloseAll
        [UnixMilli 7, UnixMilli 9] =
      ((exampleConnection.toDefaultConnection.Close (UnixMilli 5)).1,
        List.replicate [UnixMilli 7, UnixMilli 9].length none, []) ∧
    (exampleConnection.toDefaultConnection.CloseAll
      (UnixMilli 5 :: [UnixMilli 7, UnixMilli 9])).1.IsConnected = false ∧
    (exampleConnection.toDefaultConnection.CloseAll
      (UnixMilli 5 :: [UnixMilli 7, UnixMilli 9])).1.DisconnectTime = some (UnixMilli 5) ∧
    (exampleConnection.toDefaultConnection.CloseAll
      (UnixMilli 5 :: [UnixMilli 7, UnixMilli 9])).2.1 =
      List.replicate ([UnixMilli 7, UnixMilli 9].length + 1) none ∧
    (exampleConnection.toDefaultConnection.CloseAll
      (UnixMilli 5 :: [UnixMilli 7, UnixMilli 9])).2.2 =
      [exampleConnection.toDefaultConnection.id] :=
  idempotent_close exampleConnection.toDefaultConnection (fun _ => none) (UnixMilli 5)
    [UnixMilli 7, UnixMilli 9] rfl rfl rfl

/-! ## Channels, the TCP server and the TCP node -/

/-! ## The connection limit of the listener -/

/-- C21, as stated, fails for the limit 0: a server without any client and
with client limit 0 rejects the new connection. -/
theorem limit_zero_rejects_first_connection :
    TcpServer.verifyConnectionLimit
      ({ isRunning := true, connections := [], listenCancelled := false } : TcpServer Unit) 0
      = some ⟨0⟩ := by
  decide

/-- C21 (listener connection limit), amended. With client limit `L` and `c`
tracked clients, `verifyConnectionLimit` rejects with `ErrConnectionLimitReached`
(wrapped with `c`) exactly when `L < 0` and `c >= 4096`, or `L >= 0` and
`c >= L`; with `L = 0` it rejects every connection. -/
theorem listener_connection_limit {E : Type} (s : TcpServer E) (L : Int) :
    (s.verifyConnectionLimit L ≠ none ↔
      (L < 0 ∧ s.ClientCount ≥ 4096) ∨ (0 ≤ L ∧ s.ClientCount ≥ L)) ∧
    (s.verifyConnectionLimit L ≠ none →
      s.verifyConnectionLimit L = some ⟨s.connections.length⟩) ∧
    (L = 0 → s.verifyConnectionLimit L ≠ none) := by
  have hc : 0 ≤ s.ClientCount := by unfold TcpServer.ClientCount; omega
  have hn : s.ClientCount.toNat = s.connections.length := by
    unfold TcpServer.ClientCount; simp
  unfold TcpServer.verifyConnectionLimit
  simp only []
  refine ⟨?_, ?_, ?_⟩
  · by_cases hL : L < 0
    · rw [if_pos hL]
      split_ifs with h
      · simp only [ne_eq, reduceCtorEq, not_false_eq_true, true_iff]
        exact Or.inl ⟨hL, h⟩
      · simp only [ne_eq, not_true_eq_false, false_iff, not_or, not_and]
        exact ⟨fun _ => h, fun h0 => absurd hL (by omega)⟩
    · rw [if_neg hL]
      split_ifs with h
      · simp only [ne_eq, reduceCtorEq, not_false_eq_true, true_iff]
        exact Or.inr ⟨by omega, h⟩
      · simp only [ne_eq, not_true_eq_false, false_iff, not_or, not_and]
        exact ⟨fun h0 => absurd h0 hL, fun _ => h⟩
  · intro h
    by_cases hge : s.ClientCount ≥ (if L < 0 then 4096 else L)
    · rw [if_pos hge, hn]
    · rw [if_neg hge] at h
      exact absurd rfl h
  · intro h0
    subst h0
    simp only [lt_self_iff_false, if_false]
    rw [if_pos hc]
    simp

/-! ## The connection limit of a node -/

theorem TcpNode.verifyConnectionLimit_eq {E T : Type} (n : TcpNode E T) (s : TcpServer E)
    (L : Int) (hs : n.server = some s) :
    n.verifyConnectionLimit L =
      if s.ClientCount ≥ (if L < 0 then 4096 else L) then
        some (some NodeError.ErrConnectionLimitReached)
      else some none := by
  unfold TcpNode.verifyConnectionLimit
  rw [hs]

/-- When the address is not in the pool, `Send` returns
`ErrConnectionLimitReached` exactly when the limit check of
`addOutgoingConnection` fails. -/
theorem Send_limit {E T : Type} (lib : AddressLib) (codec : Codec T) (n : TcpNode E T)
    (toNode : String) (data : Option T) (id : Nat) (nowMsg : Time) (dialed : Bool)
    (handler : Nat → Option E) (now now2 : Time) (newId : Nat)
    (sys : Int × Option SocketError) (s : TcpServer E)
    (res : TcpNode E T × Option (Message T) × Option (NodeError E))
    (hs : n.server = some s) (hpool : n.getConnectionByAddress toNode = none)
    (hres : n.Send lib codec toNode data id nowMsg dialed handler now now2 newId sys = some res) :
    res.2.2 = some NodeError.ErrConnectionLimitReached ↔
      s.ClientCount ≥ (if n.cfg.OutgoingConnectionLimit < 0 then 4096
        else n.cfg.OutgoingConnectionLimit) := by
  have hv := TcpNode.verifyConnectionLimit_eq n s n.cfg.OutgoingConnectionLimit hs
  unfold TcpNode.Send at hres
  simp only [hpool] at hres
  unfold TcpNode.addOutgoingConnection at hres
  rw [hv] at hres
  by_cases hge : s.ClientCount ≥ (if n.cfg.OutgoingConnectionLimit < 0 then 4096
      else n.cfg.OutgoingConnectionLimit)
  · rw [if_pos hge] at hres
    simp only [Option.some.injEq] at hres
    rw [← hres]
    exact ⟨fun _ => hge, fun _ => rfl⟩
  · rw [if_neg hge] at hres
    simp only [hge, iff_false]
    simp only [] at hres
    intro hr
    rcases hgh : GetHostAndPortFromTcpAddress lib toNode.toList with ⟨h1, h2, _ | e⟩
    · rw [hgh] at hres
      simp only [] at hres
      cases dialed with
      | false =>
        simp only [Bool.not_false, if_true, Option.some.injEq] at hres
        rw [← hres] at hr
        simp at hr
      | true =>
        simp only [Bool.not_true, Bool.false_eq_true, if_false] at hres
        cases htb : Message.ToBytes codec (NewMessage n.replyPort toNode data id nowMsg) with
        | none => rw [htb] at hres; simp at hres
        | some r =>
          obtain ⟨b, e⟩ := r
          rw [htb] at hres
          cases e with
          | some e =>
            simp only [Option.some.injEq] at hres
            rw [← hres] at hr
            simp at hr
          | none =>
            cases b with
            | none => simp at hres
            | some b =>
              simp only [] at hres
              split at hres
              · simp at hres
              · simp only [Option.some.injEq] at hres
                rw [← hres] at hr
                simp at hr
              · simp only [Option.some.injEq] at hres
                rw [← hres] at hr
                simp at hr
    · rw [hgh] at hres
      simp only [Option.some.injEq] at hres
      rw [← hres] at hr
      simp at hr

/-- C22: the limit check for outgoing connections reads the client count of
the server, the number of accepted (inbound) connections, and never the pool
of the node. A node with outgoing limit 1, no dialed connection and one accepted
client refuses to send to a new address with `ErrConnectionLimitReached`; the
same node with one dialed connection and no accepted client dials a second
connection and sends. -/
theorem outgoing_limit_counts_inbound_clients :
    (∀ (E T : Type) (n : TcpNode E T) (s : TcpServer E) (L : Int)
        (pool : List (Connection E)), n.server = some s →
      (({ n with connections := pool }).verifyConnectionLimit L =
          some (some NodeError.ErrConnectionLimitReached) ↔
        s.ClientCount ≥ (if L < 0 then 4096 else L))) ∧
    (exampleNode [exampleClient] [exampleConnection] 100 []).getConnectionByAddress
        "127.0.0.1:8002" = none ∧
    (exampleNode [exampleClient] [exampleConnection] 100 []).Send exampleLib Codec.raw
        "127.0.0.1:8002" (some [1, 2, 3, 4]) 7 (UnixMilli 1700000000123) true (fun _ => none)
        (UnixMilli 1700000000123) (UnixMilli 1700000000123) 4 (40, none)
      = some (exampleNode [exampleClient] [exampleConnection] 100 [], none,
          some NodeError.ErrConnectionLimitReached) ∧
    (exampleNode [] [exampleOutgoing] 100 []).getConnectionByAddress "127.0.0.1:8002" = none ∧
    ∃ n1, (exampleNode [] [exampleOutgoing] 100 []).Send exampleLib Codec.raw
        "127.0.0.1:8002" (some [1, 2, 3, 4]) 7 (UnixMilli 1700000000123) true (fun _ => none)
        (UnixMilli 1700000000123) (UnixMilli 1700000000123) 4 (40, none)
      = some (n1, some (NewMessage 8001 "127.0.0.1:8002" (some [1, 2, 3, 4]) 7
          (UnixMilli 1700000000123)), none) ∧
      n1.connections.length = 2 := by
  refine ⟨?_, rfl, rfl, rfl, ?_⟩
  · intro E T n s L pool hs
    rw [TcpNode.verifyConnectionLimit_eq { n with connections := pool } s L hs]
    by_cases h : s.ClientCount ≥ (if L < 0 then 4096 else L)
    · rw [if_pos h]
      exact ⟨fun _ => h, fun _ => rfl⟩
    · rw [if_neg h]
      constructor
      · intro h0; simp at h0
      · intro h0; exact absurd h0 h
  · exact ⟨_, rfl, rfl⟩

/-! ## Stopping a node -/

theorem Chan.tryRecv_cons {α : Type} (c : Chan α) (v : α) (rest : List α) (h : c.buf = v :: rest) :
    c.tryRecv = some (some v, { c with buf := rest }) := by
  unfold Chan.tryRecv
  rw [h]

theorem Chan.tryRecv_nil {α : Type} (c : Chan α) (h : c.buf = []) :
    c.tryRecv = if c.closed then some (none, c) else none := by
  unfold Chan.tryRecv
  rw [h]

/-- Go `Stop` on a running node: it never panics; the node is not running and
the pool is empty afterwards; the receive channel loses its oldest buffered
message and stays as it was otherwise, or, when nothing is buffered, is
closed. -/
theorem Stop_running {E T : Type} (n : TcpNode E T) (now : Time) (hr : n.isRunning = true) :
    ∃ n1, n.Stop now = some n1 ∧ n1.isRunning = false ∧ n1.connections = [] ∧
      n1.statusChan = n.statusChan ∧
      (n.incomingChan = none → n1.incomingChan = none) ∧
      (∀ ch, n.incomingChan = some ch →
        (∀ v rest, ch.buf = v :: rest → n1.incomingChan = some { ch with buf := rest }) ∧
        (ch.buf = [] → n1.incomingChan = some { ch with closed := true })) := by
  unfold TcpNode.Stop
  rw [hr]
  simp only [Bool.not_true, Bool.false_eq_true, if_false]
  cases hc : n.incomingChan with
  | none =>
    refine ⟨_, rfl, rfl, rfl, rfl, fun _ => rfl, fun ch h => Option.noConfusion h⟩
  | some ch =>
    simp only []
    cases hb : ch.buf with
    | cons v rest =>
      rw [Chan.tryRecv_cons ch v rest hb]
      refine ⟨_, rfl, rfl, rfl, rfl, fun h => Option.noConfusion h, ?_⟩
      intro ch' h'
      simp only [Option.some.injEq] at h'
      subst h'
      refine ⟨fun v' rest' h2 => ?_, fun h2 => ?_⟩
      · rw [hb] at h2
        simp only [List.cons.injEq] at h2
        rw [h2.2]
      · rw [hb] at h2
        exact List.noConfusion h2
    | nil =>
      rw [Chan.tryRecv_nil ch hb]
      cases hcl : ch.closed with
      | true =>
        simp only [if_true]
        refine ⟨_, rfl, rfl, rfl, rfl, fun h => Option.noConfusion h, ?_⟩
        intro ch' h'
        simp only [Option.some.injEq] at h'
        subst h'
        refine ⟨fun v' rest' h2 => ?_, fun _ => ?_⟩
        · rw [hb] at h2
          exact List.noConfusion h2
        · simp only [Option.some.injEq]
          cases ch
          simp only [Chan.mk.injEq, true_and] at hcl ⊢
          exact hcl
      | false =>
        simp only [Bool.false_eq_true, if_false, Chan.close, hcl]
        refine ⟨_, rfl, rfl, rfl, rfl, fun h => Option.noConfusion h, ?_⟩
        intro ch' h'
        simp only [Option.some.injEq] at h'
        subst h'
        refine ⟨fun v' rest' h2 => ?_, fun _ => rfl⟩
        rw [hb] at h2
        exact List.noConfusion h2

/-- Go `Stop` on a node that is not running changes nothing. -/
theorem Stop_not_running {E T : Type} (n : TcpNode E T) (now : Time) (hr : n.isRunning = false) :
    n.Stop now = some n := by
  unfold TcpNode.Stop
  rw [hr]
  rfl

/-- C23: a running node whose receive channel holds one undelivered message.
`Stop` leaves the node not running with an empty pool, and a second `Stop`
changes nothing, but the `select` that is meant to find out whether the channel
is already closed receives the buffered message instead and returns: the
message is lost and the receive channel is not closed. With an empty buffer the
channel is closed. -/
theorem stop_leaves_receive_channel_open :
    (∀ (E T : Type) (n : TcpNode E T) (now later : Time), n.isRunning = true →
      ∃ n1, n.Stop now = some n1 ∧ n1.isRunning = false ∧ n1.connections = [] ∧
        n1.Stop later = some n1 ∧
        (∀ ch, n.incomingChan = some ch → ch.buf = [] →
          n1.incomingChan = some { ch with closed := true }) ∧
        (∀ ch v rest, n.incomingChan = some ch → ch.buf = v :: rest →
          n1.incomingChan = some { ch with buf := rest })) ∧
    ∃ n1, (exampleNode [exampleClient] [exampleConnection] 100 [examplePayloadMessage]).Stop
        (UnixMilli 5) = some n1 ∧
      n1.isRunning = false ∧ n1.connections = [] ∧
      n1.incomingChan = some { buf := [], cap := 100, closed := false } := by
  constructor
  · intro E T n now later hr
    obtain ⟨n1, h1, h2, h3, _, _, h6⟩ := Stop_running n now hr
    refine ⟨n1, h1, h2, h3, Stop_not_running n1 later h2, ?_, ?_⟩
    · intro ch hc hb
      exact (h6 ch hc).2 hb
    · intro ch v rest hc hb
      exact (h6 ch hc).1 v rest hb
  · exact ⟨_, rfl, rfl, rfl, rfl⟩

/-! ## The push of a received message onto the receive channel -/

/-- The push `n.incomingChan <- msg` of the inbound reader on an open receive
channel. When the channel is full the reader blocks. When there is room, the
message, with `receivedOn`, `fromNode` and `toNode` set, is put at the end of
the channel, and on a running node the reader goes on and, if receipts are
enabled, writes the receipt. -/
theorem handleIncomingMessage_push {E T : Type} (codec : Codec T) (n : TcpNode E T)
    (conn : ServerConnection E) (callerHost : String) (sendReceipts : Bool) (msg : Message T)
    (now now2 : Time) (sys : Int × Option SocketError) (ch : Chan (Message T))
    (hc : n.incomingChan = some ch) (hopen : ch.closed = false) :
    (ch.cap ≤ ch.buf.length →
      n.handleIncomingMessage codec conn callerHost sendReceipts msg now now2 sys
        = Outcome.blocked) ∧
    (ch.buf.length < ch.cap → n.isRunning = true →
      ∃ h, n.handleIncomingMessage codec conn callerHost sendReceipts msg now now2 sys
          = Outcome.done h ∧
        h.node.incomingChan = some { ch with buf := ch.buf ++
          [{ msg with receivedOn := now,
                      fromNode := callerHost ++ ":" ++ toString msg.replyPort,
                      toNode := n.replyAddress }] } ∧
        h.returned = false ∧
        (sendReceipts = true → h.receipt = some (headerBytes
          (NewMessageReceipt msg.id n.replyPort conn.remoteAddress (msg.status % 256) now2 :
            Message T) 0)) ∧
        (sendReceipts = false → h.receipt = none)) := by
  constructor
  · intro hfull
    unfold TcpNode.handleIncomingMessage
    simp only [hc, Chan.send, hopen, Bool.false_eq_true, if_false]
    rw [if_neg (by omega)]
  · intro hroom hrun
    unfold TcpNode.handleIncomingMessage
    simp only [hc, Chan.send, hopen, Bool.false_eq_true, if_false]
    rw [if_pos hroom]
    simp only [hrun, Bool.not_true, Bool.false_eq_true, if_false]
    cases sendReceipts with
    | false =>
      exact ⟨_, rfl, rfl, rfl, fun h => Bool.noConfusion h, fun _ => rfl⟩
    | true =>
      simp only [if_true]
      unfold TcpNode.sendReceipt
      simp only []
      rw [ToBytes_of_no_payload codec _ rfl]
      simp only []
      rcases hw : TcpServer.write conn sys with ⟨c1, k, _ | e⟩
      · exact ⟨_, rfl, rfl, rfl, fun _ => rfl, fun h => Bool.noConfusion h⟩
      · exact ⟨_, rfl, rfl, rfl, fun _ => rfl, fun h => Bool.noConfusion h⟩

/-- C24: the inbound reader pushes a newly parsed message with the blocking
send `n.incomingChan <- msg`. On every node whose open receive channel is full
the push does not complete: the reader blocks, the message is not dropped, and
neither the receipt is written nor the next frame read. Evaluated on a running
node whose receive channel of capacity 1 holds one message. -/
theorem full_receive_channel_blocks_reader :
    (∀ (E T : Type) (codec : Codec T) (n : TcpNode E T) (conn : ServerConnection E)
        (callerHost : String) (sendReceipts : Bool) (msg : Message T) (now now2 : Time)
        (sys : Int × Option SocketError) (ch : Chan (Message T)),
      n.incomingChan = some ch → ch.closed = false → ch.cap ≤ ch.buf.length →
      n.handleIncomingMessage codec conn callerHost sendReceipts msg now now2 sys
        = Outcome.blocked) ∧
    (exampleNode [exampleClient] [exampleConnection] 1
        [examplePayloadMessage]).handleIncomingMessage Codec.raw exampleClient "127.0.0.1" true
        { examplePayloadMessage with id := 8, status := MessageReceived }
        (UnixMilli 1700000000200) (UnixMilli 1700000000201) (31, none)
      = Outcome.blocked :=
  ⟨fun _ _ codec n conn callerHost sendReceipts msg now now2 sys ch hc hopen hfull =>
      (handleIncomingMessage_push codec n conn callerHost sendReceipts msg now now2 sys ch hc
        hopen).1 hfull,
    rfl⟩

/-! ## Package stream: the stream of C strings -/

theorem StringStream.processReads_fold (bufferSize : Nat) (s : StringStream)
    (reads : List (List Nat)) :
    StringStream.processReads bufferSize s reads =
      { s.processBuffer bufferSize reads.flatten with
        err := some Error.ReadError, returned := true } := by
  induction reads generalizing s with
  | nil => rfl
  | cons c cs ih =>
    rw [StringStream.processReads, ih]
    simp [StringStream.processBuffer, List.foldl_append]

theorem StringStream.processBuffer_concat (bufferSize : Nat) (s : StringStream)
    (a b : List Nat) :
    s.processBuffer bufferSize (a ++ b) =
      (s.processBuffer bufferSize a).processBuffer bufferSize b := by
  simp [StringStream.processBuffer, List.foldl_append]

theorem StringStream.processBuffer_word (bufferSize : Nat) (s : StringStream) (w : List Nat)
    (hw : ∀ b ∈ w, 0 < b) :
    s.processBuffer bufferSize w = { s with sb := s.sb ++ w } := by
  induction w generalizing s with
  | nil => simp [StringStream.processBuffer]
  | cons x xs ih =>
    have hx : x > 0 := hw x (List.mem_cons_self _ _)
    have h1 : s.processBuffer bufferSize (x :: xs) =
        (StringStream.processByte bufferSize s x).processBuffer bufferSize xs := rfl
    rw [h1, ih _ (fun b hb => hw b (List.mem_cons_of_mem _ hb))]
    simp [StringStream.processByte, hx]

theorem StringStream.processBuffer_cString (bufferSize : Nat) (s : StringStream) (w : List Nat)
    (hs : s.sb = []) (hne : w ≠ []) (hw : ∀ b ∈ w, 0 < b)
    (hroom : s.streamChan.length < bufferSize) :
    s.processBuffer bufferSize (w ++ [0]) = { s with streamChan := s.streamChan ++ [w] } := by
  rw [StringStream.processBuffer_concat, StringStream.processBuffer_word _ _ _ hw]
  have hl : 0 < w.length := List.length_pos.mpr hne
  cases s
  simp only at hs hroom
  subst hs
  simp [StringStream.processBuffer, StringStream.processByte, hl, hroom]

theorem StringStream.processBuffer_cStrings (bufferSize : Nat) (s : StringStream)
    (words : List (List Nat)) (hs : s.sb = [])
    (hw : ∀ w ∈ words, w ≠ [] ∧ ∀ b ∈ w, 0 < b)
    (hroom : s.streamChan.length + words.length ≤ bufferSize) :
    s.processBuffer bufferSize (cStrings words) =
      { s with streamChan := s.streamChan ++ words } := by
  induction words generalizing s with
  | nil => simp [cStrings, StringStream.processBuffer]
  | cons w ws ih =>
    obtain ⟨hne, hb⟩ := hw w (List.mem_cons_self _ _)
    simp only [List.length_cons] at hroom
    have hc : cStrings (w :: ws) = (w ++ [0]) ++ cStrings ws := by
      simp [cStrings]
    rw [hc, StringStream.processBuffer_concat,
      StringStream.processBuffer_cString _ _ _ hs hne hb (by omega),
      ih { s with streamChan := s.streamChan ++ [w] } hs
        (fun x hx => hw x (List.mem_cons_of_mem _ hx))
        (by simp only [List.length_append, List.length_singleton]; omega)]
    simp

/-- C25 (string stream). For every list of words, each non-empty and free of
NUL bytes, that is no longer than the buffer of the channel (1024 for
`stream.String(reader)`), and every way `reads` of cutting the bytes of the
words, each followed by one NUL byte, into the chunks of successive `Read`
calls, `process` sends exactly these words, in the same order, and then closes
the channel. -/
theorem string_stream (bufferSize : Nat) (words : List (List Nat)) (reads : List (List Nat))
    (hw : ∀ w ∈ words, w ≠ [] ∧ ∀ b ∈ w, 0 < b)
    (hlen : words.length ≤ bufferSize)
    (hreads : reads.flatten = cStrings words) :
    (StringStream.process bufferSize reads).streamChan = words ∧
    (StringStream.process bufferSize reads).returned = true ∧
    (StringStream.process bufferSize reads).err = some Error.ReadError ∧
    (words.length ≤ stringStreamBufferSize →
      (StringStream.process stringStreamBufferSize reads).streamChan = words ∧
      (StringStream.process stringStreamBufferSize reads).returned = true) := by
  have key : ∀ n, words.length ≤ n →
      StringStream.process n reads =
        { sb := [], streamChan := words, err := some Error.ReadError, returned := true } := by
    intro n hn
    unfold StringStream.process
    rw [StringStream.processReads_fold, hreads,
      StringStream.processBuffer_cStrings n _ words rfl hw (by simpa using hn)]
    simp
  rw [key bufferSize hlen]
  refine ⟨rfl, rfl, rfl, fun h => ?_⟩
  rw [key _ h]
  exact ⟨rfl, rfl⟩

theorem string_stream_witness :
    (StringStream.process 2 [[104, 105, 0, 97], [98], [], [99, 0]]).streamChan
      = [[104, 105], [97, 98, 99]] ∧
    (StringStream.process 2 [[104, 105, 0, 97], [98], [], [99, 0]]).returned = true ∧
    (StringStream.process 2 [[104, 105, 0, 97], [98], [], [99, 0]]).err
      = some Error.ReadError ∧
    ([[104, 105], [97, 98, 99]].length ≤ stringStreamBufferSize →
      (StringStream.process stringStreamBufferSize
        [[104, 105, 0, 97], [98], [], [99, 0]]).streamChan = [[104, 105], [97, 98, 99]] ∧
      (StringStream.process stringStreamBufferSize
        [[104, 105, 0, 97], [98], [], [99, 0]]).returned = true) :=
  string_stream 2 [[104, 105], [97, 98, 99]] [[104, 105, 0, 97], [98], [], [99, 0]]
    (by decide) (by decide) (by decide)

/-! ## The timestamps of a decoded message -/

/-- The message that `MessageFromBytes` returns, with or without an error, has
the header fields of the buffer. -/
theorem MessageFromBytes_fields {T : Type} (codec : Codec T) (bytes : List Nat)
    (msg : Message T) (e : Option Error)
    (h : MessageFromBytes codec bytes = some (some msg, e)) :
    ∃ ts, ParseInt (slice bytes 13 26) = some ts ∧
      msg.status = bytes.getD 8 0 ∧
      msg.replyPort = Uint16 (slice bytes 6 8) ∧
      msg.id = Uint32 (slice bytes 9 13) ∧
      msg.sentOn = (if bytes.getD 8 0 % 256 = MessageSent then UnixMilli ts else Time.zero) ∧
      msg.receivedOn =
        (if bytes.getD 8 0 % 256 = MessageReceived ||| PayloadNotReceived then UnixMilli ts
         else Time.zero) := by
  unfold MessageFromBytes at h
  simp only [] at h
  by_cases c1 : bytes.length < messageHeaderSize
  · rw [if_pos c1] at h
    exact absurd h (by simp)
  rw [if_neg c1] at h
  by_cases c2 : (bytes.take messageSyncByteCount).any (fun b => decide (b ≠ messageSyncByte)) = true
  · rw [if_pos c2] at h
    exact absurd h (by simp)
  rw [if_neg c2] at h
  by_cases c3 : bytes.getD 30 0 ≠ getChecksum (slice bytes 6 30)
  · rw [if_pos c3] at h
    exact absurd h (by simp)
  rw [if_neg c3] at h
  cases hp : ParseInt (slice bytes 13 26) with
  | none => rw [hp] at h; exact absurd h (by simp)
  | some ts =>
    rw [hp] at h
    simp only [] at h
    refine ⟨ts, rfl, ?_⟩
    by_cases c4 : Uint32 (slice bytes 26 30) > 0
    · rw [if_pos c4] at h
      by_cases c5 : bytes.length % 4294967296 ≠
          (messageHeaderSize + Uint32 (slice bytes 26 30) + 1) % 4294967296
      · rw [if_pos c5] at h
        simp only [Option.some.injEq, Prod.mk.injEq] at h
        obtain ⟨h1, _⟩ := h
        subst h1
        exact ⟨rfl, rfl, rfl, rfl, rfl⟩
      rw [if_neg c5] at h
      by_cases c6 : bytes.length - 1 < messageHeaderSize
      · rw [if_pos c6] at h
        exact absurd h (by simp)
      rw [if_neg c6] at h
      cases hg : bytes[(messageHeaderSize + Uint32 (slice bytes 26 30)) % 4294967296]? with
      | none => rw [hg] at h; exact absurd h (by simp)
      | some pc =>
        rw [hg] at h
        simp only [] at h
        by_cases c7 : pc ≠ getChecksum (slice bytes messageHeaderSize (bytes.length - 1))
        · rw [if_pos c7] at h
          simp only [Option.some.injEq, Prod.mk.injEq] at h
          obtain ⟨h1, _⟩ := h
          subst h1
          exact ⟨rfl, rfl, rfl, rfl, rfl⟩
        rw [if_neg c7] at h
        cases hd : base64Decode (slice bytes messageHeaderSize (bytes.length - 1)) with
        | none =>
          rw [hd] at h
          simp only [Option.some.injEq, Prod.mk.injEq] at h
          obtain ⟨h1, _⟩ := h
          subst h1
          exact ⟨rfl, rfl, rfl, rfl, rfl⟩
        | some dataBytes =>
          rw [hd] at h
          simp only [] at h
          cases hu : codec.unmarshal dataBytes with
          | none =>
            rw [hu] at h
            simp only [Option.some.injEq, Prod.mk.injEq] at h
            obtain ⟨h1, _⟩ := h
            subst h1
            exact ⟨rfl, rfl, rfl, rfl, rfl⟩
          | some data =>
            rw [hu] at h
            simp only [Option.some.injEq, Prod.mk.injEq] at h
            obtain ⟨h1, _⟩ := h
            subst h1
            exact ⟨rfl, rfl, rfl, rfl, rfl⟩
    · rw [if_neg c4] at h
      simp only [Option.some.injEq, Prod.mk.injEq] at h
      obtain ⟨h1, _⟩ := h
      subst h1
      exact ⟨rfl, rfl, rfl, rfl, rfl⟩

/-- C26 (`receivedOn` on decode). For every buffer from which `MessageFromBytes`
returns a message: `receivedOn` is the time of the wire timestamp when the
status byte is 201 and the zero time for every other status, in particular for
200; `sentOn` is the time of the wire timestamp when the status byte is 100
and the zero time otherwise. -/
theorem received_on_decode {T : Type} (codec : Codec T) (bytes : List Nat)
    (msg : Message T) (e : Option Error)
    (h : MessageFromBytes codec bytes = some (some msg, e)) :
    ∃ ts, ParseInt (slice bytes 13 26) = some ts ∧
      (bytes.getD 8 0 % 256 = 201 → msg.receivedOn = UnixMilli ts ∧ msg.sentOn = Time.zero) ∧
      (bytes.getD 8 0 % 256 ≠ 201 → msg.receivedOn = Time.zero) ∧
      (bytes.getD 8 0 % 256 = 200 → msg.receivedOn = Time.zero ∧ msg.sentOn = Time.zero) ∧
      (bytes.getD 8 0 % 256 = 100 → msg.sentOn = UnixMilli ts ∧ msg.receivedOn = Time.zero) := by
  obtain ⟨ts, hts, _, _, _, hs, hr⟩ := MessageFromBytes_fields codec bytes msg e h
  have h201 : MessageReceived ||| PayloadNotReceived = 201 := by decide
  rw [h201] at hr
  unfold MessageSent at hs
  refine ⟨ts, hts, ?_, ?_, ?_, ?_⟩
  · intro hst
    rw [hr, hs, if_pos hst, if_neg (by omega)]
    exact ⟨rfl, rfl⟩
  · intro hst
    rw [hr, if_neg hst]
  · intro hst
    rw [hr, hs, if_neg (by omega), if_neg (by omega)]
    exact ⟨rfl, rfl⟩
  · intro hst
    rw [hr, hs, if_pos hst, if_neg (by omega)]
    exact ⟨rfl, rfl⟩

theorem received_on_decode_witness :
    ∃ ts, ParseInt (slice [22, 22, 22, 22, 22, 22, 31, 65, 200, 0, 0, 0, 7, 49, 55, 48, 48, 48,
        48, 48, 48, 48, 48, 49, 50, 51, 0, 0, 0, 0, 82] 13 26) = some ts ∧
      (([22, 22, 22, 22, 22, 22, 31, 65, 200, 0, 0, 0, 7, 49, 55, 48, 48, 48, 48, 48, 48, 48,
          48, 49, 50, 51, 0, 0, 0, 0, 82] : List Nat).getD 8 0 % 256 = 201 →
        (Time.zero = UnixMilli ts ∧ Time.zero = Time.zero)) ∧
      (([22, 22, 22, 22, 22, 22, 31, 65, 200, 0, 0, 0, 7, 49, 55, 48, 48, 48, 48, 48, 48, 48,
          48, 49, 50, 51, 0, 0, 0, 0, 82] : List Nat).getD 8 0 % 256 ≠ 201 →
        Time.zero = Time.zero) ∧
      (([22, 22, 22, 22, 22, 22, 31, 65, 200, 0, 0, 0, 7, 49, 55, 48, 48, 48, 48, 48, 48, 48,
          48, 49, 50, 51, 0, 0, 0, 0, 82] : List Nat).getD 8 0 % 256 = 200 →
        (Time.zero = Time.zero ∧ Time.zero = Time.zero)) ∧
      (([22, 22, 22, 22, 22, 22, 31, 65, 200, 0, 0, 0, 7, 49, 55, 48, 48, 48, 48, 48, 48, 48,
          48, 49, 50, 51, 0, 0, 0, 0, 82] : List Nat).getD 8 0 % 256 = 100 →
        (Time.zero = UnixMilli ts ∧ Time.zero = Time.zero)) :=
  received_on_decode Codec.raw
    [22, 22, 22, 22, 22, 22, 31, 65, 200, 0, 0, 0, 7, 49, 55, 48, 48, 48, 48, 48, 48, 48, 48, 49,
      50, 51, 0, 0, 0, 0, 82]
    { id := 7, status := 200, replyPort := 8001, fromNode := "", toNode := "",
      sentOn := Time.zero, receivedOn := Time.zero, Data := none } none rfl

/-! ## The checksum does not see the order of the bytes -/

theorem getChecksum_perm (l1 l2 : List Nat) (h : l1.Perm l2) : getChecksum l1 = getChecksum l2 := by
  rw [getChecksum_eq, getChecksum_eq, h.sum_eq]

theorem headerFields_swapPort {T : Type} (m : Message T) (N : Nat) :
    headerFields { m with replyPort := swapPort m.replyPort } N =
      [m.replyPort % 256, m.replyPort / 256 % 256] ++ (headerFields m N).drop 2 := by
  have k1 : ∀ lo hi : Nat, lo < 256 → hi < 256 → (lo * 256 + hi) / 256 % 256 = lo := by
    intro lo hi h h'; omega
  have k2 : ∀ lo hi : Nat, lo < 256 → hi < 256 → (lo * 256 + hi) % 256 = hi := by
    intro lo hi h h'; omega
  have h1 : swapPort m.replyPort / 256 % 256 = m.replyPort % 256 :=
    k1 _ _ (Nat.mod_lt _ (by decide)) (Nat.mod_lt _ (by decide))
  have h2 : swapPort m.replyPort % 256 = m.replyPort / 256 % 256 :=
    k2 _ _ (Nat.mod_lt _ (by decide)) (Nat.mod_lt _ (by decide))
  have ht : timestampField { m with replyPort := swapPort m.replyPort } = timestampField m := rfl
  simp only [headerFields, PutUint16, ht, h1, h2]
  rfl

theorem headerFields_swap_checksum {T : Type} (m : Message T) (N : Nat) :
    getChecksum (headerFields { m with replyPort := swapPort m.replyPort } N) =
      getChecksum (headerFields m N) := by
  apply getChecksum_perm
  rw [headerFields_swapPort]
  have hf : headerFields m N =
      [m.replyPort / 256 % 256, m.replyPort % 256] ++ (headerFields m N).drop 2 := by
    simp [headerFields, PutUint16]
  conv_rhs => rw [hf]
  exact List.Perm.append_right _ (List.Perm.swap _ _ _)

/-- Exchanging bytes 6 and 7 of an encoded header gives the encoded header of
the message whose reply port has its two bytes exchanged. -/
theorem swapBytes67_headerBytes {T : Type} (m : Message T) (N : Nat) (rest : List Nat) :
    swapBytes67 (headerBytes m N ++ rest) =
      headerBytes { m with replyPort := swapPort m.replyPort } N ++ rest := by
  have hcs := headerFields_swap_checksum m N
  have hsw := headerFields_swapPort m N
  have hl := headerFields_length m N
  unfold headerBytes
  rw [hcs, hsw]
  obtain ⟨x0, x1, tl, hx⟩ : ∃ x0 x1 tl, headerFields m N = x0 :: x1 :: tl := by
    match hh : headerFields m N, hl with
    | x0 :: x1 :: tl, _ => exact ⟨x0, x1, tl, rfl⟩
  have hx0 : x0 = m.replyPort / 256 % 256 := by
    have : (headerFields m N).getD 0 0 = m.replyPort / 256 % 256 := by
      simp [headerFields, PutUint16]
    rw [hx] at this; simpa using this
  have hx1 : x1 = m.replyPort % 256 := by
    have : (headerFields m N).getD 1 0 = m.replyPort % 256 := by
      simp [headerFields, PutUint16]
    rw [hx] at this; simpa using this
  rw [hx, ← hx0, ← hx1]
  simp [swapBytes67, messageSyncByteCount, List.replicate]

theorem headerMessage_swapPort {T : Type} (m : Message T) :
    headerMessage { m with replyPort := swapPort m.replyPort } =
      { headerMessage m with replyPort := swapPort m.replyPort % 65536 } := rfl

theorem swapPort_lt (p : Nat) : swapPort p < 65536 := by
  have h1 : p % 256 < 256 := Nat.mod_lt _ (by decide)
  have h2 : p / 256 % 256 < 256 := Nat.mod_lt _ (by decide)
  unfold swapPort; omega

/-- C30 (the checksum is order-blind). `getChecksum` gives the same value for
two byte sequences that are permutations of each other. Hence, for every frame,
the decoder gives for the encoded buffer with bytes 6 and 7 exchanged what it
gives for the encoded buffer, the same error (none for a valid frame) and the
same message, except that the two bytes of the reply port are exchanged. -/
theorem checksum_is_order_blind :
    (∀ l1 l2 : List Nat, l1.Perm l2 → getChecksum l1 = getChecksum l2) ∧
    (∀ (T : Type) (codec : Codec T) (F : Message T), IsFrame codec F →
      ∃ r, MessageFromBytes codec (wireBytes codec F) = some r ∧
        MessageFromBytes codec (swapBytes67 (wireBytes codec F)) =
          some (r.1.map (fun msg => { msg with replyPort := swapPort msg.replyPort }), r.2)) ∧
    MessageFromBytes Codec.raw (swapBytes67 examplePayloadWire) =
      some (some { id := 7, status := 100, replyPort := 16671, fromNode := "", toNode := "",
                   sentOn := UnixMilli 1700000000123, receivedOn := Time.zero,
                   Data := some [1, 2, 3, 4] }, none) := by
  refine ⟨getChecksum_perm, ?_, rfl⟩
  intro T codec F hF
  obtain ⟨ts, hts⟩ := hF.ParseInt_timestamp
  have hport : F.replyPort < 65536 := hF.2.1
  have hsp : swapPort (F.replyPort % 65536) = swapPort F.replyPort % 65536 := by
    rw [Nat.mod_eq_of_lt hport, Nat.mod_eq_of_lt (swapPort_lt _)]
  cases hD : F.Data with
  | none =>
    obtain ⟨_, hw⟩ := hF.ToBytes_no_payload hD
    have h1 := MessageFromBytes_header_only codec F 0 [] (by decide)
    have h2 := MessageFromBytes_header_only codec { F with replyPort := swapPort F.replyPort } 0 []
      (by decide)
    have ht : timestampField { F with replyPort := swapPort F.replyPort } = timestampField F := rfl
    rw [ht, hts, headerMessage_swapPort, ← swapBytes67_headerBytes] at h2
    rw [hts] at h1
    rw [List.append_nil] at h1 h2
    rw [hw]
    refine ⟨_, h1, ?_⟩
    rw [h2]
    simp only [Option.map_some', Option.some.injEq, Prod.mk.injEq, and_true]
    show _ = { headerMessage F with replyPort := swapPort (F.replyPort % 65536) }
    rw [hsp]
  | some d =>
    obtain ⟨p, hm, _, hb, hpos, hfit, _, hw⟩ := hF.ToBytes_payload hD
    have h1 := MessageFromBytes_payload codec F (base64Encode p) (getChecksum (base64Encode p))
      hpos hfit
    have h2 := MessageFromBytes_payload codec { F with replyPort := swapPort F.replyPort }
      (base64Encode p) (getChecksum (base64Encode p)) hpos hfit
    have ht : timestampField { F with replyPort := swapPort F.replyPort } = timestampField F := rfl
    rw [ht, hts, headerMessage_swapPort, List.append_assoc, ← swapBytes67_headerBytes,
      ← List.append_assoc] at h2
    rw [hts] at h1
    simp only [ne_eq, not_true_eq_false, if_false, base64Decode_encode p hb] at h1 h2
    rw [hw]
    cases hu : codec.unmarshal p with
    | none =>
      rw [hu] at h1 h2
      refine ⟨_, h1, ?_⟩
      rw [h2]
      simp only [Option.map_some', Option.some.injEq, Prod.mk.injEq, and_true]
      show _ = { headerMessage F with replyPort := swapPort (F.replyPort % 65536) }
      rw [hsp]
    | some data =>
      rw [hu] at h1 h2
      refine ⟨_, h1, ?_⟩
      rw [h2]
      simp only [Option.map_some', Option.some.injEq, Prod.mk.injEq, and_true]
      show _ = { headerMessage F with
        replyPort := swapPort (F.replyPort % 65536), Data := some data }
      rw [hsp]

/-! ## The buffer of the builder when a frame is complete -/

theorem slice_set_of_ge (l : List Nat) (i v lo hi : Nat) (h : hi ≤ i) :
    slice (l.set i v) lo hi = slice l lo hi := by
  unfold slice
  rw [List.drop_set]
  split_ifs with h1
  · rfl
  · rw [List.set_take, List.set_eq_of_length_le (by simp; omega)]

theorem getD_set_ne (l : List Nat) (i j v : Nat) (h : i ≠ j) :
    (l.set i v).getD j 0 = l.getD j 0 := by
  simp [List.getD_eq_getElem?_getD, List.getElem?_set_ne h]

theorem getD_set_self (l : List Nat) (i v : Nat) (h : i < l.length) :
    (l.set i v).getD i 0 = v := by
  simp [List.getD_eq_getElem?_getD, List.getElem?_set, h]

theorem slice_append_of_le (l z : List Nat) (lo hi : Nat) (h : hi ≤ l.length) :
    slice (l ++ z) lo hi = slice l lo hi := by
  unfold slice
  by_cases hlo : lo ≤ l.length
  · rw [List.drop_append_of_le_length hlo, List.take_append_of_le_length (by simp; omega)]
  · rw [show hi - lo = 0 by omega]
    simp

theorem getD_append_of_lt (l z : List Nat) (i : Nat) (h : i < l.length) :
    (l ++ z).getD i 0 = l.getD i 0 := by
  simp [List.getD_eq_getElem?_getD, List.getElem?_append_left h]

theorem HeaderOK_set (data : List Nat) (p b : Nat) (hp : 31 ≤ p) (h : HeaderOK data) :
    HeaderOK (data.set p b) := by
  obtain ⟨h1, h2⟩ := h
  refine ⟨fun i hi => ?_, ?_⟩
  · rw [getD_set_ne _ _ _ _ (by omega)]; exact h1 i hi
  · rw [getD_set_ne _ _ _ _ (by omega), slice_set_of_ge _ _ _ _ _ (by omega)]; exact h2

theorem WriteByte_readingPayload_panic (p : Nat) (data : List Nat) (pe ds b : Nat)
    (hd : ¬ p < data.length) : (readingPayload p data pe ds).WriteByte b = none := by
  by_cases hp : p = pe
  · subst hp
    simp [MessageBuilder.WriteByte, readingPayload, MessageBuilder.store, hd]
  · simp [MessageBuilder.WriteByte, readingPayload, MessageBuilder.store, hd, hp]

/-- One call of `WriteByte` keeps the builder among the states of `BuilderInv`,
and when it returns true the buffer has the layout of a frame. -/
theorem WriteByte_inv (m m1 : MessageBuilder) (b : Nat) (ready : Bool) (hm : BuilderInv m)
    (h : m.WriteByte b = some (m1, ready)) :
    BuilderInv m1 ∧ (ready = true → Emitted m1) := by
  obtain ⟨hlen, hS | hH | hP⟩ := hm
  · -- looking for the preamble
    obtain ⟨r, pe, ds, hr, hm, h6⟩ := hS
    rw [hm] at h
    by_cases hb : b = 22
    · subst hb
      by_cases hr5 : r < 5
      · rw [WriteByte_searching_sync r _ pe ds hr5 (by omega)] at h
        simp only [Option.some.injEq, Prod.mk.injEq] at h
        obtain ⟨h1, h2⟩ := h
        subst h1 h2
        refine ⟨⟨by simp [searching]; omega, Or.inl ⟨r + 1, pe, ds, by omega, rfl, ?_⟩⟩,
          fun h0 => Bool.noConfusion h0⟩
        intro i hi
        show (m.Data.set r 22).getD i 0 = 22
        by_cases hir : i = r
        · subst hir; exact getD_set_self _ _ _ (by omega)
        · rw [getD_set_ne _ _ _ _ (fun e => hir e.symm)]; exact h6 i (by omega)
      · have hr5' : r = 5 := by omega
        subst hr5'
        rw [WriteByte_searching_last _ pe ds (by omega)] at h
        simp only [Option.some.injEq, Prod.mk.injEq] at h
        obtain ⟨h1, h2⟩ := h
        subst h1 h2
        refine ⟨⟨by simp [readingHeader]; omega,
          Or.inr (Or.inl ⟨6, pe, ds, by omega, by omega, rfl, ?_⟩)⟩,
          fun h0 => Bool.noConfusion h0⟩
        intro i hi
        show (m.Data.set 5 22).getD i 0 = 22
        by_cases hir : i = 5
        · subst hir; exact getD_set_self _ _ _ (by omega)
        · rw [getD_set_ne _ _ _ _ (fun e => hir e.symm)]; exact h6 i (by omega)
    · rw [WriteByte_searching_other r _ pe ds b hr hb] at h
      simp only [Option.some.injEq, Prod.mk.injEq] at h
      obtain ⟨h1, h2⟩ := h
      subst h1 h2
      exact ⟨⟨hlen, Or.inl ⟨0, pe, ds, by omega, rfl, fun i hi => absurd hi (by omega)⟩⟩,
        fun h0 => Bool.noConfusion h0⟩
  · -- reading the header
    obtain ⟨p, pe, ds, hp6, hp30, hm, h6⟩ := hH
    rw [hm] at h
    by_cases hp : p < 30
    · rw [WriteByte_readingHeader p _ pe ds b hp (by omega)] at h
      simp only [Option.some.injEq, Prod.mk.injEq] at h
      obtain ⟨h1, h2⟩ := h
      subst h1 h2
      refine ⟨⟨by simp [readingHeader]; omega,
        Or.inr (Or.inl ⟨p + 1, pe, ds, by omega, by omega, rfl, ?_⟩)⟩,
        fun h0 => Bool.noConfusion h0⟩
      intro i hi
      show (m.Data.set p b).getD i 0 = 22
      rw [getD_set_ne _ _ _ _ (by omega)]; exact h6 i hi
    · have hp' : p = 30 := by omega
      subst hp'
      rw [WriteByte_readingHeader_last _ pe ds b (by omega)] at h
      have h6' : ∀ i, i < 6 → (m.Data.set 30 b).getD i 0 = 22 := by
        intro i hi
        rw [getD_set_ne _ _ _ _ (by omega)]; exact h6 i hi
      have hl' : 31 ≤ (m.Data.set 30 b).length := by simp; omega
      have hg : (m.Data.set 30 b).getD 30 0 = b := getD_set_self _ _ _ (by omega)
      by_cases hcs : getChecksum (slice (m.Data.set 30 b) 6 30) ≠ b
      · rw [if_pos hcs] at h
        simp only [Option.some.injEq, Prod.mk.injEq] at h
        obtain ⟨h1, h2⟩ := h
        subst h1 h2
        exact ⟨⟨hl', Or.inl ⟨0, pe, ds, by omega, rfl, fun i hi => absurd hi (by omega)⟩⟩,
          fun h0 => Bool.noConfusion h0⟩
      · rw [if_neg hcs] at h
        have hcs' : getChecksum (slice (m.Data.set 30 b) 6 30) = b := not_not.mp hcs
        have hok : HeaderOK (m.Data.set 30 b) := ⟨h6', by rw [hg, hcs']⟩
        by_cases hN : Uint32 (slice (m.Data.set 30 b) 26 30) > 0
        · rw [if_pos hN] at h
          simp only [Option.some.injEq, Prod.mk.injEq] at h
          obtain ⟨h1, h2⟩ := h
          subst h1 h2
          have hsl : ∀ lo hi, hi ≤ 31 →
              slice (m.Data.set 30 b ++ List.replicate
                ((Uint32 (slice (m.Data.set 30 b) 26 30) + 1) % 4294967296) 0) lo hi
                = slice (m.Data.set 30 b) lo hi :=
            fun lo hi hhi => slice_append_of_le _ _ _ _ (by omega)
          have hgd : ∀ i, i < 31 →
              (m.Data.set 30 b ++ List.replicate
                ((Uint32 (slice (m.Data.set 30 b) 26 30) + 1) % 4294967296) 0).getD i 0
                = (m.Data.set 30 b).getD i 0 :=
            fun i hi => getD_append_of_lt _ _ _ (by omega)
          refine ⟨⟨by simp [readingPayload]; omega, Or.inr (Or.inr ⟨31, ds, by omega, ?_, ?_, ?_, ?_⟩)⟩,
            fun h0 => Bool.noConfusion h0⟩
          · show 31 ≤ 31 + Uint32 (slice (_ ++ _) 26 30)
            omega
          · show 0 < Uint32 (slice (_ ++ _) 26 30)
            rw [hsl 26 30 (by omega)]; exact hN
          · show readingPayload 31 (_ ++ _) _ ds = readingPayload 31 (_ ++ _)
              (31 + Uint32 (slice (_ ++ _) 26 30)) ds
            rw [hsl 26 30 (by omega)]
          · refine ⟨fun i hi => ?_, ?_⟩
            · show List.getD (_ ++ _) i 0 = 22
              rw [hgd i (by omega)]; exact h6' i hi
            · show List.getD (_ ++ _) 30 0 = getChecksum (slice (_ ++ _) 6 30)
              rw [hgd 30 (by omega), hsl 6 30 (by omega)]; exact hok.2
        · rw [if_neg hN] at h
          simp only [Option.some.injEq, Prod.mk.injEq] at h
          obtain ⟨h1, h2⟩ := h
          subst h1 h2
          refine ⟨⟨hl', Or.inl ⟨0, pe, 31, by omega, rfl, fun i hi => absurd hi (by omega)⟩⟩,
            fun _ => ⟨hl', hok, ?_⟩⟩
          show 31 = if Uint32 (slice (m.Data.set 30 b) 26 30) = 0 then 31 else _
          rw [if_pos (by omega)]
  · -- reading the payload
    obtain ⟨p, ds, hp31, hpe, hN, hm, hok⟩ := hP
    rw [hm] at h
    by_cases hd : p < m.Data.length
    · have hok' : HeaderOK (m.Data.set p b) := HeaderOK_set _ p b hp31 hok
      have hsz : Uint32 (slice (m.Data.set p b) 26 30) = Uint32 (slice m.Data 26 30) := by
        rw [slice_set_of_ge _ _ _ _ _ (by omega)]
      by_cases hlast : p = 31 + Uint32 (slice m.Data 26 30)
      · rw [hlast] at h hd
        rw [WriteByte_readingPayload_last _ _ ds b hd] at h
        simp only [Option.some.injEq, Prod.mk.injEq] at h
        obtain ⟨h1, h2⟩ := h
        subst h1 h2
        rw [← hlast] at hd ⊢
        refine ⟨⟨by simp [searching]; omega,
          Or.inl ⟨0, _, _, by omega, rfl, fun i hi => absurd hi (by omega)⟩⟩,
          fun _ => ⟨by simp [searching]; omega, hok', ?_⟩⟩
        show p + 1 = if Uint32 (slice (m.Data.set p b) 26 30) = 0 then 31
          else 31 + Uint32 (slice (m.Data.set p b) 26 30) + 1
        rw [hsz, if_neg (by omega)]
        omega
      · rw [WriteByte_readingPayload p _ _ ds b hlast hd] at h
        simp only [Option.some.injEq, Prod.mk.injEq] at h
        obtain ⟨h1, h2⟩ := h
        subst h1 h2
        refine ⟨⟨by simp [readingPayload]; omega,
          Or.inr (Or.inr ⟨p + 1, ds, by omega, ?_, ?_, ?_, hok'⟩)⟩,
          fun h0 => Bool.noConfusion h0⟩
        · show p + 1 ≤ 31 + Uint32 (slice (m.Data.set p b) 26 30)
          rw [hsz]; omega
        · show 0 < Uint32 (slice (m.Data.set p b) 26 30)
          rw [hsz]; exact hN
        · show readingPayload (p + 1) (m.Data.set p b) _ ds = readingPayload (p + 1)
            (m.Data.set p b) (31 + Uint32 (slice (m.Data.set p b) 26 30)) ds
          rw [hsz]
    · rw [WriteByte_readingPayload_panic p _ _ ds b hd] at h
      exact Option.noConfusion h

theorem BuilderInv_new : BuilderInv NewMessageBuilder :=
  ⟨by simp [NewMessageBuilder],
    Or.inl ⟨0, 0, 0, by omega, rfl, fun i hi => absurd hi (by omega)⟩⟩

/-- The builder stays among the states of `BuilderInv` while bytes are fed. -/
theorem feed_inv {T : Type} (codec : Codec T) (m m1 : MessageBuilder) (l : List Nat)
    (t : List (Option (Option (Message T) × Option Error))) (hm : BuilderInv m)
    (h : MessageBuilder.feed codec m l = some (m1, t)) : BuilderInv m1 := by
  induction l generalizing m t with
  | nil =>
    simp only [MessageBuilder.feed, Option.some.injEq, Prod.mk.injEq] at h
    rw [← h.1]; exact hm
  | cons x xs ih =>
    simp only [MessageBuilder.feed] at h
    cases hw : m.WriteByte x with
    | none => rw [hw] at h; exact Option.noConfusion h
    | some res =>
      obtain ⟨m', ready⟩ := res
      have hinv := (WriteByte_inv m m' x ready hm hw).1
      rw [hw] at h
      simp only [] at h
      cases ready with
      | false =>
        simp only [Bool.false_eq_true, if_false] at h
        cases hf : MessageBuilder.feed codec m' xs with
        | none => rw [hf] at h; exact Option.noConfusion h
        | some r =>
          obtain ⟨m2, t2⟩ := r
          rw [hf] at h
          simp only [Option.some.injEq, Prod.mk.injEq] at h
          obtain ⟨h1, -⟩ := h
          subst h1
          exact ih m' t2 hinv hf
      | true =>
        simp only [if_true] at h
        cases hmsg : m'.Message codec with
        | none => rw [hmsg] at h; exact Option.noConfusion h
        | some r0 =>
          rw [hmsg] at h
          simp only [] at h
          cases hf : MessageBuilder.feed codec m' xs with
          | none => rw [hf] at h; exact Option.noConfusion h
          | some r =>
            obtain ⟨m2, t2⟩ := r
            rw [hf] at h
            simp only [Option.some.injEq, Prod.mk.injEq] at h
            obtain ⟨h1, -⟩ := h
            subst h1
            exact ih m' t2 hinv hf

theorem take_six_of_getD (l : List Nat) (hl : 6 ≤ l.length) (h : ∀ i, i < 6 → l.getD i 0 = 22) :
    l.take 6 = List.replicate 6 22 := by
  apply List.ext_getElem
  · simp; omega
  · intro i h1 h2
    have hi : i < 6 := by simpa using h2
    have := h i hi
    rw [List.getD_eq_getElem?_getD, List.getElem?_eq_getElem (by omega)] at this
    rw [List.getElem_replicate]
    simpa using this

/-- The decoder on a buffer with the layout of a frame returns, and the error
it returns is not `ErrInvalidMessageFormat`. -/
theorem MessageFromBytes_no_format_error {T : Type} (codec : Codec T) (bytes : List Nat)
    (hlen : 31 ≤ bytes.length) (h6 : ∀ i, i < 6 → bytes.getD i 0 = 22)
    (hcs : bytes.getD 30 0 = getChecksum (slice bytes 6 30))
    (hsz : 0 < Uint32 (slice bytes 26 30) → bytes.length = 31 + Uint32 (slice bytes 26 30) + 1) :
    ∃ r, MessageFromBytes codec bytes = some r ∧ r.2 ≠ some Error.ErrInvalidMessageFormat := by
  unfold MessageFromBytes
  simp only []
  have c1 : ¬ bytes.length < messageHeaderSize := by unfold messageHeaderSize; omega
  have c2 : ¬ (bytes.take messageSyncByteCount).any (fun b => decide (b ≠ messageSyncByte)) = true := by
    rw [show messageSyncByteCount = 6 from rfl, take_six_of_getD bytes (by omega) h6]
    decide
  have c3 : ¬ bytes.getD 30 0 ≠ getChecksum (slice bytes 6 30) := not_not.mpr hcs
  rw [if_neg c1, if_neg c2, if_neg c3]
  cases hp : ParseInt (slice bytes 13 26) with
  | none => exact ⟨_, rfl, by simp⟩
  | some ts =>
    simp only []
    by_cases c4 : Uint32 (slice bytes 26 30) > 0
    · have hl := hsz c4
      have c5 : ¬ bytes.length % 4294967296 ≠
          (messageHeaderSize + Uint32 (slice bytes 26 30) + 1) % 4294967296 := by
        unfold messageHeaderSize; rw [hl]; exact not_not.mpr rfl
      have c6 : ¬ bytes.length - 1 < messageHeaderSize := by unfold messageHeaderSize; omega
      rw [if_pos c4, if_neg c5, if_neg c6]
      cases hg : bytes[(messageHeaderSize + Uint32 (slice bytes 26 30)) % 4294967296]? with
      | none =>
        rw [List.getElem?_eq_none_iff] at hg
        have := Nat.mod_le (messageHeaderSize + Uint32 (slice bytes 26 30)) 4294967296
        unfold messageHeaderSize at hg this
        omega
      | some pc =>
        simp only []
        by_cases c7 : pc ≠ getChecksum (slice bytes messageHeaderSize (bytes.length - 1))
        · rw [if_pos c7]; exact ⟨_, rfl, by simp⟩
        rw [if_neg c7]
        cases hd : base64Decode (slice bytes messageHeaderSize (bytes.length - 1)) with
        | none => exact ⟨_, rfl, by simp⟩
        | some dataBytes =>
          simp only []
          cases hu : codec.unmarshal dataBytes with
          | none => exact ⟨_, rfl, by simp⟩
          | some data => exact ⟨_, rfl, by simp⟩
    · rw [if_neg c4]; exact ⟨_, rfl, by simp⟩

/-- The facts about `m.Data[:m.DataSize]` in a builder for which `WriteByte`
has just returned true. -/
theorem Emitted.frame_facts (m : MessageBuilder) (h : Emitted m) :
    m.frame.length = m.DataSize ∧ 31 ≤ m.DataSize ∧
    (∀ i, i < 6 → m.frame.getD i 0 = 22) ∧
    m.frame.getD 30 0 = getChecksum (slice m.frame 6 30) ∧
    Uint32 (slice m.frame 26 30) = Uint32 (slice m.Data 26 30) := by
  obtain ⟨hle, ⟨h6, hcs⟩, hds⟩ := h
  have h31 : 31 ≤ m.DataSize := by
    rw [hds]; split_ifs <;> omega
  unfold MessageBuilder.frame
  refine ⟨by simp; omega, h31, fun i hi => ?_, ?_, ?_⟩
  · rw [getD_take _ _ _ (by omega)]; exact h6 i hi
  · rw [getD_take _ _ _ (by omega), slice_take _ _ _ _ (by omega)]; exact hcs
  · rw [slice_take _ _ _ _ (by omega)]

/-- C29 (parser/decoder agreement). Whenever `WriteByte` returns true, after
any sequence of bytes fed to a fresh builder, the buffer `Data[:DataSize]`
has `DataSize` bytes, begins with six 0x16 bytes, has at index 30 the checksum
of bytes 6..29, and `DataSize` is 31 when the payload-size field is 0 and
31 + payload size + 1 otherwise; `Message` is the decoder on that buffer, it
returns, its error is never `ErrInvalidMessageFormat`, and the length check of
the decoder does not fail. -/
theorem parser_decoder_agreement {T : Type} (codec : Codec T) (input : List Nat) (b : Nat)
    (mb mb1 : MessageBuilder) (t : List (Option (Option (Message T) × Option Error)))
    (h1 : MessageBuilder.feed codec NewMessageBuilder input = some (mb, t))
    (h2 : mb.WriteByte b = some (mb1, true)) :
    mb1.DataSize ≤ mb1.Data.length ∧ mb1.frame.length = mb1.DataSize ∧
    mb1.frame.take 6 = List.replicate 6 22 ∧
    mb1.frame.getD 30 0 = ((slice mb1.frame 6 30).foldl (fun c x => (c + x) % 256) 0) ^^^ 255 ∧
    (Uint32 (slice mb1.frame 26 30) = 0 → mb1.DataSize = 31) ∧
    (Uint32 (slice mb1.frame 26 30) ≠ 0 →
      mb1.DataSize = 31 + Uint32 (slice mb1.frame 26 30) + 1) ∧
    mb1.Message codec = MessageFromBytes codec mb1.frame ∧
    (∃ r, mb1.Message codec = some r ∧ r.2 ≠ some Error.ErrInvalidMessageFormat) ∧
    ¬ (mb1.frame.length % 4294967296 ≠
        (messageHeaderSize + Uint32 (slice mb1.frame 26 30) + 1) % 4294967296 ∧
       Uint32 (slice mb1.frame 26 30) > 0) := by
  have hinv := feed_inv codec _ _ _ _ BuilderInv_new h1
  have hem := (WriteByte_inv mb mb1 b true hinv h2).2 rfl
  obtain ⟨hlen, h31, h6, hcs, hN⟩ := Emitted.frame_facts mb1 hem
  obtain ⟨hle, _, hds⟩ := hem
  rw [← hN] at hds
  have hmsg : mb1.Message codec = MessageFromBytes codec mb1.frame := by
    unfold MessageBuilder.Message MessageBuilder.frame
    rw [if_pos hle]
  have hz : Uint32 (slice mb1.frame 26 30) = 0 → mb1.DataSize = 31 := by
    intro h0; rw [hds, if_pos h0]
  have hnz : Uint32 (slice mb1.frame 26 30) ≠ 0 →
      mb1.DataSize = 31 + Uint32 (slice mb1.frame 26 30) + 1 := by
    intro h0; rw [hds, if_neg h0]
  refine ⟨hle, hlen, take_six_of_getD _ (by omega) h6, hcs, hz, hnz, hmsg, ?_, ?_⟩
  · rw [hmsg]
    exact MessageFromBytes_no_format_error codec _ (by omega) h6 hcs
      (fun hpos => by rw [hlen]; exact hnz (by omega))
  · rintro ⟨hne, hpos⟩
    apply hne
    rw [hlen, hnz (by omega)]
    rfl

theorem parser_decoder_agreement_witness :
    MessageBuilder.feed Codec.raw NewMessageBuilder examplePayloadWire.dropLast
      = some (readingPayload 39 (examplePayloadWire.set 39 0) 39 0,
          (List.replicate 39 none : List (Option (Option (Message (List Nat)) × Option Error)))) ∧
    (readingPayload 39 (examplePayloadWire.set 39 0) 39 0).WriteByte 227
      = some (searching 0 examplePayloadWire 39 40, true) ∧
    (searching 0 examplePayloadWire 39 40).frame.take 6 = List.replicate 6 22 ∧
    (searching 0 examplePayloadWire 39 40).DataSize
      = 31 + Uint32 (slice (searching 0 examplePayloadWire 39 40).frame 26 30) + 1 ∧
    ∃ r, (searching 0 examplePayloadWire 39 40).Message Codec.raw = some r ∧
      r.2 ≠ some Error.ErrInvalidMessageFormat :=
  have h := parser_decoder_agreement (T := List Nat) Codec.raw examplePayloadWire.dropLast 227
    (readingPayload 39 (examplePayloadWire.set 39 0) 39 0) (searching 0 examplePayloadWire 39 40)
    (List.replicate 39 none) rfl rfl
  ⟨rfl, rfl, h.2.2.1, h.2.2.2.2.2.1 (by decide), h.2.2.2.2.2.2.2.1⟩

/-- The call of `WriteByte` on the byte at index `k` of the input, in a run of
`MessageBuilder.feed` that does not panic: the builder before the call is the
one after the first `k` bytes, and entry `k` of the trace is `none` when the
call returns false and the result of `Message` when it returns true. -/
theorem feed_call {T : Type} (codec : Codec T) (m m2 : MessageBuilder) (l : List Nat)
    (t : List (Option (Option (Message T) × Option Error)))
    (h : MessageBuilder.feed codec m l = some (m2, t)) (k : Nat) (hk : k < l.length) :
    ∃ m1 t1 m1' ready, MessageBuilder.feed codec m (l.take k) = some (m1, t1) ∧
      m1.WriteByte (l.getD k 0) = some (m1', ready) ∧
      ((ready = false ∧ t[k]? = some none) ∨
       (ready = true ∧ ∃ r, m1'.Message codec = some r ∧ t[k]? = some (some r))) := by
  induction l generalizing m t k with
  | nil => exact absurd hk (by simp)
  | cons x xs ih =>
    simp only [MessageBuilder.feed] at h
    cases hw : m.WriteByte x with
    | none => rw [hw] at h; exact Option.noConfusion h
    | some res =>
      obtain ⟨m', ready⟩ := res
      rw [hw] at h
      simp only [] at h
      cases ready with
      | false =>
        simp only [Bool.false_eq_true, if_false] at h
        cases hf : MessageBuilder.feed codec m' xs with
        | none => rw [hf] at h; exact Option.noConfusion h
        | some r =>
          obtain ⟨m3, t3⟩ := r
          rw [hf] at h
          simp only [Option.some.injEq, Prod.mk.injEq] at h
          obtain ⟨h1, h2⟩ := h
          subst h1 h2
          cases k with
          | zero => exact ⟨m, [], m', false, rfl, hw, Or.inl ⟨rfl, by simp⟩⟩
          | succ j =>
            obtain ⟨m1, t1, m1', rdy, hf1, hw1, hcase⟩ := ih m' t3 hf j (by simpa using hk)
            exact ⟨m1, none :: t1, m1', rdy, feed_cons_false codec _ _ _ _ _ _ hw hf1, hw1,
              by simpa using hcase⟩
      | true =>
        simp only [if_true] at h
        cases hmsg : m'.Message codec with
        | none => rw [hmsg] at h; exact Option.noConfusion h
        | some r0 =>
          rw [hmsg] at h
          simp only [] at h
          cases hf : MessageBuilder.feed codec m' xs with
          | none => rw [hf] at h; exact Option.noConfusion h
          | some r =>
            obtain ⟨m3, t3⟩ := r
            rw [hf] at h
            simp only [Option.some.injEq, Prod.mk.injEq] at h
            obtain ⟨h1, h2⟩ := h
            subst h1 h2
            cases k with
            | zero => exact ⟨m, [], m', true, rfl, hw, Or.inr ⟨rfl, r0, hmsg, by simp⟩⟩
            | succ j =>
              obtain ⟨m1, t1, m1', rdy, hf1, hw1, hcase⟩ := ih m' t3 hf j (by simpa using hk)
              exact ⟨m1, some r0 :: t1, m1', rdy,
                feed_cons_true codec _ _ _ _ _ _ _ hw hmsg hf1, hw1,
                by simpa using hcase⟩

/-- A sequence without the sync byte has no run of six sync bytes and does not
end with one. -/
theorem no_run_of_no_sync (P : List Nat) (h : ∀ x ∈ P, x ≠ 22) :
    ¬ List.replicate 6 22 <:+: P ∧ P.getLast? ≠ some 22 := by
  constructor
  · intro hin
    exact h 22 (hin.subset (by simp)) rfl
  · intro hl
    exact h 22 (List.mem_of_getLast?_eq_some hl) rfl

theorem trace_getElem_lt {α : Type} (n k : Nat) (x : α) (hk : k < n) :
    (List.replicate n (none : Option α) ++ [some x])[k]? = some none := by
  rw [List.getElem?_append_left (by simpa using hk)]
  simp [List.getElem?_replicate, hk]

theorem trace_getElem_last {α : Type} (n : Nat) (x : α) :
    (List.replicate n (none : Option α) ++ [some x])[n]? = some (some x) := by
  rw [List.getElem?_append_right (by simp)]
  simp

/-- C28 (resync after garbage), amended by the size bound. For every byte
sequence `P` that has no run of six consecutive 0x16 bytes and does not end
with 0x16, or that has no 0x16 at all, and every frame `F` with no payload or a
non-empty payload whose base64 text is shorter than 2^32 - 32 bytes, `ToBytes`
returns a buffer `w` for `F`, and a fresh builder fed `P ∥ w` byte by byte
returns false on every byte before the last, true on the last byte, and
`Message` then gives what `MessageFromBytes` gives on `w`. -/
theorem resync_after_garbage {T : Type} (codec : Codec T) (P : List Nat) (F : Message T)
    (hP : (¬ List.replicate 6 22 <:+: P ∧ P.getLast? ≠ some 22) ∨ ∀ x ∈ P, x ≠ 22)
    (hF : IsFrame codec F) :
    ∃ w r, F.ToBytes codec = some (some w, none) ∧ MessageFromBytes codec w = some r ∧
      (∀ k, k + 1 < (P ++ w).length → ∃ m1 t1 m2,
        MessageBuilder.feed codec NewMessageBuilder ((P ++ w).take k) = some (m1, t1) ∧
        m1.WriteByte ((P ++ w).getD k 0) = some (m2, false)) ∧
      ∃ m1 t1 m2,
        MessageBuilder.feed codec NewMessageBuilder ((P ++ w).take ((P ++ w).length - 1))
          = some (m1, t1) ∧
        m1.WriteByte ((P ++ w).getD ((P ++ w).length - 1) 0) = some (m2, true) ∧
        m2.Message codec = some r := by
  have hP2 : ¬ List.replicate 6 22 <:+: P ∧ P.getLast? ≠ some 22 := by
    rcases hP with h | h
    · exact h
    · exact no_run_of_no_sync P h
  obtain ⟨r, mb, hr, hf⟩ := feed_prefix_frame codec P F hP2.1 hP2.2 hF
  have hto : F.ToBytes codec = some (some (wireBytes codec F), none) := by
    cases hD : F.Data with
    | none =>
      obtain ⟨h1, h2⟩ := hF.ToBytes_no_payload hD
      rw [h2]; exact h1
    | some d =>
      obtain ⟨p, _, _, _, _, _, h1, h2⟩ := hF.ToBytes_payload hD
      rw [h2]; exact h1
  have hw31 : 31 ≤ (wireBytes codec F).length := hF.wellFramed.1
  have hlen : (P ++ wireBytes codec F).length = P.length + (wireBytes codec F).length := by simp
  refine ⟨wireBytes codec F, r, hto, hr, ?_, ?_⟩
  · intro k hk
    obtain ⟨m1, t1, m2, ready, h1, h2, hcase⟩ := feed_call codec _ _ _ _ hf k (by omega)
    rw [trace_getElem_lt _ k r (by omega)] at hcase
    rcases hcase with ⟨hrd, _⟩ | ⟨_, r1, _, hbad⟩
    · subst hrd; exact ⟨m1, t1, m2, h1, h2⟩
    · simp at hbad
  · obtain ⟨m1, t1, m2, ready, h1, h2, hcase⟩ :=
      feed_call codec _ _ _ _ hf ((P ++ wireBytes codec F).length - 1) (by omega)
    rw [hlen, trace_getElem_last] at hcase
    rw [hlen]
    rw [hlen] at h1 h2
    rcases hcase with ⟨_, hbad⟩ | ⟨hrd, r1, hm, hr1⟩
    · simp at hbad
    · subst hrd
      simp only [Option.some.injEq] at hr1
      subst hr1
      exact ⟨m1, t1, m2, h1, h2, hm⟩

theorem resync_after_garbage_witness :
    ∃ w r, examplePayloadMessage.ToBytes Codec.raw = some (some w, none) ∧
      MessageFromBytes Codec.raw w = some r ∧
      (∀ k, k + 1 < ([22, 22, 1, 22, 22, 22, 22, 22, 0] ++ w).length → ∃ m1 t1 m2,
        MessageBuilder.feed Codec.raw NewMessageBuilder
          (([22, 22, 1, 22, 22, 22, 22, 22, 0] ++ w).take k) = some (m1, t1) ∧
        m1.WriteByte (([22, 22, 1, 22, 22, 22, 22, 22, 0] ++ w).getD k 0) = some (m2, false)) ∧
      ∃ m1 t1 m2,
        MessageBuilder.feed Codec.raw NewMessageBuilder
          (([22, 22, 1, 22, 22, 22, 22, 22, 0] ++ w).take
            (([22, 22, 1, 22, 22, 22, 22, 22, 0] ++ w).length - 1)) = some (m1, t1) ∧
        m1.WriteByte (([22, 22, 1, 22, 22, 22, 22, 22, 0] ++ w).getD
          (([22, 22, 1, 22, 22, 22, 22, 22, 0] ++ w).length - 1) 0) = some (m2, true) ∧
        m2.Message Codec.raw = some r :=
  resync_after_garbage Codec.raw [22, 22, 1, 22, 22, 22, 22, 22, 0] examplePayloadMessage
    (Or.inl ⟨by decide, by decide⟩)
    ⟨by decide, by decide, Or.inl rfl, [1, 2, 3, 4], rfl, by decide, by decide, by decide⟩

/-- C27 (parser memory safety) fails for the payload size 2^32 - 1. The 31
bytes of `maxSizeHeader` are a header with a valid checksum whose size field
is 2^32 - 1; a fresh builder that has read them is in the payload state with
`payloadEndIndex` 31 + (2^32 - 1), but `Data` has grown by (2^32 - 1 + 1) mod
2^32 = 0 bytes and still has 31, so the next call of `WriteByte`, with any
byte, writes `Data[31]` out of range and panics. The same holds from every
builder that reads the checksum byte of such a header into a buffer of 31
bytes. -/
theorem builder_index_out_of_range_at_max_size :
    Uint32 (slice maxSizeHeader 26 30) = 4294967295 ∧
    maxSizeHeader.getD 30 0 = getChecksum (slice maxSizeHeader 6 30) ∧
    (∃ t, MessageBuilder.feed (T := List Nat) Codec.raw NewMessageBuilder maxSizeHeader
      = some (readingPayload 31 maxSizeHeader (31 + 4294967295) 0, t)) ∧
    (readingPayload 31 maxSizeHeader (31 + 4294967295) 0).Data.length = 31 ∧
    (∀ b, (readingPayload 31 maxSizeHeader (31 + 4294967295) 0).WriteByte b = none) ∧
    (∀ b, MessageBuilder.feed (T := List Nat) Codec.raw NewMessageBuilder (maxSizeHeader ++ [b])
      = none) ∧
    (∀ (data : List Nat) (pe ds b c : Nat), data.length = 31 →
      Uint32 (slice (data.set 30 b) 26 30) = 4294967295 →
      getChecksum (slice (data.set 30 b) 6 30) = b →
      ∃ m1, (readingHeader 30 data pe ds).WriteByte b = some (m1, false) ∧
        m1.Data.length = 31 ∧ m1.WriteByte c = none) := by
  have hfeed : MessageBuilder.feed (T := List Nat) Codec.raw NewMessageBuilder maxSizeHeader
      = some (readingPayload 31 maxSizeHeader (31 + 4294967295) 0, List.replicate 31 none) := rfl
  have hpanic : ∀ b, (readingPayload 31 maxSizeHeader (31 + 4294967295) 0).WriteByte b = none :=
    fun b => WriteByte_readingPayload_panic 31 maxSizeHeader _ 0 b (by decide)
  refine ⟨by decide, by decide, ⟨_, hfeed⟩, rfl, hpanic, ?_, ?_⟩
  · intro b
    cases hf : MessageBuilder.feed (T := List Nat) Codec.raw NewMessageBuilder
        (maxSizeHeader ++ [b]) with
    | none => rfl
    | some res =>
      obtain ⟨m2, t⟩ := res
      obtain ⟨m1, t1, m1', ready, h1, h2, _⟩ := feed_call Codec.raw _ _ _ _ hf 31 (by simp [maxSizeHeader])
      rw [show (maxSizeHeader ++ [b]).take 31 = maxSizeHeader by simp [maxSizeHeader], hfeed] at h1
      simp only [Option.some.injEq, Prod.mk.injEq] at h1
      rw [← h1.1, hpanic] at h2
      exact Option.noConfusion h2
  · intro data pe ds b c hl hN hcs
    rw [WriteByte_readingHeader_last data pe ds b (by omega)]
    rw [if_neg (not_not.mpr hcs), if_pos (by omega), hN]
    refine ⟨_, rfl, ?_, ?_⟩
    · simp [readingPayload, hl]
    · exact WriteByte_readingPayload_panic 31 _ _ ds c (by simp [hl])

/-! ## A payload whose base64 text has 2^32 bytes -/

/-- The header that `ToBytes` writes for the example message with any payload
when the `uint32` payload size is 0. -/
theorem headerBytes_size_zero (p : List Nat) :
    headerBytes
        ({ id := 7, status := MessageSent, replyPort := 8001, fromNode := "", toNode := ":8002",
           sentOn := UnixMilli 1700000000123, receivedOn := Time.zero,
           Data := some p } : Message (List Nat)) 0
      = [22, 22, 22, 22, 22, 22, 31, 65, 100, 0, 0, 0, 7, 49, 55, 48, 48, 48, 48, 48, 48, 48, 48,
          49, 50, 51, 0, 0, 0, 0, 182] := by
  have h : headerBytes exampleMessage 0
      = [22, 22, 22, 22, 22, 22, 31, 65, 100, 0, 0, 0, 7, 49, 55, 48, 48, 48, 48, 48, 48, 48, 48,
          49, 50, 51, 0, 0, 0, 0, 182] := by decide
  exact h

/-- Go `ToBytes` for the example message with a raw payload whose base64 text
has a length that is a multiple of 2^32: the header with size field 0 and one
zero byte. -/
theorem ToBytes_wrapped (p : List Nat) (hz : (base64Encode p).length % 4294967296 = 0) :
    Message.ToBytes Codec.raw
        { id := 7, status := MessageSent, replyPort := 8001, fromNode := "", toNode := ":8002",
          sentOn := UnixMilli 1700000000123, receivedOn := Time.zero, Data := some p }
      = some (some [22, 22, 22, 22, 22, 22, 31, 65, 100, 0, 0, 0, 7, 49, 55, 48, 48, 48, 48, 48,
          48, 48, 48, 49, 50, 51, 0, 0, 0, 0, 182, 0], none) := by
  rw [ToBytes_of_size_zero Codec.raw _ p p rfl rfl hz, headerBytes_size_zero]
  rfl

theorem base64Encode_length_3GiB :
    (base64Encode (List.replicate 3221225472 0)).length = 4294967296 := by
  rw [base64Encode_length, List.length_replicate]

/-- C3, as stated, fails for a raw payload of 3 GiB (3 * 2^30 zero bytes): the
base64 text has 2^32 bytes, but bytes 26..29 of the buffer are all 0. -/
theorem header_size_field_wraps_at_3GiB :
    ∃ b,
      Message.ToBytes Codec.raw
        { id := 7, status := MessageSent, replyPort := 8001, fromNode := "", toNode := ":8002",
          sentOn := UnixMilli 1700000000123, receivedOn := Time.zero,
          Data := some (List.replicate 3221225472 0) }
        = some (some b, none) ∧
      slice b 26 30 = [0, 0, 0, 0] ∧
      (base64Encode (List.replicate 3221225472 0)).length = 4294967296 ∧
      Uint32 (slice b 26 30) ≠ (base64Encode (List.replicate 3221225472 0)).length := by
  have hlen := base64Encode_length_3GiB
  refine ⟨_, ToBytes_wrapped _ (by rw [hlen]), by decide, hlen, ?_⟩
  rw [hlen]
  decide

/-- C5, as stated, fails for a raw payload of 3 GiB (3 * 2^30 zero bytes): the
`uint32` payload size is 0 and `ToBytes` returns 32 bytes; with bit 0 of byte
31, the byte in the place of the payload checksum, inverted, `MessageFromBytes`
returns a message and no error. -/
theorem flipped_bit_accepted_at_3GiB :
    ∃ b msg,
      Message.ToBytes Codec.raw
        { id := 7, status := MessageSent, replyPort := 8001, fromNode := "", toNode := ":8002",
          sentOn := UnixMilli 1700000000123, receivedOn := Time.zero,
          Data := some (List.replicate 3221225472 0) }
        = some (some b, none) ∧
      b.length = 32 ∧ flipBit b 31 0 ≠ b ∧
      MessageFromBytes Codec.raw (flipBit b 31 0) = some (some msg, none) := by
  have hlen := base64Encode_length_3GiB
  exact ⟨_, _, ToBytes_wrapped _ (by rw [hlen]), by decide, by decide, rfl⟩

/-- C28, as stated, fails for a raw payload of 3 GiB (3 * 2^30 zero bytes)
after the prefix `[1, 2, 3]`: `ToBytes` returns 32 bytes with size field 0, and
the builder returns true on the header checksum byte, the second to last byte
of the input, and false on the last byte. -/
theorem resync_fails_at_3GiB :
    ∃ w r mb,
      Message.ToBytes Codec.raw
        { id := 7, status := MessageSent, replyPort := 8001, fromNode := "", toNode := ":8002",
          sentOn := UnixMilli 1700000000123, receivedOn := Time.zero,
          Data := some (List.replicate 3221225472 0) }
        = some (some w, none) ∧
      w.length = 32 ∧
      MessageBuilder.feed (T := List Nat) Codec.raw NewMessageBuilder ([1, 2, 3] ++ w)
        = some (mb, List.replicate 33 none ++ [some r, none]) := by
  have hlen := base64Encode_length_3GiB
  exact ⟨_, _, _, ToBytes_wrapped _ (by rw [hlen]), by decide, rfl⟩

end Comm
